import Mathlib

/-!
# libogc_jpeg: the pixel packer and the surface compositor

A shallow embedding of `source/JPEG.cpp`:

* `Rgb2Yuv`      : `JPEG::Rgb2Yuv`, two RGB pixels to one Y1CbY2Cr unit;
* `packPixels`   : the conversion loops of `JPEG::JPEG(const uint8_t*, uint64_t)`;
* `memcpy`       : `std::memcpy` between two arrays of 32-bit units;
* `F32`          : the `float` operations of `JPEG::Display` (conversion from
  `int`, product, quotient, comparison with 0, conversion to `int32_t`);
* `Display`      : `JPEG::Display`, the clipped row-by-row copy;
* `JPEG.copyCtor`, `JPEG.moveCtor`, `JPEG.copyAssign`, `JPEG.moveAssign`,
  `JPEG.dtor` : the copy and move operations and the destructor, on objects
  and heap blocks held by address;
* `JPEG.ctorBuffer`, `JPEG.ctorFile` : the two constructors, with the codec
  and the allocators given by the outcomes of their calls.

Conventions of the embedding.

* `int32_t` expressions are computed in `Int`.  Narrowing conversions are
  explicit: `s16` for the `s16` loop counters of the packer, `% 65536` for the
  `uint16_t` row counter of `Display`, `u32` for `uint32_t` and `toSizeT` for
  the `size_t` length of `memcpy` (32 bits on the PowerPC target of libogc).
* `float` is IEEE 754 binary32 (`F32`): a conversion from an integer, a
  product and a quotient are each rounded to nearest with ties to even.  The
  conversion to `int32_t` discards the fraction; for a value outside the range
  of `int32_t` it gives what the conversion instruction of the target
  (`fctiwz`) delivers, the nearest end of the range.
* Arrays are lists; an access outside an array is reported as
  `Status.fault`, a loop that never exits as `Status.diverges`.
-/

/-! ## Machine integers -/

/-- Two's complement bit pattern of an integer converted to `uint32_t`. -/
def u32 (z : Int) : Nat := (z % 4294967296).toNat

/-- Conversion of an integer to the 16-bit signed type `s16` (wrapping). -/
def s16 (z : Int) : Int := (z + 32768) % 65536 - 32768

/-- Conversion of an `int` byte count to `size_t`, which has 32 bits on the target. -/
def toSizeT (n : Int) : Nat := (n % 4294967296).toNat

/-! ## Binary32 -/

/-- A `float` of the target, IEEE 754 binary32.  `finite neg m e` is the value
`(-1)^neg * m * 2^e` (a zero carries its sign); the values of the format are
those with `m < 2^24` and `-149 ≤ e ≤ 104`. -/
inductive F32
  | finite (neg : Bool) (m : Nat) (e : Int)
  | inf (neg : Bool)
  | nan
deriving DecidableEq

/-- The value of a finite `float` as a rational (0 for an infinity and for NaN). -/
def F32.toRat : F32 → ℚ
  | F32.finite neg m e => (if neg then -1 else 1) * ((m : ℚ) * 2 ^ e)
  | _ => 0

/-- The test `n / d * 2^E < 2^k`, on naturals. -/
def F32.below (n d : Nat) (E k : Int) : Bool :=
  decide (n * 2 ^ (E - min E k).toNat < d * 2 ^ (k - min E k).toNat)

/-- The exponent of the last place of `n / d * 2^E`: the least `e`, from `e`
on and among `fuel` candidates, with `n / d * 2^E < 2^(e + 24)`. -/
def F32.exponent (n d : Nat) (E : Int) : Nat → Int → Option Int
  | 0, _ => none
  | fuel + 1, e =>
    if F32.below n d E (e + 24) then some e else F32.exponent n d E fuel (e + 1)

/-- The integer nearest to `N / D`, the even one of the two on a tie. -/
def F32.roundEven (N D : Nat) : Nat :=
  if 2 * (N % D) < D then N / D
  else if D < 2 * (N % D) then N / D + 1
  else if (N / D) % 2 = 0 then N / D else N / D + 1

/-- Rounding of `(-1)^neg * n / d * 2^E` to binary32, to nearest with ties to
even: the last place is `2^(-149)` for the subnormal values, and the result is
an infinity from `2^128` on. -/
def F32.round (neg : Bool) (n d : Nat) (E : Int) : F32 :=
  if n = 0 then F32.finite neg 0 0
  else
    match F32.exponent n d E 254 (-149) with
    | none => F32.inf neg
    | some e =>
      let m := F32.roundEven (n * 2 ^ (E - e).toNat) (d * 2 ^ (e - E).toNat)
      if m < 16777216 then F32.finite neg m e
      else if e < 104 then F32.finite neg 8388608 (e + 1)
      else F32.inf neg

/-- Conversion of an `int` to `float`. -/
def F32.ofInt (z : Int) : F32 := F32.round (decide (z < 0)) z.natAbs 1 0

/-- The product `a * b` of two `float`s. -/
def F32.mul : F32 → F32 → F32
  | F32.nan, _ => F32.nan
  | _, F32.nan => F32.nan
  | F32.inf s, F32.inf t => F32.inf (xor s t)
  | F32.inf s, F32.finite t m _ => if m = 0 then F32.nan else F32.inf (xor s t)
  | F32.finite s m _, F32.inf t => if m = 0 then F32.nan else F32.inf (xor s t)
  | F32.finite s m e, F32.finite t k f => F32.round (xor s t) (m * k) 1 (e + f)

/-- The quotient `a / b` of two `float`s. -/
def F32.div : F32 → F32 → F32
  | F32.nan, _ => F32.nan
  | _, F32.nan => F32.nan
  | F32.inf _, F32.inf _ => F32.nan
  | F32.inf s, F32.finite t _ _ => F32.inf (xor s t)
  | F32.finite s _ _, F32.inf t => F32.finite (xor s t) 0 0
  | F32.finite s m e, F32.finite t k f =>
    if k = 0 then (if m = 0 then F32.nan else F32.inf (xor s t))
    else F32.round (xor s t) m k (e - f)

/-- The comparison `f <= 0` of a `float` with the `int` 0: it holds for the
zeros, for the negative values and for the negative infinity, not for NaN. -/
def F32.leZero : F32 → Bool
  | F32.finite neg m _ => neg || decide (m = 0)
  | F32.inf neg => neg
  | F32.nan => false

/-- Conversion of a `float` to `int32_t`: the fraction is discarded (truncation
toward zero).  A value beyond the range, an infinity and NaN give what the
instruction `fctiwz` of the target stores: the nearest end of the range, and
the least `int32_t` for NaN. -/
def F32.toI32 : F32 → Int
  | F32.finite neg m e =>
    if neg then max (-((m * 2 ^ e.toNat / 2 ^ (-e).toNat : Nat) : Int)) (-2147483648)
    else min ((m * 2 ^ e.toNat / 2 ^ (-e).toNat : Nat) : Int) 2147483647
  | F32.inf neg => if neg then -2147483648 else 2147483647
  | F32.nan => -2147483648

/-! ## Outcomes -/

/-- How a run of the embedded code ends. -/
inductive Status
  | ok
  | domainError
  | fault
  | diverges
deriving DecidableEq

/-! ## `JPEG::Rgb2Yuv` -/

/-- The function `JPEG::Rgb2Yuv`.  The components are computed in `int32_t` with
truncating division and arithmetic right shift; the shifts of the return
expression act on the 32-bit patterns and the result is a `uint32_t`. -/
def Rgb2Yuv (uyR1 uyG1 uyB1 uyR2 uyG2 uyB2 : UInt8) : Nat :=
  let r1 : Int := uyR1.toNat
  let g1 : Int := uyG1.toNat
  let b1 : Int := uyB1.toNat
  let r2 : Int := uyR2.toNat
  let g2 : Int := uyG2.toNat
  let b2 : Int := uyB2.toNat
  let iY1 := Int.tdiv (299 * r1 + 587 * g1 + 114 * b1) 1000
  let iCb1 := Int.tdiv (-16874 * r1 - 33126 * g1 + 50000 * b1 + 12800000) 100000
  let iCr1 := Int.tdiv (50000 * r1 - 41869 * g1 - 8131 * b1 + 12800000) 100000
  let iY2 := Int.tdiv (299 * r2 + 587 * g2 + 114 * b2) 1000
  let iCb2 := Int.tdiv (-16874 * r2 - 33126 * g2 + 50000 * b2 + 12800000) 100000
  let iCr2 := Int.tdiv (50000 * r2 - 41869 * g2 - 8131 * b2 + 12800000) 100000
  let iCb := (iCb1 + iCb2) >>> (1 : Nat)
  let iCr := (iCr1 + iCr2) >>> (1 : Nat)
  (u32 iY1 <<< 24) % 4294967296 ||| (u32 iCb <<< 16) % 4294967296
    ||| (u32 iY2 <<< 8) % 4294967296 ||| u32 iCr

/-! ### The conversion as the specification words it -/

/-- Luma of the specification: `floor(0.299*R + 0.587*G + 0.114*B)`. -/
def specY (R G B : ℚ) : Int := ⌊0.299 * R + 0.587 * G + 0.114 * B⌋

/-- Blue chroma of the specification: `floor((-0.16874*R - 0.33126*G + 0.5*B) + 128)`. -/
def specCb (R G B : ℚ) : Int := ⌊(-0.16874 * R - 0.33126 * G + 0.5 * B) + 128⌋

/-- Red chroma of the specification: `floor((0.5*R - 0.41869*G - 0.08131*B) + 128)`. -/
def specCr (R G B : ℚ) : Int := ⌊(0.5 * R - 0.41869 * G - 0.08131 * B) + 128⌋

/-- Packed unit of the specification: `Y1*2^24 + Cb*2^16 + Y2*2^8 + Cr` with the
chroma of the two pixels averaged by `floor((c1 + c2) / 2)`. -/
def specRgb2Yuv (R1 G1 B1 R2 G2 B2 : ℚ) : Int :=
  let Cb : Int := ⌊((specCb R1 G1 B1 + specCb R2 G2 B2 : Int) : ℚ) / 2⌋
  let Cr : Int := ⌊((specCr R1 G1 B1 + specCr R2 G2 B2 : Int) : ℚ) / 2⌋
  specY R1 G1 B1 * 2 ^ 24 + Cb * 2 ^ 16 + specY R2 G2 B2 * 2 ^ 8 + Cr

/-! ## The pixel packer (conversion loops of the buffer constructor) -/

/-- Modelled from the spec: `tjPixelSize[TJPF_RGB]` of the external codec, the
number of bytes of a pixel in the decoded buffer ("`width*height*3` bytes, 8-bit
R,G,B per pixel, row-major, no padding"). -/
def tjPixelSizeRGB : Int := 3

/-- Six consecutive reads `pauyRgbBuf[uiRow + uiColumn + c]`, `c = 0..5`, fed to
`Rgb2Yuv`.  The index is a `uint32_t` sum; `none` when a read leaves the buffer. -/
def readPair (pauyRgbBuf : List UInt8) (uiRow uiColumn : Nat) : Option Nat := do
  let a0 ← pauyRgbBuf[(uiRow + uiColumn) % 4294967296]?
  let a1 ← pauyRgbBuf[(uiRow + uiColumn + 1) % 4294967296]?
  let a2 ← pauyRgbBuf[(uiRow + uiColumn + 2) % 4294967296]?
  let a3 ← pauyRgbBuf[(uiRow + uiColumn + 3) % 4294967296]?
  let a4 ← pauyRgbBuf[(uiRow + uiColumn + 4) % 4294967296]?
  let a5 ← pauyRgbBuf[(uiRow + uiColumn + 5) % 4294967296]?
  pure (Rgb2Yuv a0 a1 a2 a3 a4 a5)

/-- The inner loop `for (s16 j = 0; j < (_iWidth >> 1); j++)` of scanline `i`,
entered at `j` with the image buffer `buf`. -/
def packRow (pauyRgbBuf : List UInt8) (iWidth i : Int) (uiRow : Nat) :
    Nat → Int → List Nat → Status × List Nat
  | 0, _, buf => (Status.diverges, buf)
  | fuel + 1, j, buf =>
    if j < iWidth >>> (1 : Nat) then
      let uiColumn : Nat := u32 (j * (tjPixelSizeRGB * 2))
      match readPair pauyRgbBuf uiRow uiColumn with
      | none => (Status.fault, buf)
      | some v =>
        let k : Int := i * (iWidth >>> (1 : Nat)) + j
        if 0 ≤ k ∧ k < buf.length then
          packRow pauyRgbBuf iWidth i uiRow fuel (s16 (j + 1)) (buf.set k.toNat v)
        else (Status.fault, buf)
    else (Status.ok, buf)

/-- The outer loop `for (s16 i = 0; i < _iHeight; i++)`, entered at `i`.  The
inner loop gets 65536 rounds: its counter of 16 bits has period 65536, so a
loop that has not exited by then never does. -/
def packLoop (pauyRgbBuf : List UInt8) (iWidth iHeight : Int) :
    Nat → Int → List Nat → Status × List Nat
  | 0, _, buf => (Status.diverges, buf)
  | fuel + 1, i, buf =>
    if i < iHeight then
      let uiRow : Nat := u32 (i * iWidth * tjPixelSizeRGB)
      match packRow pauyRgbBuf iWidth i uiRow 65536 0 buf with
      | (Status.ok, buf1) => packLoop pauyRgbBuf iWidth iHeight fuel (s16 (i + 1)) buf1
      | r => r
    else (Status.ok, buf)

/-- Lines 97 to 113 of the buffer constructor: allocate
`_iHeight * (_iWidth >> 1)` units and fill them from the decoded RGB buffer. -/
def packPixels (pauyRgbBuf : List UInt8) (iWidth iHeight : Int) : Status × List Nat :=
  packLoop pauyRgbBuf iWidth iHeight 65536 0
    (List.replicate (iHeight * (iWidth >>> (1 : Nat))).toNat 0)

/-! ## `std::memcpy` on arrays of 32-bit units -/

/-- A unit of which only the first `r` bytes are overwritten: on the big-endian
target these are the `r` most significant bytes. -/
def mergeBytes (r s d : Nat) : Nat :=
  (s / 256 ^ (4 - r)) * 256 ^ (4 - r) + d % 256 ^ (4 - r)

/-- The call `std::memcpy(dst + dstOff, src + srcOff, count)` with `dst` and
`src` arrays of `uint32_t` and `count` in bytes.  A copy of zero bytes touches
nothing; otherwise both byte ranges must lie inside their arrays, else the
result is `none`. -/
def memcpy (dst : List Nat) (dstOff : Int) (src : List Nat) (srcOff : Int) (count : Nat) :
    Option (List Nat) :=
  if count = 0 then some dst
  else if 0 ≤ dstOff ∧ 4 * dstOff + count ≤ 4 * dst.length
      ∧ 0 ≤ srcOff ∧ 4 * srcOff + count ≤ 4 * src.length then
    let d := dstOff.toNat
    let s := srcOff.toNat
    let q := count / 4
    let r := count % 4
    let whole := dst.take d ++ (src.drop s).take q ++ dst.drop (d + q)
    if r = 0 then some whole
    else some (whole.set (d + q) (mergeBytes r (src.getD (s + q) 0) (dst.getD (d + q) 0)))
  else none

/-! ## `JPEG::Display` -/

/-- Modelled from the spec: the surface descriptor `GXRModeObj` of libogc
(`ogc/gx_struct.h`), "an opaque record exposing framebuffer width, framebuffer
height"; the two fields that `Display` reads are of type `u16`. -/
structure GXRModeObj where
  fbWidth : UInt16
  xfbHeight : UInt16
deriving DecidableEq

/-- The data members of class `JPEG`; `none` is the null buffer pointer. -/
structure JPEG where
  _iWidth : Int
  _iHeight : Int
  _iPosX : Int
  _iPosY : Int
  _pauiImgBuf : Option (List Nat)
deriving DecidableEq

/-- One `memcpy` call of `Display`: unit offsets into the target and into the
packed buffer, and the byte count after conversion to `size_t`. -/
structure Copy where
  dst : Int
  src : Int
  count : Nat
deriving DecidableEq

/-- What a call of `Display` leaves behind: how it ended, the image, the target
buffer and the `memcpy` calls it issued, in order. -/
structure DisplayResult where
  status : Status
  self : JPEG
  xfb : List Nat
  copies : List Copy
deriving DecidableEq

/-- The operand of the cast of `iX`: `fX * (fbWidth >> 1) / fOriginalWidth`,
the `int` operand converted to `float`. -/
def Display.quotX (CpGXRmode : GXRModeObj) (fOriginalWidth fX : F32) : F32 :=
  F32.div (F32.mul fX (F32.ofInt ((CpGXRmode.fbWidth.toNat >>> 1 : Nat) : Int))) fOriginalWidth

/-- The operand of the cast of `iY`: `fY * xfbHeight / fOriginalHeight`. -/
def Display.quotY (CpGXRmode : GXRModeObj) (fOriginalHeight fY : F32) : F32 :=
  F32.div (F32.mul fY (F32.ofInt (CpGXRmode.xfbHeight.toNat : Int))) fOriginalHeight

/-- The local `iX` of `Display`: the quotient converted to `int32_t`. -/
def Display.iX (CpGXRmode : GXRModeObj) (fOriginalWidth fX : F32) : Int :=
  F32.toI32 (Display.quotX CpGXRmode fOriginalWidth fX)

/-- The local `iY` of `Display`, likewise. -/
def Display.iY (CpGXRmode : GXRModeObj) (fOriginalHeight fY : F32) : Int :=
  F32.toI32 (Display.quotY CpGXRmode fOriginalHeight fY)

/-- The `memcpy` call of the loop body of `Display` for the row counter `i`. -/
def Display.copy (self : JPEG) (CpGXRmode : GXRModeObj) (iX iY : Int) (i : Nat) : Copy :=
  let fbWidth : Int := CpGXRmode.fbWidth.toNat
  if iX < 0 then
    { dst := (iY + i) * (fbWidth >>> (1 : Nat)),
      src := i * (self._iWidth >>> (1 : Nat)) - iX,
      count := toSizeT (min (((self._iWidth >>> (1 : Nat)) + iX) * 4) (fbWidth * 2)) }
  else
    { dst := (iY + i) * (fbWidth >>> (1 : Nat)) + iX,
      src := i * (self._iWidth >>> (1 : Nat)),
      count := toSizeT (min (self._iWidth * 2) (((fbWidth >>> (1 : Nat)) - iX) * 4)) }

/-- The loop `while (i < _iHeight && iY + i < xfbHeight)` of `Display`, entered
with the `uint16_t` counter at `i`.  The counter has period 65536, so a loop
that has not exited after 65536 rounds never does. -/
def Display.loop (self : JPEG) (CpGXRmode : GXRModeObj) (iX iY : Int) :
    Nat → Nat → List Nat → List Copy → Status × List Nat × List Copy
  | 0, _, xfb, log => (Status.diverges, xfb, log)
  | fuel + 1, i, xfb, log =>
    if (i : Int) < self._iHeight ∧ iY + i < (CpGXRmode.xfbHeight.toNat : Int) then
      let c := Display.copy self CpGXRmode iX iY i
      match memcpy xfb c.dst (self._pauiImgBuf.getD []) c.src c.count with
      | none => (Status.fault, xfb, log ++ [c])
      | some xfb1 =>
        Display.loop self CpGXRmode iX iY fuel ((i + 1) % 65536) xfb1 (log ++ [c])
    else (Status.ok, xfb, log)

/-- The method `JPEG::Display`. -/
def Display (self : JPEG) (paXfb : List Nat) (CpGXRmode : GXRModeObj)
    (fOriginalWidth fOriginalHeight fX fY : F32) : DisplayResult :=
  if F32.leZero fOriginalWidth = true ∨ F32.leZero fOriginalHeight = true then
    { status := Status.domainError, self := self, xfb := paXfb, copies := [] }
  else
    let self1 : JPEG := { self with _iPosX := F32.toI32 fX, _iPosY := F32.toI32 fY }
    let iX : Int := Display.iX CpGXRmode fOriginalWidth fX
    let iY : Int := Display.iY CpGXRmode fOriginalHeight fY
    if iX < (CpGXRmode.fbWidth.toNat : Int) then
      let i : Nat := if iY ≥ 0 then 0 else ((-iY) % 65536).toNat
      let r := Display.loop self1 CpGXRmode iX iY 65536 i paXfb []
      { status := r.1, self := self1, xfb := r.2.1, copies := r.2.2 }
    else
      { status := Status.ok, self := self1, xfb := paXfb, copies := [] }

/-! ## Predicates used in the statements -/

/-- The values of binary32 among the terms of `F32`: a mantissa below `2^24`
and an exponent of the last place from -149 to 104. -/
def F32.Valid : F32 → Prop
  | F32.finite _ m e => m < 16777216 ∧ -149 ≤ e ∧ e ≤ 104
  | _ => True

instance (f : F32) : Decidable f.Valid := by
  cases f <;> unfold F32.Valid <;> infer_instance

/-- The finite values among the `float`s. -/
def F32.isFinite : F32 → Bool
  | F32.finite _ _ _ => true
  | _ => false

/-- The `float` `r` is a value of binary32 nearest to the rational `q`: no
finite value of the format is nearer to `q`. -/
def F32.Nearest (q : ℚ) (r : F32) : Prop :=
  r.isFinite = true ∧ r.Valid
  ∧ ∀ s : F32, s.isFinite = true → s.Valid → |r.toRat - q| ≤ |s.toRat - q|

/-- A rational with its fraction discarded: the floor of a value that is not
negative, the ceiling of a negative one. -/
def towardZero (q : ℚ) : Int := if 0 ≤ q then ⌊q⌋ else ⌈q⌉

/-- The mapping of a coordinate as a specification in binary32 words it: `i` is
`x * h / w` with the product rounded to a nearest value of the format, the
quotient of that by `w` rounded again, and the fraction discarded. -/
def specMap (x : F32) (h : Nat) (w : F32) (i : Int) : Prop :=
  ∃ p v : F32, F32.Nearest (x.toRat * (h : ℚ)) p ∧ F32.Nearest (p.toRat / w.toRat) v
    ∧ i = towardZero v.toRat

/-- Invariant of the data model: the dimensions are not negative and the packed
buffer holds exactly `height * (width / 2)` units. -/
def JPEG.WellFormed (self : JPEG) : Prop :=
  0 ≤ self._iWidth ∧ 0 ≤ self._iHeight
  ∧ ((self._pauiImgBuf.getD []).length : Int) = self._iHeight * (self._iWidth >>> (1 : Nat))

instance (self : JPEG) : Decidable self.WellFormed := by
  unfold JPEG.WellFormed; infer_instance

/-- The unit that packs the source pixels `(i, 2k)` and `(i, 2k+1)` of an RGB
buffer with rows of `iWidth` pixels: `Rgb2Yuv` of their two RGB triples. -/
def packedUnit (pauyRgbBuf : List UInt8) (iWidth i k : Int) : Nat :=
  Rgb2Yuv (pauyRgbBuf.getD ((i * iWidth + 2 * k) * 3).toNat 0)
    (pauyRgbBuf.getD ((i * iWidth + 2 * k) * 3 + 1).toNat 0)
    (pauyRgbBuf.getD ((i * iWidth + 2 * k) * 3 + 2).toNat 0)
    (pauyRgbBuf.getD ((i * iWidth + 2 * k + 1) * 3).toNat 0)
    (pauyRgbBuf.getD ((i * iWidth + 2 * k + 1) * 3 + 1).toNat 0)
    (pauyRgbBuf.getD ((i * iWidth + 2 * k + 1) * 3 + 2).toNat 0)

/-- The buffer `xfb1` is `xfb0` after a clipped copy: it has the same length, for
every image row `i` with `lo ≤ i < hi` the `q` units of `buf` starting at
`i * w2 + skipS` stand at `(iY + i) * hw + colD`, and every unit outside these
ranges is the one of `xfb0`. -/
def BlitOf (xfb0 xfb1 buf : List Nat) (hw w2 iY colD skipS : Int) (q : Nat) (lo hi : Int) :
    Prop :=
  xfb1.length = xfb0.length
  ∧ (∀ (i : Int) (k : Nat), lo ≤ i → i < hi → k < q →
      xfb1[((iY + i) * hw + colD + k).toNat]? = buf[(i * w2 + skipS + k).toNat]?)
  ∧ (∀ j : Nat, (∀ (i : Int) (k : Nat), lo ≤ i → i < hi → k < q →
      (j : Int) ≠ (iY + i) * hw + colD + k) → xfb1[j]? = xfb0[j]?)

/-! ## Sample data -/

/-- An image of 4 by 2 pixels, that is 2 by 2 packed units. -/
def sampleImage : JPEG :=
  { _iWidth := 4, _iHeight := 2, _iPosX := 0, _iPosY := 0, _pauiImgBuf := some [1, 2, 3, 4] }

/-- A surface of 8 by 3 pixels, that is 3 rows of 4 units. -/
def sampleMode : GXRModeObj := { fbWidth := 8, xfbHeight := 3 }

/-- A cleared target buffer for `sampleMode`. -/
def sampleXfb : List Nat := List.replicate 12 0

/-- An image of 2 by 1 pixels, a single packed unit. -/
def tinyImage : JPEG :=
  { _iWidth := 2, _iHeight := 1, _iPosX := 0, _iPosY := 0, _pauiImgBuf := some [7] }

/-- An image of 8 by 1 pixels. -/
def wideImage : JPEG :=
  { _iWidth := 8, _iHeight := 1, _iPosX := 0, _iPosY := 0, _pauiImgBuf := some [1, 2, 3, 4] }

/-- An image of 10 by 1 pixels. -/
def widerImage : JPEG :=
  { _iWidth := 10, _iHeight := 1, _iPosX := 0, _iPosY := 0,
    _pauiImgBuf := some [1, 2, 3, 4, 5] }

/-- A surface of 2 by 1 pixels, that is of a single unit. -/
def narrowMode : GXRModeObj := { fbWidth := 2, xfbHeight := 1 }

/-- The usual surface of 640 by 480 pixels: 480 rows of 320 units. -/
def mode640 : GXRModeObj := { fbWidth := 640, xfbHeight := 480 }

/-! ## The locals of `Rgb2Yuv` -/

/-- The fixed-point numerator of the luma of `Rgb2Yuv`. -/
def Rgb2Yuv.numY (uyR uyG uyB : UInt8) : Int :=
  299 * (uyR.toNat : Int) + 587 * (uyG.toNat : Int) + 114 * (uyB.toNat : Int)

/-- The fixed-point numerator of the blue chroma of `Rgb2Yuv`. -/
def Rgb2Yuv.numCb (uyR uyG uyB : UInt8) : Int :=
  -16874 * (uyR.toNat : Int) - 33126 * (uyG.toNat : Int) + 50000 * (uyB.toNat : Int) + 12800000

/-- The fixed-point numerator of the red chroma of `Rgb2Yuv`. -/
def Rgb2Yuv.numCr (uyR uyG uyB : UInt8) : Int :=
  50000 * (uyR.toNat : Int) - 41869 * (uyG.toNat : Int) - 8131 * (uyB.toNat : Int) + 12800000

/-- The locals `iY1`, `iY2` of `Rgb2Yuv`. -/
def Rgb2Yuv.iY (uyR uyG uyB : UInt8) : Int := Int.tdiv (Rgb2Yuv.numY uyR uyG uyB) 1000

/-- The locals `iCb1`, `iCb2` of `Rgb2Yuv`. -/
def Rgb2Yuv.iCb (uyR uyG uyB : UInt8) : Int := Int.tdiv (Rgb2Yuv.numCb uyR uyG uyB) 100000

/-- The locals `iCr1`, `iCr2` of `Rgb2Yuv`. -/
def Rgb2Yuv.iCr (uyR uyG uyB : UInt8) : Int := Int.tdiv (Rgb2Yuv.numCr uyR uyG uyB) 100000

/-! ## Copy, move and destruction -/

/-- Exceptions that reach the caller of a constructor or of an assignment. -/
inductive Exn
  | runtime_error (what : String)
  | bad_alloc
  | bad_array_new_length
  | ios_failure (what : String)
deriving DecidableEq

/-- How a constructor or an assignment ends: normally with a result, with an
exception, with an access outside an array or a block that is not live
(undefined behaviour), or never. -/
inductive Outcome (α : Type)
  | done (a : α)
  | thrown (e : Exn)
  | fault
  | diverges
deriving DecidableEq

/-- The free store of `uint32_t` arrays: the live blocks by address, and the
next address `new` hands out.  The store is taken to be large enough: `new` of
a size that is not negative succeeds. -/
structure Heap where
  cell : Nat → Option (List Nat)
  next : Nat

/-- The expression `new uint32_t[n]`: a fresh block of `n` units. -/
def Heap.new (h : Heap) (n : Nat) : Heap × Nat :=
  ({ cell := fun a => if a = h.next then some (List.replicate n 0) else h.cell a,
     next := h.next + 1 }, h.next)

/-- The statement `delete[] p`: nothing for the null pointer, the release of a
live block, and `none` (undefined behaviour) for any other pointer. -/
def Heap.delete (h : Heap) (p : Option Nat) : Option Heap :=
  match p with
  | none => some h
  | some a =>
    match h.cell a with
    | none => none
    | some _ => some { h with cell := fun b => if b = a then none else h.cell b }

/-- The block at `a` overwritten with `buf`. -/
def Heap.store (h : Heap) (a : Nat) (buf : List Nat) : Heap :=
  { h with cell := fun b => if b = a then some buf else h.cell b }

/-- The data members of a `JPEG` object as they lie in memory: the buffer is
held by its address, `none` being the null pointer. -/
structure JPEGObj where
  _iWidth : Int
  _iHeight : Int
  _iPosX : Int
  _iPosY : Int
  _pauiImgBuf : Option Nat
deriving DecidableEq

/-- The members of a moved-from object: the assignments
`jpegOther._iWidth = 0; ... jpegOther._pauiImgBuf = nullptr;`. -/
def JPEGObj.emptied : JPEGObj :=
  { _iWidth := 0, _iHeight := 0, _iPosX := 0, _iPosY := 0, _pauiImgBuf := none }

/-- The objects by address, and the free store. -/
structure Memory where
  heap : Heap
  obj : Nat → JPEGObj

/-- The object at `this` replaced by `o`. -/
def Memory.setObj (m : Memory) (this : Nat) (o : JPEGObj) : Memory :=
  { m with obj := fun a => if a = this then o else m.obj a }

/-- The image an object stands for: its members with the contents of its block. -/
def Memory.image (m : Memory) (this : Nat) : JPEG :=
  { _iWidth := (m.obj this)._iWidth, _iHeight := (m.obj this)._iHeight,
    _iPosX := (m.obj this)._iPosX, _iPosY := (m.obj this)._iPosY,
    _pauiImgBuf := (m.obj this)._pauiImgBuf.bind m.heap.cell }

/-- The array size `(_iWidth >> 1) * _iHeight` of the copy operations. -/
def JPEG.allocUnits (iWidth iHeight : Int) : Int := (iWidth >>> (1 : Nat)) * iHeight

/-- The `memcpy` length `(_iWidth << 1) * _iHeight` of the copy operations, in
bytes, converted to `size_t`. -/
def JPEG.copyCount (iWidth iHeight : Int) : Nat := toSizeT ((iWidth * 2) * iHeight)

/-- The allocation and the `memcpy` shared by the copy constructor and the copy
assignment: the object at `this` becomes a copy of `o` with a buffer of its own. -/
def JPEG.copyInto (heap : Heap) (obj : Nat → JPEGObj) (this : Nat) (o : JPEGObj) :
    Outcome Memory :=
  if JPEG.allocUnits o._iWidth o._iHeight < 0 then Outcome.thrown Exn.bad_array_new_length
  else
    let n := (JPEG.allocUnits o._iWidth o._iHeight).toNat
    let hp := heap.new n
    match memcpy (List.replicate n 0) 0 ((o._pauiImgBuf.bind hp.1.cell).getD []) 0
        (JPEG.copyCount o._iWidth o._iHeight) with
    | none => Outcome.fault
    | some buf =>
      Outcome.done
        { heap := hp.1.store hp.2 buf,
          obj := fun a => if a = this then { o with _pauiImgBuf := some hp.2 } else obj a }

/-- The copy constructor `JPEG::JPEG(const JPEG&)`, constructing at `this`. -/
def JPEG.copyCtor (m : Memory) (this CjpegOther : Nat) : Outcome Memory :=
  JPEG.copyInto m.heap m.obj this (m.obj CjpegOther)

/-- The move constructor `JPEG::JPEG(JPEG&&)`, constructing at `this`. -/
def JPEG.moveCtor (m : Memory) (this jpegOther : Nat) : Outcome Memory :=
  Outcome.done
    ((m.setObj this (m.obj jpegOther)).setObj jpegOther JPEGObj.emptied)

/-- The copy assignment `JPEG::operator =(const JPEG&)`. -/
def JPEG.copyAssign (m : Memory) (this CjpegOther : Nat) : Outcome Memory :=
  if this ≠ CjpegOther then
    match m.heap.delete (m.obj this)._pauiImgBuf with
    | none => Outcome.fault
    | some heap1 => JPEG.copyInto heap1 m.obj this (m.obj CjpegOther)
  else Outcome.done m

/-- The move assignment `JPEG::operator =(JPEG&&)`. -/
def JPEG.moveAssign (m : Memory) (this jpegOther : Nat) : Outcome Memory :=
  if this ≠ jpegOther then
    match m.heap.delete (m.obj this)._pauiImgBuf with
    | none => Outcome.fault
    | some heap1 =>
      Outcome.done
        (({ m with heap := heap1 }.setObj this (m.obj jpegOther)).setObj jpegOther
          JPEGObj.emptied)
  else Outcome.done m

/-- The destructor `JPEG::~JPEG()`. -/
def JPEG.dtor (m : Memory) (this : Nat) : Outcome Memory :=
  match m.heap.delete (m.obj this)._pauiImgBuf with
  | none => Outcome.fault
  | some heap1 =>
    Outcome.done ({ m with heap := heap1 }.setObj this { m.obj this with _pauiImgBuf := none })

/-! ## The constructors -/

/-- Modelled from the spec: the external codec and the allocators, given by the
outcomes of their calls.  `tjInitDecompress` is `none` for a handle and the
error string for a null handle; `tjDecompressHeader3` and `tjDecompress2` give
the dimensions and the decoded RGB buffer, or the error string of
`tjGetErrorStr` when they return -1; `tjAlloc` and `newArray` tell whether an
allocation of the given size succeeds. -/
structure Env where
  tjInitDecompress : Option String
  tjDecompressHeader3 : List UInt8 → Except String (Int × Int)
  tjAlloc : Int → Bool
  tjDecompress2 : List UInt8 → Except String (List UInt8)
  newArray : Int → Bool

/-- What a constructor acquires besides the packed buffer of the image. -/
inductive Resource
  | tjHandle
  | pauyRgbBuf
  | pauyJpegBuf
deriving DecidableEq

/-- How a constructor ends, and what it has acquired and not released by then. -/
structure CtorResult where
  outcome : Outcome JPEG
  live : List Resource
deriving DecidableEq

/-- The constructor `JPEG::JPEG(const uint8_t*, uint64_t)`; the compressed
buffer stands for the pointer and its length. -/
def JPEG.ctorBuffer (env : Env) (CpauyJpegBuf : List UInt8) : CtorResult :=
  match env.tjInitDecompress with
  | some what => { outcome := Outcome.thrown (Exn.runtime_error what), live := [] }
  | none =>
    match env.tjDecompressHeader3 CpauyJpegBuf with
    | Except.error what =>
      { outcome := Outcome.thrown (Exn.runtime_error what), live := [Resource.tjHandle] }
    | Except.ok (iWidth, iHeight) =>
      if env.tjAlloc (iWidth * iHeight * tjPixelSizeRGB) = false then
        { outcome := Outcome.thrown Exn.bad_alloc, live := [Resource.tjHandle] }
      else
        match env.tjDecompress2 CpauyJpegBuf with
        | Except.error what =>
          { outcome := Outcome.thrown (Exn.runtime_error what), live := [Resource.tjHandle] }
        | Except.ok pauyRgbBuf =>
          if env.newArray (iHeight * (iWidth >>> (1 : Nat))) = false then
            { outcome := Outcome.thrown Exn.bad_alloc,
              live := [Resource.tjHandle, Resource.pauyRgbBuf] }
          else
            match packPixels pauyRgbBuf iWidth iHeight with
            | (Status.ok, buf) =>
              { outcome := Outcome.done
                  { _iWidth := iWidth, _iHeight := iHeight, _iPosX := -2147483648,
                    _iPosY := -2147483648, _pauiImgBuf := some buf },
                live := [] }
            | (Status.diverges, _) =>
              { outcome := Outcome.diverges,
                live := [Resource.tjHandle, Resource.pauyRgbBuf] }
            | _ =>
              { outcome := Outcome.fault, live := [Resource.tjHandle, Resource.pauyRgbBuf] }

/-- The constructor `JPEG::JPEG(const char*)`; the contents of the file stand
for its path. -/
def JPEG.ctorFile (env : Env) (fileJpeg : List UInt8) : CtorResult :=
  if fileJpeg.length = 0 then
    { outcome := Outcome.thrown (Exn.ios_failure "Input file contains no data"), live := [] }
  else if env.tjAlloc fileJpeg.length = false then
    { outcome := Outcome.thrown Exn.bad_alloc, live := [] }
  else
    let r := JPEG.ctorBuffer env fileJpeg
    match r.outcome with
    | Outcome.done img => { outcome := Outcome.done img, live := r.live }
    | Outcome.thrown e => { outcome := Outcome.thrown e, live := r.live }
    | o => { outcome := o, live := Resource.pauyJpegBuf :: r.live }

/-! ## Sample data for the life cycle and the constructors -/

/-- A memory with one image of 3 by 1 pixels at address 0: one packed unit. -/
def oddMemory : Memory :=
  { heap := { cell := fun a => if a = 0 then some [5] else none, next := 1 },
    obj := fun a => if a = 0 then ⟨3, 1, 0, 0, some 0⟩ else ⟨0, 0, 0, 0, none⟩ }


/-- A memory with one image of 4 by 2 pixels at address 0, at position (3, 5),
owning the block at address 0; every other object is empty. -/
def sampleMemory : Memory :=
  { heap := { cell := fun a => if a = 0 then some [1, 2, 3, 4] else none, next := 1 },
    obj := fun a => if a = 0 then ⟨4, 2, 3, 5, some 0⟩ else ⟨0, 0, 0, 0, none⟩ }

/-- A codec that rejects the header of every input. -/
def envHeaderFails : Env :=
  { tjInitDecompress := none,
    tjDecompressHeader3 := fun _ => Except.error "Bogus marker length",
    tjAlloc := fun _ => true,
    tjDecompress2 := fun _ => Except.ok [],
    newArray := fun _ => true }

/-- A codec that reads a header of 2 by 1 pixels and fails to decompress. -/
def envDecodeFails : Env :=
  { tjInitDecompress := none,
    tjDecompressHeader3 := fun _ => Except.ok (2, 1),
    tjAlloc := fun _ => true,
    tjDecompress2 := fun _ => Except.error "Bogus marker length",
    newArray := fun _ => true }

/-- A codec that decodes an image of 2 by 1 pixels, with no room left for the
packed buffer. -/
def envNewFails : Env :=
  { tjInitDecompress := none,
    tjDecompressHeader3 := fun _ => Except.ok (2, 1),
    tjAlloc := fun _ => true,
    tjDecompress2 := fun _ => Except.ok [255, 255, 255, 0, 0, 0],
    newArray := fun _ => false }

/-! ## Arithmetic helpers -/

theorem tdiv_eq_floor (n : Int) (d : Nat) (hn : 0 ≤ n) :
    Int.tdiv n d = ⌊(n : ℚ) / (d : ℚ)⌋ := by
  rw [Rat.floor_intCast_div_natCast, Int.tdiv_eq_ediv hn (Int.ofNat_nonneg d)]

theorem shiftRight_one (z : Int) : z >>> (1 : Nat) = z / 2 := by
  rw [Int.shiftRight_eq_div_pow]; rfl

theorem floor_half (z : Int) : ⌊((z : Int) : ℚ) / 2⌋ = z / 2 := by
  have := Rat.floor_intCast_div_natCast z 2
  simpa using this

theorem u32_of_byte (z : Int) (h0 : 0 ≤ z) (h1 : z < 256) : u32 z = z.toNat := by
  unfold u32
  rw [Int.emod_eq_of_lt h0 (by omega)]

theorem u32_of_nonneg (z : Int) (h0 : 0 ≤ z) (h1 : z < 4294967296) : (u32 z : Int) = z := by
  unfold u32
  rw [Int.emod_eq_of_lt h0 h1]
  omega

theorem s16_of_small (z : Int) (h0 : -32768 ≤ z) (h1 : z ≤ 32767) : s16 z = z := by
  unfold s16
  omega

/-! ## `Rgb2Yuv` against the formulas of the specification -/

theorem specY_eq (r g b : Int) (h : 0 ≤ 299 * r + 587 * g + 114 * b) :
    specY r g b = Int.tdiv (299 * r + 587 * g + 114 * b) 1000 := by
  have := tdiv_eq_floor (299 * r + 587 * g + 114 * b) 1000 h
  simp only [Nat.cast_ofNat] at this
  rw [this, specY]
  congr 1
  push_cast
  norm_num
  ring

theorem specCb_eq (r g b : Int) (h : 0 ≤ -16874 * r - 33126 * g + 50000 * b + 12800000) :
    specCb r g b = Int.tdiv (-16874 * r - 33126 * g + 50000 * b + 12800000) 100000 := by
  have := tdiv_eq_floor _ 100000 h
  simp only [Nat.cast_ofNat] at this
  rw [this, specCb]
  congr 1
  push_cast
  norm_num
  ring

theorem specCr_eq (r g b : Int) (h : 0 ≤ 50000 * r - 41869 * g - 8131 * b + 12800000) :
    specCr r g b = Int.tdiv (50000 * r - 41869 * g - 8131 * b + 12800000) 100000 := by
  have := tdiv_eq_floor _ 100000 h
  simp only [Nat.cast_ofNat] at this
  rw [this, specCr]
  congr 1
  push_cast
  norm_num
  ring

theorem pack_fields (a b c d : Nat) (ha : a < 256) (hb : b < 256) (hc : c < 256)
    (hd : d < 256) :
    (a <<< 24) % 4294967296 ||| (b <<< 16) % 4294967296 ||| (c <<< 8) % 4294967296 ||| d
      = a * 2 ^ 24 + b * 2 ^ 16 + c * 2 ^ 8 + d := by
  simp only [Nat.shiftLeft_eq]
  rw [Nat.mod_eq_of_lt (by omega), Nat.mod_eq_of_lt (by omega), Nat.mod_eq_of_lt (by omega)]
  have h1 : a * 2 ^ 24 ||| b * 2 ^ 16 = 2 ^ 16 * (a * 2 ^ 8 + b) := by
    have h := Nat.mul_add_lt_is_or (i := 24) (b := b * 2 ^ 16) (by omega) a
    rw [Nat.mul_comm (2 ^ 24) a] at h
    rw [← h]; omega
  have h2 : 2 ^ 16 * (a * 2 ^ 8 + b) ||| c * 2 ^ 8
      = 2 ^ 8 * (a * 2 ^ 16 + b * 2 ^ 8 + c) := by
    have h := Nat.mul_add_lt_is_or (i := 16) (b := c * 2 ^ 8) (by omega) (a * 2 ^ 8 + b)
    rw [← h]; omega
  have h3 : 2 ^ 8 * (a * 2 ^ 16 + b * 2 ^ 8 + c) ||| d
      = 2 ^ 8 * (a * 2 ^ 16 + b * 2 ^ 8 + c) + d :=
    (Nat.mul_add_lt_is_or (i := 8) (b := d) (by omega) _).symm
  rw [h1, h2, h3]; omega

/-- C2: for all six 8-bit inputs the unit returned by `Rgb2Yuv` is
`Y1*2^24 + Cb*2^16 + Y2*2^8 + Cr`, with the components given by the floor
formulas of the specification evaluated in exact rational arithmetic and the
chroma averaged by `floor((c1 + c2) / 2)`. -/
theorem Rgb2Yuv_eq_spec (uyR1 uyG1 uyB1 uyR2 uyG2 uyB2 : UInt8) :
    (Rgb2Yuv uyR1 uyG1 uyB1 uyR2 uyG2 uyB2 : Int)
      = specRgb2Yuv uyR1.toNat uyG1.toNat uyB1.toNat uyR2.toNat uyG2.toNat uyB2.toNat := by
  have hr1 := uyR1.toNat_lt
  have hg1 := uyG1.toNat_lt
  have hb1 := uyB1.toNat_lt
  have hr2 := uyR2.toNat_lt
  have hg2 := uyG2.toNat_lt
  have hb2 := uyB2.toNat_lt
  unfold Rgb2Yuv
  generalize uyR1.toNat = r1 at *
  generalize uyG1.toNat = g1 at *
  generalize uyB1.toNat = b1 at *
  generalize uyR2.toNat = r2 at *
  generalize uyG2.toNat = g2 at *
  generalize uyB2.toNat = b2 at *
  have e1 := specY_eq r1 g1 b1 (by omega)
  have e2 := specCb_eq r1 g1 b1 (by omega)
  have e3 := specCr_eq r1 g1 b1 (by omega)
  have e4 := specY_eq r2 g2 b2 (by omega)
  have e5 := specCb_eq r2 g2 b2 (by omega)
  have e6 := specCr_eq r2 g2 b2 (by omega)
  simp only [Int.cast_natCast] at e1 e2 e3 e4 e5 e6
  simp only [specRgb2Yuv, floor_half, e1, e2, e3, e4, e5, e6, shiftRight_one]
  rw [Int.tdiv_eq_ediv (by omega) (by omega), Int.tdiv_eq_ediv (by omega) (by omega),
    Int.tdiv_eq_ediv (by omega) (by omega), Int.tdiv_eq_ediv (by omega) (by omega),
    Int.tdiv_eq_ediv (by omega) (by omega), Int.tdiv_eq_ediv (by omega) (by omega)]
  rw [u32_of_byte _ (by omega) (by omega), u32_of_byte _ (by omega) (by omega),
    u32_of_byte _ (by omega) (by omega), u32_of_byte _ (by omega) (by omega)]
  rw [pack_fields _ _ _ _ (by omega) (by omega) (by omega) (by omega)]
  push_cast
  rw [Int.toNat_of_nonneg (by omega), Int.toNat_of_nonneg (by omega),
    Int.toNat_of_nonneg (by omega), Int.toNat_of_nonneg (by omega)]

/-! ## The pixel packer -/

theorem getElem?_eq_some_getD (l : List UInt8) (n : Nat) (h : n < l.length) :
    l[n]? = some (l.getD n 0) := by
  simp [List.getD, List.getElem?_eq_getElem h]

theorem readPair_inside (rgb : List UInt8) (iWidth i k : Int) (uiRow uiColumn : Nat)
    (hrow : (uiRow : Int) = i * iWidth * 3) (hcol : (uiColumn : Int) = k * 6)
    (hlen : i * iWidth * 3 + k * 6 + 5 < rgb.length) (h32 : rgb.length < 4294967296) :
    readPair rgb uiRow uiColumn = some (packedUnit rgb iWidth i k) := by
  have hb : uiRow + uiColumn + 5 < 4294967296 := by omega
  have e0 : (uiRow + uiColumn) % 4294967296 = ((i * iWidth + 2 * k) * 3).toNat := by
    rw [Nat.mod_eq_of_lt (by omega)]; omega
  have e1 : (uiRow + uiColumn + 1) % 4294967296 = ((i * iWidth + 2 * k) * 3 + 1).toNat := by
    rw [Nat.mod_eq_of_lt (by omega)]; omega
  have e2 : (uiRow + uiColumn + 2) % 4294967296 = ((i * iWidth + 2 * k) * 3 + 2).toNat := by
    rw [Nat.mod_eq_of_lt (by omega)]; omega
  have e3 : (uiRow + uiColumn + 3) % 4294967296 = ((i * iWidth + 2 * k + 1) * 3).toNat := by
    rw [Nat.mod_eq_of_lt (by omega)]; omega
  have e4 : (uiRow + uiColumn + 4) % 4294967296 = ((i * iWidth + 2 * k + 1) * 3 + 1).toNat := by
    rw [Nat.mod_eq_of_lt (by omega)]; omega
  have e5 : (uiRow + uiColumn + 5) % 4294967296 = ((i * iWidth + 2 * k + 1) * 3 + 2).toNat := by
    rw [Nat.mod_eq_of_lt (by omega)]; omega
  unfold readPair packedUnit
  rw [e0, e1, e2, e3, e4, e5]
  rw [getElem?_eq_some_getD rgb _ (by omega), getElem?_eq_some_getD rgb _ (by omega),
    getElem?_eq_some_getD rgb _ (by omega), getElem?_eq_some_getD rgb _ (by omega),
    getElem?_eq_some_getD rgb _ (by omega), getElem?_eq_some_getD rgb _ (by omega)]
  rfl

theorem packRow_inside (rgb : List UInt8) (iWidth iHeight i : Int)
    (hW : 0 ≤ iWidth) (hw2 : iWidth / 2 ≤ 32767) (hi0 : 0 ≤ i) (hi1 : i < iHeight)
    (hrgb : (rgb.length : Int) = iWidth * iHeight * 3) (h32 : rgb.length < 4294967296) :
    ∀ (fuel : Nat) (j : Int) (buf : List Nat), 0 ≤ j → j ≤ iWidth / 2 →
      (iWidth / 2 - j).toNat < fuel → (buf.length : Int) = iHeight * (iWidth / 2) →
      ∃ buf1, packRow rgb iWidth i (u32 (i * iWidth * 3)) fuel j buf = (Status.ok, buf1)
        ∧ buf1.length = buf.length
        ∧ (∀ k : Int, j ≤ k → k < iWidth / 2 →
            buf1[(i * (iWidth / 2) + k).toNat]? = some (packedUnit rgb iWidth i k))
        ∧ (∀ n : Nat, ((n : Int) < i * (iWidth / 2) + j ∨ i * (iWidth / 2) + iWidth / 2 ≤ n) →
            buf1[n]? = buf[n]?) := by
  have p1 : (i + 1) * iWidth ≤ iHeight * iWidth :=
    Int.mul_le_mul_of_nonneg_right (by omega) hW
  have p2 : (i + 1) * iWidth = i * iWidth + iWidth := by ring
  have p3 : iWidth * iHeight = iHeight * iWidth := Int.mul_comm _ _
  have p4 : 0 ≤ i * iWidth := Int.mul_nonneg hi0 hW
  have p5 : (i + 1) * (iWidth / 2) ≤ iHeight * (iWidth / 2) :=
    Int.mul_le_mul_of_nonneg_right (by omega) (by omega)
  have p6 : (i + 1) * (iWidth / 2) = i * (iWidth / 2) + iWidth / 2 := by ring
  have p7 : 0 ≤ i * (iWidth / 2) := Int.mul_nonneg hi0 (by omega)
  have hrow : (u32 (i * iWidth * 3) : Int) = i * iWidth * 3 :=
    u32_of_nonneg _ (by omega) (by omega)
  intro fuel
  induction fuel with
  | zero => intro j buf _ _ h; omega
  | succ n ih =>
    intro j buf hj0 hj1 hfuel hlen
    unfold packRow
    rw [show tjPixelSizeRGB = 3 from rfl]
    simp only [shiftRight_one]
    by_cases hc : j < iWidth / 2
    · rw [if_pos hc]
      have hcol : (u32 (j * (3 * 2)) : Int) = j * 6 := u32_of_nonneg _ (by omega) (by omega)
      rw [readPair_inside rgb iWidth i j _ _ hrow hcol (by omega) h32]
      dsimp only
      rw [if_pos (by omega), s16_of_small _ (by omega) (by omega)]
      obtain ⟨buf1, hrun, hl, hA, hB⟩ := ih (j + 1)
        (buf.set (i * (iWidth / 2) + j).toNat (packedUnit rgb iWidth i j))
        (by omega) (by omega) (by omega) (by rw [List.length_set]; exact hlen)
      refine ⟨buf1, hrun, by rw [hl, List.length_set], ?_, ?_⟩
      · intro k hk0 hk1
        by_cases hkj : k = j
        · subst hkj
          rw [hB _ (Or.inl (by omega)), List.getElem?_set_self (by omega)]
        · exact hA k (by omega) hk1
      · intro n hn
        rw [hB n (by omega), List.getElem?_set_ne (by omega)]
    · rw [if_neg hc]
      refine ⟨buf, rfl, rfl, ?_, fun _ _ => rfl⟩
      intro k hk0 hk1
      omega

theorem packLoop_inside (rgb : List UInt8) (iWidth iHeight : Int)
    (hW : 0 ≤ iWidth) (hw2 : iWidth / 2 ≤ 32767) (hH : iHeight ≤ 32767)
    (hrgb : (rgb.length : Int) = iWidth * iHeight * 3) (h32 : rgb.length < 4294967296) :
    ∀ (fuel : Nat) (i : Int) (buf : List Nat), 0 ≤ i →
      (iHeight - i).toNat < fuel → (buf.length : Int) = iHeight * (iWidth / 2) →
      ∃ buf1, packLoop rgb iWidth iHeight fuel i buf = (Status.ok, buf1)
        ∧ buf1.length = buf.length
        ∧ (∀ r k : Int, i ≤ r → r < iHeight → 0 ≤ k → k < iWidth / 2 →
            buf1[(r * (iWidth / 2) + k).toNat]? = some (packedUnit rgb iWidth r k))
        ∧ (∀ n : Nat, (n : Int) < i * (iWidth / 2) → buf1[n]? = buf[n]?) := by
  intro fuel
  induction fuel with
  | zero => intro i buf _ h; omega
  | succ n ih =>
    intro i buf hi0 hfuel hlen
    unfold packLoop
    rw [show tjPixelSizeRGB = 3 from rfl]
    by_cases hc : i < iHeight
    · rw [if_pos hc]
      dsimp only
      obtain ⟨buf1, hrow, hl1, hA1, hB1⟩ := packRow_inside rgb iWidth iHeight i hW hw2 hi0 hc
        hrgb h32 65536 0 buf (le_refl 0) (by omega) (by omega) hlen
      rw [hrow]
      dsimp only
      rw [s16_of_small _ (by omega) (by omega)]
      obtain ⟨buf2, hrun, hl2, hA2, hB2⟩ := ih (i + 1) buf1 (by omega) (by omega)
        (by rw [hl1]; exact hlen)
      have p6 : (i + 1) * (iWidth / 2) = i * (iWidth / 2) + iWidth / 2 := by ring
      have p7 : 0 ≤ i * (iWidth / 2) := Int.mul_nonneg hi0 (by omega)
      refine ⟨buf2, hrun, by rw [hl2, hl1], ?_, ?_⟩
      · intro r k hr0 hr1 hk0 hk1
        by_cases hri : r = i
        · subst hri
          rw [hB2 _ (by omega)]
          exact hA1 k hk0 hk1
        · exact hA2 r k (by omega) hr1 hk0 hk1
      · intro n hn
        rw [hB2 n (by omega), hB1 n (Or.inl (by omega))]
    · rw [if_neg hc]
      refine ⟨buf, rfl, rfl, ?_, fun _ _ => rfl⟩
      intro r k hr0 hr1
      omega

/-- The packer on every image whose rows the `s16` counters can count. -/
theorem packPixels_inside (rgb : List UInt8) (iWidth iHeight : Int)
    (hW : 0 ≤ iWidth) (hw2 : iWidth / 2 ≤ 32767) (hH0 : 0 ≤ iHeight) (hH : iHeight ≤ 32767)
    (hrgb : (rgb.length : Int) = iWidth * iHeight * 3) (h32 : rgb.length < 4294967296) :
    (packPixels rgb iWidth iHeight).1 = Status.ok
    ∧ ((packPixels rgb iWidth iHeight).2.length : Int) = iHeight * (iWidth / 2)
    ∧ (∀ i k : Nat, (i : Int) < iHeight → (k : Int) < iWidth / 2 →
        (packPixels rgb iWidth iHeight).2[((i : Int) * (iWidth / 2) + k).toNat]?
          = some (packedUnit rgb iWidth i k)) := by
  have hlen0 : ((List.replicate (iHeight * (iWidth >>> (1 : Nat))).toNat 0).length : Int)
      = iHeight * (iWidth / 2) := by
    rw [List.length_replicate, shiftRight_one]
    exact Int.toNat_of_nonneg (Int.mul_nonneg hH0 (by omega))
  obtain ⟨buf1, hrun, hl, hA, _⟩ := packLoop_inside rgb iWidth iHeight hW hw2 hH hrgb h32
    65536 0 _ (le_refl 0) (by omega) hlen0
  unfold packPixels
  rw [hrun]
  refine ⟨rfl, by rw [hl]; exact hlen0, ?_⟩
  intro i k hi hk
  exact hA i k (by omega) hi (by omega) hk

theorem packLoop_overflow (rgb : List UInt8) (hrgb : rgb.length = 196608) :
    ∀ (fuel : Nat) (i : Int) (buf : List Nat),
      ((0 ≤ i ∧ i ≤ 32767 ∧ (32769 - i).toNat < fuel) ∨ (i = -32768 ∧ 0 < fuel)) →
      (buf.length : Int) = 32768 * (2 / 2) →
      (packLoop rgb 2 32768 fuel i buf).1 = Status.fault := by
  intro fuel
  induction fuel with
  | zero => intro i buf h; omega
  | succ n ih =>
    intro i buf hi hlen
    unfold packLoop
    rw [show tjPixelSizeRGB = 3 from rfl]
    rcases hi with ⟨h0, h1, hf⟩ | ⟨rfl, _⟩
    · rw [if_pos (by omega)]
      dsimp only
      obtain ⟨buf1, hrow, hl1, _, _⟩ := packRow_inside rgb 2 32768 i (by decide) (by decide) h0
        (by omega) (by rw [hrgb]; decide) (by omega) 65536 0 buf (le_refl 0) (by decide)
        (by decide) hlen
      rw [hrow]
      dsimp only
      apply ih
      · by_cases h2 : i = 32767
        · right
          subst h2
          exact ⟨by decide, by omega⟩
        · left
          rw [s16_of_small _ (by omega) (by omega)]
          omega
      · rw [hl1]; exact hlen
    · rw [if_pos (by decide)]
      dsimp only
      have hnone : readPair rgb (u32 (-32768 * 2 * 3)) (u32 (0 * (3 * 2))) = none := by
        have hr : u32 (-32768 * 2 * 3) = 4294770688 := by decide
        have hc : u32 (0 * (3 * 2)) = 0 := by decide
        rw [hr, hc]
        unfold readPair
        have : rgb[(4294770688 + 0) % 4294967296]? = none := by
          rw [List.getElem?_eq_none]
          rw [hrgb]; decide
        rw [this]
        rfl
      unfold packRow
      rw [show tjPixelSizeRGB = 3 from rfl]
      rw [if_pos (by decide)]
      dsimp only
      rw [hnone]

/-- C3, the code at a failing input: for an image 2 pixels wide and 32768
pixels high, with its RGB buffer of 2*32768*3 bytes, the row counter of type
`s16` wraps from 32767 to -32768, the loop goes on and reads the RGB buffer at
the `uint32_t` offset 4294770688: the packer does not produce the 32768 units. -/
theorem packPixels_s16_overflow :
    (packPixels (List.replicate 196608 0) 2 32768).1 = Status.fault := by
  unfold packPixels
  exact packLoop_overflow _ (List.length_replicate _ _) 65536 0 _
    (Or.inl ⟨by decide, by decide, by decide⟩)
    (by rw [List.length_replicate]; decide)

/-! ## Binary32 arithmetic -/

theorem F32.below_iff (n d : Nat) (E k : Int) (hd : 0 < d) :
    F32.below n d E k = true ↔ ((n : ℚ) / d * 2 ^ E < 2 ^ k) := by
  unfold F32.below
  rw [decide_eq_true_iff]
  have hdq : (0 : ℚ) < d := by exact_mod_cast hd
  have h2 : (0 : ℚ) < 2 := by norm_num
  have hE : E = min E k + ((E - min E k).toNat : Int) := by omega
  have hk : k = min E k + ((k - min E k).toNat : Int) := by omega
  generalize (E - min E k).toNat = a at *
  generalize (k - min E k).toNat = b at *
  generalize min E k = lo at *
  have hlo : (0 : ℚ) < 2 ^ lo := zpow_pos h2 lo
  rw [hE, hk, zpow_add₀ (by norm_num), zpow_add₀ (by norm_num), zpow_natCast, zpow_natCast]
  have key : ((n : ℚ) / d * (2 ^ lo * 2 ^ a) < 2 ^ lo * 2 ^ b)
      ↔ ((n : ℚ) * 2 ^ a < d * 2 ^ b) := by
    rw [div_mul_eq_mul_div, div_lt_iff₀ hdq]
    constructor
    · intro h
      have : 2 ^ lo * ((n : ℚ) * 2 ^ a) < 2 ^ lo * ((d : ℚ) * 2 ^ b) := by linarith
      exact lt_of_mul_lt_mul_left this hlo.le
    · intro h
      have := mul_lt_mul_of_pos_left h hlo
      linarith
  rw [key]
  constructor
  · intro h
    exact_mod_cast h
  · intro h
    exact_mod_cast h

theorem F32.exponent_spec (n d : Nat) (E : Int) :
    ∀ (fuel : Nat) (e0 : Int),
      (∀ e, F32.exponent n d E fuel e0 = some e →
        e0 ≤ e ∧ e < e0 + fuel ∧ F32.below n d E (e + 24) = true
        ∧ ∀ e1, e0 ≤ e1 → e1 < e → F32.below n d E (e1 + 24) = false)
      ∧ (F32.exponent n d E fuel e0 = none →
        ∀ e1, e0 ≤ e1 → e1 < e0 + fuel → F32.below n d E (e1 + 24) = false) := by
  intro fuel
  induction fuel with
  | zero =>
    intro e0
    refine ⟨fun e h => by simp [F32.exponent] at h, fun _ e1 h1 h2 => by omega⟩
  | succ k ih =>
    intro e0
    unfold F32.exponent
    by_cases hb : F32.below n d E (e0 + 24) = true
    · rw [if_pos hb]
      refine ⟨fun e h => ?_, fun h => by simp at h⟩
      have he : e0 = e := by simpa using h
      subst he
      exact ⟨le_refl _, by omega, hb, fun e1 h1 h2 => by omega⟩
    · rw [if_neg hb]
      have hb1 : F32.below n d E (e0 + 24) = false := by simpa using hb
      obtain ⟨ih1, ih2⟩ := ih (e0 + 1)
      refine ⟨fun e h => ?_, fun h e1 h1 h2 => ?_⟩
      · obtain ⟨a1, a2, a3, a4⟩ := ih1 e h
        refine ⟨by omega, by push_cast; omega, a3, fun e1 h1 h2 => ?_⟩
        by_cases he : e1 = e0
        · rw [he]; exact hb1
        · exact a4 e1 (by omega) h2
      · by_cases he : e1 = e0
        · rw [he]; exact hb1
        · exact ih2 h e1 (by omega) (by push_cast at h2; omega)

/-- The exponent found for a value below `2^128`. -/
theorem F32.exponent_bounds (n d : Nat) (E e : Int) (hd : 0 < d)
    (h : F32.exponent n d E 254 (-149) = some e) :
    -149 ≤ e ∧ e ≤ 104 ∧ (n : ℚ) / d * 2 ^ E < 2 ^ (e + 24)
    ∧ (e = -149 ∨ (2 : ℚ) ^ (e + 23) ≤ (n : ℚ) / d * 2 ^ E)
    ∧ ∀ e1 : Int, -149 ≤ e1 → (n : ℚ) / d * 2 ^ E < 2 ^ (e1 + 24) → e ≤ e1 := by
  obtain ⟨a1, a2, a3, a4⟩ := (F32.exponent_spec n d E 254 (-149)).1 e h
  refine ⟨a1, by omega, (F32.below_iff n d E _ hd).mp a3, ?_, ?_⟩
  · by_cases he : e = -149
    · exact Or.inl he
    · right
      have := a4 (e - 1) (by omega) (by omega)
      have h1 : ¬ ((n : ℚ) / d * 2 ^ E < 2 ^ (e - 1 + 24)) := by
        rw [← F32.below_iff n d E _ hd, this]; simp
      have h2 : e - 1 + 24 = e + 23 := by ring
      rw [h2] at h1
      exact not_lt.mp h1
  · intro e1 h1 h2
    by_contra hlt
    have := a4 e1 h1 (by omega)
    rw [← F32.below_iff n d E _ hd, this] at h2
    simp at h2

theorem F32.exponent_none (n d : Nat) (E : Int) (hd : 0 < d)
    (h : F32.exponent n d E 254 (-149) = none) :
    (2 : ℚ) ^ (128 : Int) ≤ (n : ℚ) / d * 2 ^ E := by
  have := (F32.exponent_spec n d E 254 (-149)).2 h 104 (by omega) (by omega)
  have h1 : ¬ ((n : ℚ) / d * 2 ^ E < 2 ^ ((104 : Int) + 24)) := by
    rw [← F32.below_iff n d E _ hd, this]; simp
  have h2 : (104 : Int) + 24 = 128 := by norm_num
  rw [h2] at h1
  exact not_lt.mp h1

theorem F32.roundEven_near (N D : Nat) (hD : 0 < D) :
    |((F32.roundEven N D : Nat) : ℚ) - (N : ℚ) / D| ≤ 1 / 2 := by
  have hq := Nat.div_add_mod N D
  have hr := Nat.mod_lt N hD
  have hDq : (0 : ℚ) < D := by exact_mod_cast hD
  have hN : (N : ℚ) / D = (N / D : Nat) + ((N % D : Nat) : ℚ) / D := by
    field_simp
    have : ((D * (N / D) + N % D : Nat) : ℚ) = N := by rw [hq]
    push_cast at this
    linarith
  have hr0 : (0 : ℚ) ≤ ((N % D : Nat) : ℚ) / D := div_nonneg (Nat.cast_nonneg _) hDq.le
  rw [hN, abs_le]
  unfold F32.roundEven
  have hlow : 2 * (N % D) < D → ((N % D : Nat) : ℚ) / D ≤ 1 / 2 := by
    intro h
    rw [div_le_iff₀ hDq]
    have : ((2 * (N % D) : Nat) : ℚ) < D := by exact_mod_cast h
    push_cast at this
    linarith
  have hle : 2 * (N % D) ≤ D → ((N % D : Nat) : ℚ) / D ≤ 1 / 2 := by
    intro h
    rw [div_le_iff₀ hDq]
    have : ((2 * (N % D) : Nat) : ℚ) ≤ D := by exact_mod_cast h
    push_cast at this
    linarith
  have hge : D ≤ 2 * (N % D) → 1 / 2 ≤ ((N % D : Nat) : ℚ) / D := by
    intro h
    rw [le_div_iff₀ hDq]
    have : (D : ℚ) ≤ ((2 * (N % D) : Nat) : ℚ) := by exact_mod_cast h
    push_cast at this
    linarith
  have hlt1 : ((N % D : Nat) : ℚ) / D ≤ 1 := by
    rw [div_le_iff₀ hDq]
    have : ((N % D : Nat) : ℚ) < D := by exact_mod_cast hr
    linarith
  split
  · rename_i h
    have := hlow h
    constructor <;> linarith
  · rename_i h
    split
    · rename_i h1
      have := hge (by omega)
      push_cast
      constructor <;> linarith
    · rename_i h1
      have a := hle (by omega)
      have b := hge (by omega)
      split
      · constructor <;> linarith
      · push_cast
        constructor <;> linarith

/-- The quotient that `F32.round` hands to `F32.roundEven` is the value scaled
by `2^(-e)`. -/
theorem F32.scaled_eq (n d : Nat) (E e : Int) (hd : 0 < d) :
    ((n * 2 ^ (E - e).toNat : Nat) : ℚ) / ((d * 2 ^ (e - E).toNat : Nat) : ℚ)
      = (n : ℚ) / d * 2 ^ E / 2 ^ e := by
  have hdq : (d : ℚ) ≠ 0 := by
    have : (0 : ℚ) < d := by exact_mod_cast hd
    exact this.ne'
  have h2 : (2 : ℚ) ≠ 0 := by norm_num
  push_cast
  rcases le_total e E with h | h
  · have h1 : (e - E).toNat = 0 := by omega
    have h3 : E = e + ((E - e).toNat : Int) := by omega
    rw [h1]
    generalize (E - e).toNat = a at *
    rw [h3, zpow_add₀ h2, zpow_natCast]
    field_simp
    ring
  · have h1 : (E - e).toNat = 0 := by omega
    have h3 : e = E + ((e - E).toNat : Int) := by omega
    rw [h1]
    generalize (e - E).toNat = a at *
    rw [h3, zpow_add₀ h2, zpow_natCast]
    field_simp
    ring

/-- What `F32.round` returns for a value that is not zero: the mantissa is
within one half of the value scaled by the exponent found. -/
theorem F32.round_value (neg : Bool) (n d : Nat) (E : Int) (hn : n ≠ 0) (hd : 0 < d)
    (hv : (n : ℚ) / d * 2 ^ E < 2 ^ (128 : Int)) :
    ∃ (e : Int) (M : Nat), F32.exponent n d E 254 (-149) = some e
      ∧ |(M : ℚ) - (n : ℚ) / d * 2 ^ E / 2 ^ e| ≤ 1 / 2
      ∧ ((M = 16777216 ∧ e = 104 ∧ F32.round neg n d E = F32.inf neg)
        ∨ ∃ (m1 : Nat) (e1 : Int), F32.round neg n d E = F32.finite neg m1 e1
            ∧ m1 < 16777216 ∧ -149 ≤ e1 ∧ e1 ≤ 104
            ∧ (m1 : ℚ) * 2 ^ e1 = (M : ℚ) * 2 ^ e) := by
  cases hex : F32.exponent n d E 254 (-149) with
  | none =>
    have := F32.exponent_none n d E hd hex
    linarith
  | some e =>
    obtain ⟨b1, b2, b3, b4, b5⟩ := F32.exponent_bounds n d E e hd hex
    have hD : 0 < d * 2 ^ (e - E).toNat := Nat.mul_pos hd (pow_pos (by norm_num) _)
    have hnear := F32.roundEven_near (n * 2 ^ (E - e).toNat) (d * 2 ^ (e - E).toNat) hD
    rw [F32.scaled_eq n d E e hd] at hnear
    have hr : F32.round neg n d E
        = if F32.roundEven (n * 2 ^ (E - e).toNat) (d * 2 ^ (e - E).toNat) < 16777216 then
            F32.finite neg (F32.roundEven (n * 2 ^ (E - e).toNat) (d * 2 ^ (e - E).toNat)) e
          else if e < 104 then F32.finite neg 8388608 (e + 1) else F32.inf neg := by
      unfold F32.round
      rw [if_neg hn, hex]
    rw [hr]
    refine ⟨e, F32.roundEven (n * 2 ^ (E - e).toNat) (d * 2 ^ (e - E).toNat), rfl, hnear, ?_⟩
    generalize F32.roundEven (n * 2 ^ (E - e).toNat) (d * 2 ^ (e - E).toNat) = M at *
    have h2e : (0 : ℚ) < 2 ^ e := zpow_pos (by norm_num) e
    have hS : (n : ℚ) / d * 2 ^ E / 2 ^ e < 16777216 := by
      rw [div_lt_iff₀ h2e]
      have : (2 : ℚ) ^ (e + 24) = 16777216 * 2 ^ e := by
        rw [zpow_add₀ (by norm_num)]; norm_num; ring
      linarith
    have hM : M ≤ 16777216 := by
      have h1 := (abs_le.mp hnear).2
      have h3 : (M : ℚ) < 16777217 := by linarith
      have h4 : M < 16777217 := by exact_mod_cast h3
      omega
    by_cases hlt : M < 16777216
    · right
      exact ⟨M, e, by rw [if_pos hlt], hlt, b1, b2, rfl⟩
    · have hMe : M = 16777216 := by omega
      by_cases he : e < 104
      · right
        refine ⟨8388608, e + 1, by rw [if_neg hlt, if_pos he], by norm_num, by omega, by omega, ?_⟩
        rw [hMe, zpow_add₀ (by norm_num)]
        norm_num
        ring
      · left
        exact ⟨hMe, by omega, by rw [if_neg hlt, if_neg he]⟩

/-- A value of the format is rounded to itself. -/
theorem F32.round_exact (neg : Bool) (n d : Nat) (E : Int) (c : Nat) (g : Int)
    (hn : n ≠ 0) (hd : 0 < d) (hc : c < 16777216) (hg0 : -149 ≤ g) (hg1 : g ≤ 104)
    (hv : (n : ℚ) / d * 2 ^ E = (c : ℚ) * 2 ^ g) :
    ∃ (m1 : Nat) (e1 : Int), F32.round neg n d E = F32.finite neg m1 e1
      ∧ m1 < 16777216 ∧ -149 ≤ e1 ∧ e1 ≤ 104 ∧ (m1 : ℚ) * 2 ^ e1 = (c : ℚ) * 2 ^ g := by
  have h2g : (0 : ℚ) < 2 ^ g := zpow_pos (by norm_num) g
  have hcq : (c : ℚ) < 16777216 := by exact_mod_cast hc
  have hlt : (n : ℚ) / d * 2 ^ E < 2 ^ (g + 24) := by
    rw [hv, zpow_add₀ (by norm_num)]
    have : (2 : ℚ) ^ (24 : Int) = 16777216 := by norm_num
    rw [this]
    nlinarith
  have h128 : (n : ℚ) / d * 2 ^ E < 2 ^ (128 : Int) := by
    refine lt_of_lt_of_le hlt ?_
    exact zpow_le_zpow_right₀ (by norm_num) (by omega)
  obtain ⟨e, M, hex, hnear, hres⟩ := F32.round_value neg n d E hn hd h128
  obtain ⟨b1, b2, b3, b4, b5⟩ := F32.exponent_bounds n d E e hd hex
  have heg : e ≤ g := b5 g hg0 hlt
  have h2e : (0 : ℚ) < 2 ^ e := zpow_pos (by norm_num) e
  -- the scaled value is the natural number `c * 2^(g - e)`
  have hS : (n : ℚ) / d * 2 ^ E / 2 ^ e = ((c * 2 ^ (g - e).toNat : Nat) : ℚ) := by
    rw [hv]
    have h3 : g = e + ((g - e).toNat : Int) := by omega
    generalize (g - e).toNat = a at *
    rw [h3, zpow_add₀ (by norm_num), zpow_natCast]
    push_cast
    field_simp
    ring
  rw [hS] at hnear
  have hM : M = c * 2 ^ (g - e).toNat := by
    have h1 := abs_le.mp hnear
    have h3 : (M : ℚ) < ((c * 2 ^ (g - e).toNat : Nat) : ℚ) + 1 := by linarith [h1.2]
    have h4 : ((c * 2 ^ (g - e).toNat : Nat) : ℚ) < (M : ℚ) + 1 := by linarith [h1.1]
    have h5 : M < c * 2 ^ (g - e).toNat + 1 := by exact_mod_cast h3
    have h6 : c * 2 ^ (g - e).toNat < M + 1 := by exact_mod_cast h4
    omega
  have hval : (M : ℚ) * 2 ^ e = (c : ℚ) * 2 ^ g := by
    rw [hM, ← hS, hv]
    field_simp
  rcases hres with ⟨hM1, he1, _⟩ | ⟨m1, e1, hr, c1, c2, c3, c4⟩
  · exfalso
    have : g = 104 := by omega
    rw [hM1, he1, this] at hval
    have h7 : (c : ℚ) = 16777216 := by
      have h8 : (0 : ℚ) < 2 ^ (104 : Int) := zpow_pos (by norm_num) _
      have := mul_right_cancel₀ h8.ne' hval
      push_cast at this
      linarith
    linarith
  · exact ⟨m1, e1, hr, c1, c2, c3, by rw [c4, hval]⟩

/-- The rounded quotient of two naturals below `2^24` lies between the integer
quotient and its successor: rounding never reaches the next integer. -/
theorem F32.round_quotient (neg : Bool) (n d : Nat) (E : Int) (A W : Nat)
    (hn : n ≠ 0) (hd : 0 < d) (hA : A < 16777216) (hW0 : 0 < W) (hW1 : W ≤ 16777216)
    (hv : (n : ℚ) / d * 2 ^ E = (A : ℚ) / W) :
    ∃ (m1 : Nat) (e1 : Int), F32.round neg n d E = F32.finite neg m1 e1
      ∧ m1 < 16777216 ∧ -149 ≤ e1 ∧ e1 ≤ 104
      ∧ ((A / W : Nat) : ℚ) ≤ (m1 : ℚ) * 2 ^ e1 ∧ (m1 : ℚ) * 2 ^ e1 < ((A / W : Nat) : ℚ) + 1 := by
  have hWq : (0 : ℚ) < W := by exact_mod_cast hW0
  have hAq : (A : ℚ) < 16777216 := by exact_mod_cast hA
  have hA0 : (0 : ℚ) ≤ A := Nat.cast_nonneg _
  have hW1q : (W : ℚ) ≤ 16777216 := by exact_mod_cast hW1
  have hW1' : (1 : ℚ) ≤ W := by exact_mod_cast hW0
  have hvA : (A : ℚ) / W ≤ A := div_le_self hA0 hW1'
  have hlt0 : (n : ℚ) / d * 2 ^ E < 2 ^ ((0 : Int) + 24) := by
    rw [hv]; norm_num; linarith
  have h128 : (n : ℚ) / d * 2 ^ E < 2 ^ (128 : Int) := by
    refine lt_of_lt_of_le hlt0 ?_
    exact zpow_le_zpow_right₀ (by norm_num) (by norm_num)
  obtain ⟨e, M, hex, hnear, hres⟩ := F32.round_value neg n d E hn hd h128
  obtain ⟨b1, b2, b3, b4, b5⟩ := F32.exponent_bounds n d E e hd hex
  have he0 : e ≤ 0 := b5 0 (by norm_num) hlt0
  have h2e : (0 : ℚ) < 2 ^ e := zpow_pos (by norm_num) e
  -- `K = 2^(-e)` is a natural number
  obtain ⟨k, hk⟩ : ∃ k : Nat, e = -(k : Int) := ⟨(-e).toNat, by omega⟩
  have hK : (2 : ℚ) ^ e = 1 / 2 ^ k := by
    rw [hk, zpow_neg, zpow_natCast, one_div]
  have hKpos : (0 : ℚ) < 2 ^ k := pow_pos (by norm_num) k
  -- `W * 2^e < 2`
  have hWe : (W : ℚ) < 2 * 2 ^ k := by
    rcases b4 with h | h
    · have hk149 : k = 149 := by omega
      rw [hk149]
      have : (16777216 : ℚ) < 2 * 2 ^ 149 := by norm_num
      linarith
    · rw [hv, zpow_add₀ (by norm_num), hK, le_div_iff₀ hWq] at h
      have h23 : (2 : ℚ) ^ (23 : Int) = 8388608 := by norm_num
      rw [h23] at h
      have h1 : 1 / (2 : ℚ) ^ k * 8388608 * W < 16777216 := by linarith
      have h3 : 1 / (2 : ℚ) ^ k * 8388608 * W = 8388608 * W / 2 ^ k := by ring
      rw [h3, div_lt_iff₀ hKpos] at h1
      linarith
  -- the integer quotient
  have hq := Nat.div_add_mod A W
  have hr := Nat.mod_lt A hW0
  have hqle : ((A / W : Nat) : ℚ) ≤ (A : ℚ) / W := by
    rw [le_div_iff₀ hWq]
    have : (A / W) * W ≤ A := Nat.div_mul_le_self A W
    exact_mod_cast this
  have hqlt : (A : ℚ) / W ≤ ((A / W : Nat) : ℚ) + 1 - 1 / W := by
    have h1 : (A : ℚ) + 1 ≤ (((A / W : Nat) : ℚ) + 1) * W := by
      have : A + 1 ≤ (A / W + 1) * W := by
        have := Nat.lt_succ_iff.mp (Nat.lt_succ_of_le (le_refl A))
        nlinarith [Nat.div_add_mod A W, Nat.mod_lt A hW0]
      exact_mod_cast this
    have h3 : ((A / W : Nat) : ℚ) + 1 - 1 / W = ((((A / W : Nat) : ℚ) + 1) * W - 1) / W := by
      field_simp
    rw [h3, div_le_div_iff_of_pos_right hWq]
    linarith
  -- the scaled value
  have hS : (n : ℚ) / d * 2 ^ E / 2 ^ e = (A : ℚ) / W * 2 ^ k := by
    rw [hv, hK]; field_simp
  rw [hS] at hnear
  have hn1 := abs_le.mp hnear
  have hinvW : (0 : ℚ) < 1 / W := by positivity
  have hlow : ((A / W * 2 ^ k : Nat) : ℚ) ≤ (M : ℚ) := by
    have h1 : ((A / W : Nat) : ℚ) * 2 ^ k ≤ (A : ℚ) / W * 2 ^ k :=
      mul_le_mul_of_nonneg_right hqle hKpos.le
    have h3 : ((A / W * 2 ^ k : Nat) : ℚ) < (M : ℚ) + 1 := by
      push_cast; linarith [hn1.1]
    have h4 : A / W * 2 ^ k < M + 1 := by exact_mod_cast h3
    have h5 : A / W * 2 ^ k ≤ M := by omega
    exact_mod_cast h5
  have hhigh : (M : ℚ) < (((A / W : Nat) : ℚ) + 1) * 2 ^ k := by
    have h1 : (A : ℚ) / W * 2 ^ k ≤ (((A / W : Nat) : ℚ) + 1 - 1 / W) * 2 ^ k :=
      mul_le_mul_of_nonneg_right hqlt hKpos.le
    have h3 : (1 : ℚ) / 2 < 1 / W * 2 ^ k := by
      rw [one_div_mul_eq_div, lt_div_iff₀ hWq]
      linarith
    have h4 : (((A / W : Nat) : ℚ) + 1 - 1 / W) * 2 ^ k
        = (((A / W : Nat) : ℚ) + 1) * 2 ^ k - 1 / W * 2 ^ k := by ring
    rw [h4] at h1
    linarith [hn1.2]
  have hval : ((A / W : Nat) : ℚ) ≤ (M : ℚ) * 2 ^ e ∧ (M : ℚ) * 2 ^ e < ((A / W : Nat) : ℚ) + 1 := by
    rw [hK]
    constructor
    · rw [mul_one_div, le_div_iff₀ hKpos]
      push_cast at hlow
      exact hlow
    · rw [mul_one_div, div_lt_iff₀ hKpos]
      exact hhigh
  rcases hres with ⟨_, he1, _⟩ | ⟨m1, e1, hr1, c1, c2, c3, c4⟩
  · omega
  · exact ⟨m1, e1, hr1, c1, c2, c3, by rw [c4]; exact hval.1, by rw [c4]; exact hval.2⟩

/-- The conversion to `int32_t` of a finite value discards the fraction. -/
theorem F32.toI32_trunc (neg : Bool) (m : Nat) (e : Int) (q : Nat) (hq : q ≤ 2147483647)
    (h0 : (q : ℚ) ≤ (m : ℚ) * 2 ^ e) (h1 : (m : ℚ) * 2 ^ e < (q : ℚ) + 1) :
    F32.toI32 (F32.finite neg m e) = if neg then -(q : Int) else (q : Int) := by
  have key : m * 2 ^ e.toNat / 2 ^ (-e).toNat = q := by
    rcases le_total 0 e with h | h
    · have ha : (-e).toNat = 0 := by omega
      obtain ⟨a, rfl⟩ : ∃ a : Nat, e = a := ⟨e.toNat, by omega⟩
      rw [ha]
      simp only [Int.toNat_ofNat, pow_zero, Nat.div_one]
      rw [zpow_natCast] at h0 h1
      have h3 : q ≤ m * 2 ^ a := by exact_mod_cast h0
      have h4 : m * 2 ^ a < q + 1 := by exact_mod_cast h1
      omega
    · have ha : e.toNat = 0 := by omega
      obtain ⟨a, rfl⟩ : ∃ a : Nat, e = -(a : Int) := ⟨(-e).toNat, by omega⟩
      rw [ha]
      simp only [neg_neg, Int.toNat_ofNat, pow_zero, mul_one]
      have hp : (0 : ℚ) < 2 ^ a := pow_pos (by norm_num) a
      rw [zpow_neg, zpow_natCast, ← div_eq_mul_inv] at h0 h1
      rw [le_div_iff₀ hp] at h0
      rw [div_lt_iff₀ hp] at h1
      have h3 : q * 2 ^ a ≤ m := by exact_mod_cast h0
      have h4 : m < (q + 1) * 2 ^ a := by exact_mod_cast h1
      apply Nat.div_eq_of_lt_le
      · exact h3
      · exact h4
  simp only [F32.toI32, key]
  split <;> omega

/-- An integer of magnitude at most `2^24` is converted to `float` exactly. -/
theorem F32.ofInt_exact (z : Int) (hz : |z| ≤ 16777216) :
    ∃ (m : Nat) (e : Int), F32.ofInt z = F32.finite (decide (z < 0)) m e
      ∧ (m : ℚ) * 2 ^ e = (z.natAbs : ℚ) := by
  have hz2 := abs_le.mp hz
  have hz1 : z.natAbs ≤ 16777216 := by omega
  unfold F32.ofInt
  by_cases h0 : z.natAbs = 0
  · refine ⟨0, 0, ?_, by rw [h0]; simp⟩
    unfold F32.round
    rw [if_pos h0]
  · by_cases h1 : z.natAbs = 16777216
    · obtain ⟨m1, e1, hr, _, _, _, hv⟩ := F32.round_exact (decide (z < 0)) z.natAbs 1 0 8388608 1
        h0 (by norm_num) (by norm_num) (by norm_num) (by norm_num) (by rw [h1]; norm_num)
      exact ⟨m1, e1, hr, by rw [hv, h1]; norm_num⟩
    · obtain ⟨m1, e1, hr, _, _, _, hv⟩ := F32.round_exact (decide (z < 0)) z.natAbs 1 0
        z.natAbs 0 h0 (by norm_num) (by omega) (by norm_num) (by norm_num) (by norm_num)
      exact ⟨m1, e1, hr, by rw [hv]; norm_num⟩

/-- A product that is a natural number below `2^24` is exact. -/
theorem F32.mul_exact (s t : Bool) (m k : Nat) (e f : Int) (c : Nat) (hc : c < 16777216)
    (hv : ((m : ℚ) * 2 ^ e) * ((k : ℚ) * 2 ^ f) = (c : ℚ)) :
    ∃ (m1 : Nat) (e1 : Int), F32.mul (F32.finite s m e) (F32.finite t k f)
        = F32.finite (xor s t) m1 e1 ∧ (m1 : ℚ) * 2 ^ e1 = (c : ℚ) := by
  have hm : F32.mul (F32.finite s m e) (F32.finite t k f) = F32.round (xor s t) (m * k) 1 (e + f) :=
    rfl
  rw [hm]
  have hval : ((m * k : Nat) : ℚ) / (1 : Nat) * 2 ^ (e + f) = (c : ℚ) := by
    rw [← hv, zpow_add₀ (by norm_num)]
    push_cast
    ring
  by_cases h0 : m * k = 0
  · refine ⟨0, 0, ?_, ?_⟩
    · unfold F32.round
      rw [if_pos h0]
    · rw [h0] at hval
      rw [← hval]
      simp
  · obtain ⟨m1, e1, hr, _, _, _, h1⟩ := F32.round_exact (xor s t) (m * k) 1 (e + f) c 0 h0
      (by norm_num) hc (by norm_num) (by norm_num) (by rw [hval]; norm_num)
    exact ⟨m1, e1, hr, by rw [h1]; norm_num⟩

/-- The quotient of two naturals below `2^24`, converted to `int32_t`, is
their integer quotient. -/
theorem F32.toI32_div (s t : Bool) (m k : Nat) (e f : Int) (A W : Nat)
    (hA : A < 16777216) (hW0 : 0 < W) (hW1 : W ≤ 16777216)
    (ha : (m : ℚ) * 2 ^ e = (A : ℚ)) (hw : (k : ℚ) * 2 ^ f = (W : ℚ)) :
    F32.toI32 (F32.div (F32.finite s m e) (F32.finite t k f))
      = if xor s t then -((A / W : Nat) : Int) else ((A / W : Nat) : Int) := by
  have hk : k ≠ 0 := by
    intro h
    rw [h] at hw
    have : (0 : ℚ) < W := by exact_mod_cast hW0
    simp at hw
    linarith
  have hd : F32.div (F32.finite s m e) (F32.finite t k f) = F32.round (xor s t) m k (e - f) := by
    show (if k = 0 then (if m = 0 then F32.nan else F32.inf (xor s t))
      else F32.round (xor s t) m k (e - f)) = _
    rw [if_neg hk]
  rw [hd]
  by_cases h0 : m = 0
  · have hA0 : A = 0 := by
      rw [h0] at ha
      have : (A : ℚ) = 0 := by rw [← ha]; simp
      exact_mod_cast this
    have hr : F32.round (xor s t) m k (e - f) = F32.finite (xor s t) 0 0 := by
      unfold F32.round
      rw [if_pos h0]
    rw [hr, hA0]
    cases xor s t <;> simp [F32.toI32]
  · have hkq : (k : ℚ) ≠ 0 := by exact_mod_cast hk
    have h2f : (2 : ℚ) ^ f ≠ 0 := (zpow_pos (by norm_num) f).ne'
    have hval : (m : ℚ) / k * 2 ^ (e - f) = (A : ℚ) / W := by
      rw [← ha, ← hw, zpow_sub₀ (by norm_num)]
      field_simp
    obtain ⟨m1, e1, hr, _, _, _, h1, h2⟩ := F32.round_quotient (xor s t) m k (e - f) A W h0
      (Nat.pos_of_ne_zero hk) hA hW0 hW1 hval
    rw [hr]
    have hq : A / W ≤ 2147483647 := by
      have := Nat.div_le_self A W
      omega
    exact F32.toI32_trunc (xor s t) m1 e1 (A / W) hq h1 h2

theorem tdiv_floor_ceil (a b : Int) (hb : 0 < b) :
    Int.tdiv a b = if 0 ≤ a then ⌊(a : ℚ) / (b : ℚ)⌋ else ⌈(a : ℚ) / (b : ℚ)⌉ := by
  obtain ⟨d, rfl⟩ : ∃ d : Nat, b = d := ⟨b.toNat, by omega⟩
  split
  · rename_i ha
    rw [Int.cast_natCast, Rat.floor_intCast_div_natCast, Int.tdiv_eq_ediv ha (Int.ofNat_nonneg d)]
  · rename_i ha
    have : ((a : ℚ) / ((d : Int) : ℚ)) = -(((-a : Int) : ℚ) / (d : ℚ)) := by
      push_cast; ring
    rw [this, Int.ceil_neg, Rat.floor_intCast_div_natCast]
    have h2 := Int.neg_tdiv (-a) d
    rw [neg_neg] at h2
    rw [h2, Int.tdiv_eq_ediv (by omega) (Int.ofNat_nonneg d)]

/-- The mapping of `Display` on integers that binary32 holds exactly: the
product is exact and the rounded quotient truncates to the integer quotient. -/
theorem F32.map_ofInt (x cw : Int) (h : Nat) (hx : |x| < 16777216)
    (hxh : |x * (h : Int)| < 16777216) (hh : h < 16777216)
    (hcw0 : 0 < cw) (hcw1 : cw ≤ 16777216) :
    F32.toI32 (F32.div (F32.mul (F32.ofInt x) (F32.ofInt (h : Int))) (F32.ofInt cw))
      = Int.tdiv (x * (h : Int)) cw := by
  have hx2 := abs_lt.mp hx
  have hxh2 := abs_lt.mp hxh
  obtain ⟨m, e, h1, v1⟩ := F32.ofInt_exact x hx.le
  obtain ⟨k, f, h2, v2⟩ := F32.ofInt_exact (h : Int) (by rw [abs_of_nonneg (by omega)]; omega)
  obtain ⟨w, g, h3, v3⟩ := F32.ofInt_exact cw (by rw [abs_of_pos hcw0]; exact hcw1)
  have d2 : decide ((h : Int) < 0) = false := by simp
  have d3 : decide (cw < 0) = false := by simp; omega
  rw [d2] at h2
  rw [d3] at h3
  have hc : (x * (h : Int)).natAbs < 16777216 := by omega
  have hprod : ((m : ℚ) * 2 ^ e) * ((k : ℚ) * 2 ^ f) = ((x * (h : Int)).natAbs : ℚ) := by
    rw [v1, v2, Int.natAbs_mul]
    push_cast
    rfl
  obtain ⟨m1, e1, h4, v4⟩ := F32.mul_exact (decide (x < 0)) false m k e f _ hc hprod
  rw [h1, h2, h3, h4, F32.toI32_div _ _ m1 w e1 g (x * (h : Int)).natAbs cw.natAbs hc
    (by omega) (by omega) v4 v3]
  simp only [Bool.xor_false]
  have hW : ((cw.natAbs : Nat) : Int) = cw := by omega
  by_cases hneg : x < 0
  · rw [decide_eq_true hneg, if_pos rfl]
    have hxh0 : x * (h : Int) ≤ 0 := by
      have : 0 ≤ (-x) * (h : Int) := Int.mul_nonneg (by omega) (by omega)
      have e1 : (-x) * (h : Int) = -(x * (h : Int)) := by ring
      omega
    have hA : (((x * (h : Int)).natAbs : Nat) : Int) = -(x * (h : Int)) := by omega
    have h5 := Int.neg_tdiv (-(x * (h : Int))) cw
    rw [neg_neg] at h5
    rw [h5, Int.tdiv_eq_ediv (by omega) hcw0.le, ← hA, ← hW]
    norm_cast
  · rw [decide_eq_false hneg, if_neg (by simp)]
    have hxh0 : 0 ≤ x * (h : Int) := Int.mul_nonneg (by omega) (by omega)
    have hA : (((x * (h : Int)).natAbs : Nat) : Int) = x * (h : Int) := by omega
    rw [Int.tdiv_eq_ediv hxh0 hcw0.le, ← hA, ← hW]
    norm_cast

/-- On a tie `F32.roundEven` gives the even one of the two neighbours. -/
theorem F32.roundEven_tie (N D : Nat) (h : 2 * (N % D) = D) : F32.roundEven N D % 2 = 0 := by
  unfold F32.roundEven
  rw [if_neg (by omega), if_neg (by omega)]
  split <;> omega

/-- A finite result of `F32.round` comes from the exponent found and from a
mantissa within one half of the scaled value. -/
theorem F32.round_finite (neg : Bool) (n d : Nat) (E : Int) (m1 : Nat) (e1 : Int)
    (hn : n ≠ 0) (hd : 0 < d) (hr : F32.round neg n d E = F32.finite neg m1 e1) :
    ∃ (e : Int) (M : Nat), F32.exponent n d E 254 (-149) = some e
      ∧ |(M : ℚ) - (n : ℚ) / d * 2 ^ E / 2 ^ e| ≤ 1 / 2
      ∧ (m1 : ℚ) * 2 ^ e1 = (M : ℚ) * 2 ^ e := by
  have hv : (n : ℚ) / d * 2 ^ E < 2 ^ (128 : Int) := by
    by_contra hcon
    cases hex : F32.exponent n d E 254 (-149) with
    | none =>
      unfold F32.round at hr
      rw [if_neg hn, hex] at hr
      exact F32.noConfusion hr
    | some e =>
      obtain ⟨_, b2, b3, _⟩ := F32.exponent_bounds n d E e hd hex
      have : (2 : ℚ) ^ (e + 24) ≤ 2 ^ (128 : Int) :=
        zpow_le_zpow_right₀ (by norm_num) (by omega)
      exact hcon (lt_of_lt_of_le b3 this)
  obtain ⟨e, M, hex, hnear, hres⟩ := F32.round_value neg n d E hn hd hv
  rcases hres with ⟨_, _, hinf⟩ | ⟨m2, e2, hr2, _, _, _, hval⟩
  · rw [hinf] at hr
    exact F32.noConfusion hr
  · rw [hr2] at hr
    injection hr with _ h2 h3
    subst h2 h3
    exact ⟨e, M, hex, hnear, hval⟩

/-- `F32.round` rounds to nearest: no value `m2 * 2^e2` of the format is nearer
to `n / d * 2^E` than a finite result of the rounding. -/
theorem F32.round_nearest (neg : Bool) (n d : Nat) (E : Int) (m1 : Nat) (e1 : Int)
    (hn : n ≠ 0) (hd : 0 < d) (hr : F32.round neg n d E = F32.finite neg m1 e1)
    (m2 : Nat) (e2 : Int) (hm2 : m2 < 16777216) (he2 : -149 ≤ e2) :
    |(m1 : ℚ) * 2 ^ e1 - (n : ℚ) / d * 2 ^ E| ≤ |(m2 : ℚ) * 2 ^ e2 - (n : ℚ) / d * 2 ^ E| := by
  obtain ⟨e, M, hex, hnear, hval⟩ := F32.round_finite neg n d E m1 e1 hn hd hr
  obtain ⟨b1, b2, b3, b4, b5⟩ := F32.exponent_bounds n d E e hd hex
  rw [hval]
  generalize (n : ℚ) / d * 2 ^ E = v at *
  have h2e : (0 : ℚ) < 2 ^ e := zpow_pos (by norm_num) e
  -- distances scale with `2^e`
  have hscale : ∀ k : ℚ, |k * 2 ^ e - v| = |k - v / 2 ^ e| * 2 ^ e := by
    intro k
    have : k * 2 ^ e - v = (k - v / 2 ^ e) * 2 ^ e := by field_simp
    rw [this, abs_mul, abs_of_pos h2e]
  -- `M` is an integer nearest to the scaled value
  have hint : ∀ k : Int, |(M : ℚ) - v / 2 ^ e| ≤ |(k : ℚ) - v / 2 ^ e| := by
    intro k
    by_cases hk : k = (M : Int)
    · rw [hk]; norm_cast
    · have h1 : (1 : ℚ) ≤ |(k : ℚ) - (M : ℚ)| := by
        have : (1 : Int) ≤ |k - (M : Int)| := by
          rcases abs_cases (k - (M : Int)) with ⟨h, _⟩ | ⟨h, _⟩ <;> omega
        exact_mod_cast this
      have h3 : |(k : ℚ) - (M : ℚ)| ≤ |(k : ℚ) - v / 2 ^ e| + |(M : ℚ) - v / 2 ^ e| := by
        have : (k : ℚ) - (M : ℚ) = ((k : ℚ) - v / 2 ^ e) - ((M : ℚ) - v / 2 ^ e) := by ring
        rw [this]
        exact abs_sub _ _
      linarith
  rcases le_or_lt e e2 with hle | hlt
  · -- the other value is a multiple of `2^e`
    obtain ⟨a, ha⟩ : ∃ a : Nat, e2 = e + a := ⟨(e2 - e).toNat, by omega⟩
    have hk : (m2 : ℚ) * 2 ^ e2 = ((m2 * 2 ^ a : Nat) : Int) * 2 ^ e := by
      rw [ha, zpow_add₀ (by norm_num), zpow_natCast]
      push_cast
      ring
    rw [hk, hscale, hscale]
    exact mul_le_mul_of_nonneg_right (hint _) h2e.le
  · -- the other value lies below `2^(e + 23)`, itself a multiple of `2^e` not above `v`
    have he : e ≠ -149 := by omega
    have hv23 : (2 : ℚ) ^ (e + 23) ≤ v := by
      rcases b4 with h | h
      · exact absurd h he
      · exact h
    have h23 : (2 : ℚ) ^ (e + 23) = ((8388608 : Int) : ℚ) * 2 ^ e := by
      rw [zpow_add₀ (by norm_num)]; norm_num; ring
    have hm2q : (m2 : ℚ) < 16777216 := by exact_mod_cast hm2
    have hsmall : (m2 : ℚ) * 2 ^ e2 ≤ 2 ^ (e + 23) := by
      have h1 : (2 : ℚ) ^ e2 ≤ 2 ^ (e - 1) := zpow_le_zpow_right₀ (by norm_num) (by omega)
      have h3 : (2 : ℚ) ^ (e + 23) = 16777216 * 2 ^ (e - 1) := by
        have : e + 23 = (e - 1) + 24 := by ring
        rw [this, zpow_add₀ (by norm_num)]; norm_num; ring
      have h4 : (0 : ℚ) < 2 ^ e2 := zpow_pos (by norm_num) e2
      have h5 : (0 : ℚ) ≤ (m2 : ℚ) := Nat.cast_nonneg _
      rw [h3]
      nlinarith
    have hfar : |(2 : ℚ) ^ (e + 23) - v| ≤ |(m2 : ℚ) * 2 ^ e2 - v| := by
      rw [abs_of_nonpos (by linarith), abs_of_nonpos (by linarith)]
      linarith
    refine le_trans ?_ hfar
    rw [h23, hscale, hscale]
    exact mul_le_mul_of_nonneg_right (hint _) h2e.le

/-- Rounding yields a value of the format. -/
theorem F32.round_valid (neg : Bool) (n d : Nat) (E : Int) (hd : 0 < d) :
    (F32.round neg n d E).Valid := by
  unfold F32.round
  split
  · exact ⟨by norm_num, by norm_num, by norm_num⟩
  · cases hex : F32.exponent n d E 254 (-149) with
    | none => exact trivial
    | some e =>
      obtain ⟨b1, b2, _⟩ := F32.exponent_bounds n d E e hd hex
      dsimp only
      split
      · rename_i h
        exact ⟨h, b1, b2⟩
      · split
        · exact ⟨by norm_num, by omega, by omega⟩
        · exact trivial

theorem F32.ofInt_valid (z : Int) : (F32.ofInt z).Valid :=
  F32.round_valid _ _ _ _ (by norm_num)

theorem F32.mul_valid (a b : F32) : (F32.mul a b).Valid := by
  cases a <;> cases b <;> simp only [F32.mul]
  · exact F32.round_valid _ _ _ _ (by norm_num)
  · split <;> exact trivial
  · exact trivial
  · split <;> exact trivial
  · exact trivial
  · exact trivial
  · exact trivial
  · exact trivial
  · exact trivial

theorem F32.div_valid (a b : F32) : (F32.div a b).Valid := by
  cases a <;> cases b <;> simp only [F32.div]
  · split
    · split <;> exact trivial
    · rename_i h
      exact F32.round_valid _ _ _ _ (Nat.pos_of_ne_zero h)
  · exact ⟨by norm_num, by norm_num, by norm_num⟩
  · exact trivial
  · exact trivial
  · exact trivial
  · exact trivial
  · exact trivial
  · exact trivial
  · exact trivial

theorem F32.round_sign (neg a : Bool) (n d m : Nat) (E e : Int)
    (h : F32.round neg n d E = F32.finite a m e) : a = neg := by
  unfold F32.round at h
  split at h
  · injection h with h1 _ _
    exact h1.symm
  · split at h
    · exact F32.noConfusion h
    · dsimp only at h
      split at h
      · injection h with h1 _ _
        exact h1.symm
      · split at h
        · injection h with h1 _ _
          exact h1.symm
        · exact F32.noConfusion h

/-- A finite result of `F32.round` is a value of the format nearest to the
rounded number. -/
theorem F32.round_Nearest (neg : Bool) (n d : Nat) (E : Int) (hd : 0 < d)
    (hfin : (F32.round neg n d E).isFinite = true) :
    F32.Nearest ((if neg then -1 else 1) * ((n : ℚ) / d * 2 ^ E)) (F32.round neg n d E) := by
  refine ⟨hfin, F32.round_valid neg n d E hd, ?_⟩
  intro s hs1 hs2
  by_cases hn : n = 0
  · have hr : F32.round neg n d E = F32.finite neg 0 0 := by
      unfold F32.round
      rw [if_pos hn]
    rw [hr, hn]
    simp only [F32.toRat]
    simp
  · cases hr : F32.round neg n d E with
    | nan => rw [hr] at hfin; exact absurd hfin (by decide)
    | inf a => rw [hr] at hfin; exact absurd hfin (by simp [F32.isFinite])
    | finite a m1 e1 =>
      have ha := F32.round_sign neg a n d m1 E e1 hr
      subst ha
      cases s with
      | nan => exact absurd hs1 (by decide)
      | inf b => exact absurd hs1 (by simp [F32.isFinite])
      | finite b m2 e2 =>
        obtain ⟨v1, v2, _⟩ := hs2
        have hnear := F32.round_nearest a n d E m1 e1 hn hd hr m2 e2 v1 v2
        have hzero := F32.round_nearest a n d E m1 e1 hn hd hr 0 e2 (by norm_num) v2
        simp only [F32.toRat]
        have hvpos : (0 : ℚ) ≤ (n : ℚ) / d * 2 ^ E :=
          mul_nonneg (div_nonneg (Nat.cast_nonneg _) (Nat.cast_nonneg _))
            (zpow_pos (by norm_num) E).le
        generalize (n : ℚ) / d * 2 ^ E = v at *
        have hv0 : (0 : ℚ) ≤ (m2 : ℚ) * 2 ^ e2 :=
          mul_nonneg (Nat.cast_nonneg _) (zpow_pos (by norm_num) e2).le
        generalize (m2 : ℚ) * 2 ^ e2 = r at *
        generalize (m1 : ℚ) * 2 ^ e1 = R at *
        simp only [Nat.cast_zero, zero_mul, zero_sub, abs_neg] at hzero
        cases a <;> cases b <;> simp only [Bool.false_eq_true, if_false, if_true, one_mul]
        · exact hnear
        · have h1 : |R - v| ≤ |v| := hzero
          have h2 : |v| ≤ |-1 * r - v| := by
            rw [abs_of_nonneg hvpos, abs_of_nonpos (by linarith)]
            linarith
          linarith
        · have h0 : |-1 * R - -1 * v| = |R - v| := by
            rw [show -1 * R - -1 * v = -(R - v) by ring, abs_neg]
          have h2 : |v| ≤ |r - -1 * v| := by
            rw [abs_of_nonneg hvpos, abs_of_nonneg (by linarith)]
            linarith
          rw [h0]
          linarith
        · have h0 : |-1 * R - -1 * v| = |R - v| := by
            rw [show -1 * R - -1 * v = -(R - v) by ring, abs_neg]
          have h1 : |-1 * r - -1 * v| = |r - v| := by
            rw [show -1 * r - -1 * v = -(r - v) by ring, abs_neg]
          rw [h0, h1]
          exact hnear

/-- The product of two finite `float`s, when it does not overflow, is a value
of the format nearest to the exact product. -/
theorem F32.mul_Nearest (a b : F32) (ha : a.isFinite = true) (hb : b.isFinite = true)
    (hfin : (F32.mul a b).isFinite = true) :
    F32.Nearest (a.toRat * b.toRat) (F32.mul a b) := by
  cases a with
  | nan => exact absurd ha (by decide)
  | inf _ => exact absurd ha (by simp [F32.isFinite])
  | finite s m e =>
    cases b with
    | nan => exact absurd hb (by decide)
    | inf _ => exact absurd hb (by simp [F32.isFinite])
    | finite t k f =>
      have hm : F32.mul (F32.finite s m e) (F32.finite t k f)
          = F32.round (xor s t) (m * k) 1 (e + f) := rfl
      rw [hm] at hfin ⊢
      have h := F32.round_Nearest (xor s t) (m * k) 1 (e + f) (by norm_num) hfin
      have ht : (if xor s t = true then (-1 : ℚ) else 1)
            * (((m * k : Nat) : ℚ) / ((1 : Nat) : ℚ) * 2 ^ (e + f))
          = (F32.finite s m e).toRat * (F32.finite t k f).toRat := by
        simp only [F32.toRat]
        rw [zpow_add₀ (by norm_num)]
        cases s <;> cases t <;> simp <;> ring
      rw [ht] at h
      exact h

/-- The quotient of two finite `float`s, the divisor not zero, when it does not
overflow, is a value of the format nearest to the exact quotient. -/
theorem F32.div_Nearest (a b : F32) (ha : a.isFinite = true) (hb : b.isFinite = true)
    (hb0 : b.toRat ≠ 0) (hfin : (F32.div a b).isFinite = true) :
    F32.Nearest (a.toRat / b.toRat) (F32.div a b) := by
  cases a with
  | nan => exact absurd ha (by decide)
  | inf _ => exact absurd ha (by simp [F32.isFinite])
  | finite s m e =>
    cases b with
    | nan => exact absurd hb (by decide)
    | inf _ => exact absurd hb (by simp [F32.isFinite])
    | finite t k f =>
      have hk : k ≠ 0 := by
        intro h
        apply hb0
        simp [F32.toRat, h]
      have hd : F32.div (F32.finite s m e) (F32.finite t k f)
          = F32.round (xor s t) m k (e - f) := by
        show (if k = 0 then (if m = 0 then F32.nan else F32.inf (xor s t))
          else F32.round (xor s t) m k (e - f)) = _
        rw [if_neg hk]
      rw [hd] at hfin ⊢
      have h := F32.round_Nearest (xor s t) m k (e - f) (Nat.pos_of_ne_zero hk) hfin
      have hkq : (k : ℚ) ≠ 0 := by exact_mod_cast hk
      have h2f : (2 : ℚ) ^ f ≠ 0 := (zpow_pos (by norm_num) f).ne'
      have ht : (if xor s t = true then (-1 : ℚ) else 1) * ((m : ℚ) / (k : ℚ) * 2 ^ (e - f))
          = (F32.finite s m e).toRat / (F32.finite t k f).toRat := by
        simp only [F32.toRat]
        rw [zpow_sub₀ (by norm_num)]
        cases s <;> cases t <;> simp <;> field_simp
      rw [ht] at h
      exact h

/-- The integer part of the magnitude of a finite `float`. -/
theorem F32.trunc_eq (m : Nat) (e : Int) (q : Nat)
    (h0 : (q : ℚ) ≤ (m : ℚ) * 2 ^ e) (h1 : (m : ℚ) * 2 ^ e < (q : ℚ) + 1) :
    m * 2 ^ e.toNat / 2 ^ (-e).toNat = q := by
  rcases le_total 0 e with h | h
  · have ha : (-e).toNat = 0 := by omega
    obtain ⟨a, rfl⟩ : ∃ a : Nat, e = a := ⟨e.toNat, by omega⟩
    rw [ha]
    simp only [Int.toNat_ofNat, pow_zero, Nat.div_one]
    rw [zpow_natCast] at h0 h1
    have h3 : q ≤ m * 2 ^ a := by exact_mod_cast h0
    have h4 : m * 2 ^ a < q + 1 := by exact_mod_cast h1
    omega
  · have ha : e.toNat = 0 := by omega
    obtain ⟨a, rfl⟩ : ∃ a : Nat, e = -(a : Int) := ⟨(-e).toNat, by omega⟩
    rw [ha]
    simp only [neg_neg, Int.toNat_ofNat, pow_zero, mul_one]
    have hp : (0 : ℚ) < 2 ^ a := pow_pos (by norm_num) a
    rw [zpow_neg, zpow_natCast, ← div_eq_mul_inv] at h0 h1
    rw [le_div_iff₀ hp] at h0
    rw [div_lt_iff₀ hp] at h1
    have h3 : q * 2 ^ a ≤ m := by exact_mod_cast h0
    have h4 : m < (q + 1) * 2 ^ a := by exact_mod_cast h1
    exact Nat.div_eq_of_lt_le h3 h4

/-- Inside the range of `int32_t` the conversion of a finite `float` discards
the fraction. -/
theorem F32.toI32_towardZero (f : F32) (hf : f.isFinite = true)
    (h0 : -2147483648 ≤ f.toRat) (h1 : f.toRat < 2147483648) :
    F32.toI32 f = towardZero f.toRat := by
  cases f with
  | nan => exact absurd hf (by decide)
  | inf _ => exact absurd hf (by simp [F32.isFinite])
  | finite neg m e =>
    have hu : (0 : ℚ) ≤ (m : ℚ) * 2 ^ e :=
      mul_nonneg (Nat.cast_nonneg _) (zpow_pos (by norm_num) e).le
    have key := F32.trunc_eq m e ⌊(m : ℚ) * 2 ^ e⌋₊ (Nat.floor_le hu) (Nat.lt_floor_add_one _)
    have hfl : ((⌊(m : ℚ) * 2 ^ e⌋₊ : Nat) : Int) = ⌊(m : ℚ) * 2 ^ e⌋ :=
      Int.natCast_floor_eq_floor hu
    have hle : ((⌊(m : ℚ) * 2 ^ e⌋₊ : Nat) : ℚ) ≤ (m : ℚ) * 2 ^ e := Nat.floor_le hu
    simp only [F32.toRat] at h0 h1 ⊢
    simp only [F32.toI32, key]
    unfold towardZero
    cases neg
    · simp only [Bool.false_eq_true, if_false, one_mul] at h0 h1 ⊢
      rw [if_pos hu, ← hfl]
      have : ((⌊(m : ℚ) * 2 ^ e⌋₊ : Nat) : ℚ) < 2147483648 := lt_of_le_of_lt hle h1
      have h3 : ⌊(m : ℚ) * 2 ^ e⌋₊ < 2147483648 := by exact_mod_cast this
      omega
    · simp only [if_true] at h0 h1 ⊢
      have hub : (m : ℚ) * 2 ^ e ≤ 2147483648 := by linarith
      have : ((⌊(m : ℚ) * 2 ^ e⌋₊ : Nat) : ℚ) ≤ 2147483648 := le_trans hle hub
      have h3 : ⌊(m : ℚ) * 2 ^ e⌋₊ ≤ 2147483648 := by exact_mod_cast this
      by_cases hz : (m : ℚ) * 2 ^ e = 0
      · rw [hz]
        simp
      · have hneg : ¬ (0 : ℚ) ≤ -1 * ((m : ℚ) * 2 ^ e) := by
          intro h
          have : (m : ℚ) * 2 ^ e ≤ 0 := by linarith
          exact hz (le_antisymm this hu)
        rw [if_neg hneg, show -1 * ((m : ℚ) * 2 ^ e) = -((m : ℚ) * 2 ^ e) by ring,
          Int.ceil_neg, ← hfl]
        omega

/-! ## `memcpy` -/

theorem memcpy_units (dst src : List Nat) (dOff sOff : Int) (q : Nat)
    (hd0 : 0 ≤ dOff) (hd1 : dOff + q ≤ dst.length)
    (hs0 : 0 ≤ sOff) (hs1 : sOff + q ≤ src.length) :
    ∃ r, memcpy dst dOff src sOff (4 * q) = some r ∧ r.length = dst.length
      ∧ (∀ k, k < q → r[dOff.toNat + k]? = src[sOff.toNat + k]?)
      ∧ (∀ j, (j < dOff.toNat ∨ dOff.toNat + q ≤ j) → r[j]? = dst[j]?) := by
  obtain ⟨d, rfl⟩ : ∃ d : Nat, dOff = d := ⟨dOff.toNat, by omega⟩
  obtain ⟨s, rfl⟩ : ∃ s : Nat, sOff = s := ⟨sOff.toNat, by omega⟩
  simp only [Int.toNat_ofNat]
  by_cases hq : q = 0
  · subst hq
    refine ⟨dst, by simp [memcpy], rfl, fun k hk => absurd hk (by omega), fun _ _ => rfl⟩
  · have hcond : (0 : Int) ≤ (d : Int) ∧ 4 * (d : Int) + ((4 * q : Nat) : Int) ≤ 4 * (dst.length : Int)
        ∧ (0 : Int) ≤ (s : Int) ∧ 4 * (s : Int) + ((4 * q : Nat) : Int) ≤ 4 * (src.length : Int) := by
      refine ⟨by omega, by omega, by omega, by omega⟩
    refine ⟨dst.take d ++ (src.drop s).take q ++ dst.drop (d + q), ?_, ?_, ?_, ?_⟩
    · unfold memcpy
      rw [if_neg (by omega), if_pos hcond]
      simp only [Int.toNat_ofNat]
      have h1 : 4 * q / 4 = q := by omega
      have h2 : 4 * q % 4 = 0 := by omega
      simp only [h1, h2, if_true]
    · simp only [List.length_append, List.length_take, List.length_drop]
      omega
    · intro k hk
      rw [List.getElem?_append_left (by simp only [List.length_append, List.length_take, List.length_drop]; omega)]
      rw [List.getElem?_append_right (by simp only [List.length_take]; omega)]
      simp only [List.length_take]
      rw [List.getElem?_take_of_lt (by omega), List.getElem?_drop]
      congr 1; omega
    · intro j hj
      rcases hj with hj | hj
      · rw [List.append_assoc, List.getElem?_append_left (by simp only [List.length_take]; omega)]
        rw [List.getElem?_take_of_lt hj]
      · rw [List.getElem?_append_right (by simp only [List.length_append, List.length_take, List.length_drop]; omega)]
        simp only [List.length_append, List.length_take, List.length_drop, List.getElem?_drop]
        congr 1; omega

/-! ## The copy loop of `Display` -/

theorem Display.loop_status_ne (self : JPEG) (m : GXRModeObj) (iX iY : Int) :
    ∀ (fuel i : Nat) (xfb : List Nat) (log : List Copy),
      (Display.loop self m iX iY fuel i xfb log).1 ≠ Status.domainError := by
  intro fuel
  induction fuel with
  | zero => intro i xfb log; simp [Display.loop]
  | succ n ih =>
    intro i xfb log
    unfold Display.loop
    split
    · dsimp only
      split
      · simp
      · exact ih _ _ _
    · simp

theorem Display.loop_log (self : JPEG) (m : GXRModeObj) (iX iY : Int) :
    ∀ (fuel i : Nat) (xfb : List Nat) (log : List Copy) (c : Copy),
      c ∈ (Display.loop self m iX iY fuel i xfb log).2.2 →
      c ∈ log ∨ ∃ k : Nat, (k : Int) < self._iHeight ∧ iY + k < (m.xfbHeight.toNat : Int)
        ∧ c = Display.copy self m iX iY k := by
  intro fuel
  induction fuel with
  | zero => intro i xfb log c h; exact Or.inl h
  | succ n ih =>
    intro i xfb log c h
    unfold Display.loop at h
    by_cases hc : (i : Int) < self._iHeight ∧ iY + i < (m.xfbHeight.toNat : Int)
    · rw [if_pos hc] at h
      dsimp only at h
      have hmem : c ∈ log ++ [Display.copy self m iX iY i] →
          c ∈ log ∨ ∃ k : Nat, (k : Int) < self._iHeight ∧ iY + k < (m.xfbHeight.toNat : Int)
            ∧ c = Display.copy self m iX iY k := by
        intro h1
        rcases List.mem_append.mp h1 with h2 | h2
        · exact Or.inl h2
        · exact Or.inr ⟨i, hc.1, hc.2, List.mem_singleton.mp h2⟩
      cases hm : memcpy xfb (Display.copy self m iX iY i).dst (self._pauiImgBuf.getD [])
          (Display.copy self m iX iY i).src (Display.copy self m iX iY i).count with
      | none =>
        rw [hm] at h
        exact hmem h
      | some xfb1 =>
        rw [hm] at h
        rcases ih _ _ _ c h with h1 | h1
        · exact hmem h1
        · exact Or.inr h1
    · rw [if_neg hc] at h
      exact Or.inl h

theorem Display.loop_inert (self : JPEG) (m : GXRModeObj) (iX iY : Int)
    (hin : ∀ (k : Nat) (xfb : List Nat), k < 65536 →
      memcpy xfb (Display.copy self m iX iY k).dst (self._pauiImgBuf.getD [])
          (Display.copy self m iX iY k).src (Display.copy self m iX iY k).count = none
      ∨ memcpy xfb (Display.copy self m iX iY k).dst (self._pauiImgBuf.getD [])
          (Display.copy self m iX iY k).src (Display.copy self m iX iY k).count = some xfb) :
    ∀ (fuel i : Nat) (xfb : List Nat) (log : List Copy), i < 65536 →
      (Display.loop self m iX iY fuel i xfb log).2.1 = xfb := by
  intro fuel
  induction fuel with
  | zero => intro i xfb log _; rfl
  | succ n ih =>
    intro i xfb log hi
    unfold Display.loop
    by_cases hc : (i : Int) < self._iHeight ∧ iY + i < (m.xfbHeight.toNat : Int)
    · rw [if_pos hc]
      dsimp only
      rcases hin i xfb hi with h | h
      · rw [h]
      · rw [h]
        exact ih _ _ _ (Nat.mod_lt _ (by decide))
    · rw [if_neg hc]

theorem Display.loop_ok (self : JPEG) (m : GXRModeObj) (iX iY : Int)
    (hH : self._iHeight ≤ 65535)
    (hin : ∀ (k : Nat) (xfb : List Nat),
      memcpy xfb (Display.copy self m iX iY k).dst (self._pauiImgBuf.getD [])
          (Display.copy self m iX iY k).src (Display.copy self m iX iY k).count ≠ none) :
    ∀ (fuel i : Nat) (xfb : List Nat) (log : List Copy), (self._iHeight - i).toNat < fuel →
      (Display.loop self m iX iY fuel i xfb log).1 = Status.ok := by
  intro fuel
  induction fuel with
  | zero => intro i xfb log h; omega
  | succ n ih =>
    intro i xfb log hf
    unfold Display.loop
    by_cases hc : (i : Int) < self._iHeight ∧ iY + i < (m.xfbHeight.toNat : Int)
    · rw [if_pos hc]
      dsimp only
      cases hm : memcpy xfb (Display.copy self m iX iY i).dst (self._pauiImgBuf.getD [])
          (Display.copy self m iX iY i).src (Display.copy self m iX iY i).count with
      | none => exact absurd hm (hin i xfb)
      | some xfb1 =>
        dsimp only
        have hnext : (i + 1) % 65536 = i + 1 := Nat.mod_eq_of_lt (by omega)
        rw [hnext]
        exact ih _ _ _ (by omega)
    · rw [if_neg hc]

theorem Display.loop_blit (self : JPEG) (m : GXRModeObj) (iX iY colD skipS : Int) (q : Nat)
    (hi : Int)
    (hcopy : ∀ i : Nat, Display.copy self m iX iY i =
      ⟨(iY + i) * ((m.fbWidth.toNat : Int) >>> (1 : Nat)) + colD,
        i * (self._iWidth >>> (1 : Nat)) + skipS, 4 * q⟩)
    (hhi : hi = min self._iHeight ((m.xfbHeight.toNat : Int) - iY))
    (hwrap : hi ≤ 65535)
    (hcol0 : 0 ≤ colD) (hcol1 : colD + q ≤ (m.fbWidth.toNat : Int) >>> (1 : Nat))
    (hs0 : 0 ≤ skipS) (hs1 : skipS + q ≤ self._iWidth >>> (1 : Nat))
    (hbuf : ((self._pauiImgBuf.getD []).length : Int)
      = self._iHeight * (self._iWidth >>> (1 : Nat))) :
    ∀ (fuel i : Nat) (xfb : List Nat) (log : List Copy),
      (hi - i).toNat < fuel → 0 ≤ iY + i →
      (xfb.length : Int) = (m.xfbHeight.toNat : Int) * ((m.fbWidth.toNat : Int) >>> (1 : Nat)) →
      ∃ xfb1, Display.loop self m iX iY fuel i xfb log
          = (Status.ok, xfb1,
              log ++ (List.range' i (hi - i).toNat).map (Display.copy self m iX iY))
        ∧ BlitOf xfb xfb1 (self._pauiImgBuf.getD []) ((m.fbWidth.toNat : Int) >>> (1 : Nat))
            (self._iWidth >>> (1 : Nat)) iY colD skipS q i hi := by
  generalize hhw : (m.fbWidth.toNat : Int) >>> (1 : Nat) = hw at *
  generalize hw2 : self._iWidth >>> (1 : Nat) = w2 at *
  generalize hbf : self._pauiImgBuf.getD [] = buf at *
  have hhw0 : 0 ≤ hw := by
    rw [← hhw, shiftRight_one]; omega
  intro fuel
  induction fuel with
  | zero => intro i xfb log h; omega
  | succ n ih =>
    intro i xfb log hfuel hrow hlen
    unfold Display.loop
    by_cases hc : (i : Int) < self._iHeight ∧ iY + i < (m.xfbHeight.toNat : Int)
    · rw [if_pos hc]
      dsimp only
      rw [hcopy i, hbf]
      dsimp only
      have hilt : (i : Int) < hi := by omega
      have p1 : 0 ≤ (iY + i) * hw := Int.mul_nonneg hrow hhw0
      have p2 : (iY + i + 1) * hw ≤ (m.xfbHeight.toNat : Int) * hw :=
        Int.mul_le_mul_of_nonneg_right (by omega) hhw0
      have p3 : (iY + i + 1) * hw = (iY + i) * hw + hw := by ring
      have hw20 : 0 ≤ w2 := by omega
      have p4 : 0 ≤ (i : Int) * w2 := Int.mul_nonneg (by omega) hw20
      have p5 : ((i : Int) + 1) * w2 ≤ self._iHeight * w2 :=
        Int.mul_le_mul_of_nonneg_right (by omega) hw20
      have p6 : ((i : Int) + 1) * w2 = i * w2 + w2 := by ring
      obtain ⟨xfb1, hm, hl1, hA1, hB1⟩ := memcpy_units xfb buf ((iY + i) * hw + colD)
        (i * w2 + skipS) q (by omega) (by omega) (by omega) (by omega)
      rw [hm]
      dsimp only
      have hnext : (i + 1) % 65536 = i + 1 := Nat.mod_eq_of_lt (by omega)
      rw [hnext]
      obtain ⟨xfb2, hrun, hl2, hA2, hB2⟩ := ih (i + 1) xfb1 (log ++ [⟨(iY + i) * hw + colD,
        i * w2 + skipS, 4 * q⟩]) (by omega) (by omega) (by omega)
      refine ⟨xfb2, ?_, ?_, ?_, ?_⟩
      · rw [hrun]
        have hn : (hi - (i : Int)).toNat = (hi - ((i + 1 : Nat) : Int)).toNat + 1 := by omega
        rw [hn, List.range'_succ, List.map_cons, hcopy i]
        simp
      · omega
      · intro i1 k h1 h2 hk
        by_cases hii : i1 = i
        · subst hii
          have e1 : ((iY + (i : Int)) * hw + colD + k).toNat
              = ((iY + (i : Int)) * hw + colD).toNat + k := by omega
          have e2 : ((i : Int) * w2 + skipS + k).toNat = ((i : Int) * w2 + skipS).toNat + k := by
            omega
          rw [e1, e2, ← hA1 k hk]
          apply hB2
          intro i2 k2 h3 h4 hk2
          have p7 : (iY + i + 1) * hw ≤ (iY + i2) * hw :=
            Int.mul_le_mul_of_nonneg_right (by omega) hhw0
          omega
        · exact hA2 i1 k (by omega) h2 hk
      · intro j hj
        rw [hB2 j (fun i2 k2 h3 h4 hk2 => hj i2 k2 (by omega) h4 hk2)]
        apply hB1
        by_contra hcon
        have hcon1 : ((iY + (i : Int)) * hw + colD).toNat ≤ j
            ∧ j < ((iY + (i : Int)) * hw + colD).toNat + q := by omega
        exact hj i (j - ((iY + (i : Int)) * hw + colD).toNat) (le_refl _) hilt (by omega)
          (by omega)
    · rw [if_neg hc]
      have hz : (hi - (i : Int)).toNat = 0 := by omega
      refine ⟨xfb, by simp [hz], rfl, ?_, fun _ _ => rfl⟩
      intro i1 k h1 h2 hk
      omega

theorem Display.copy_setPos (self : JPEG) (m : GXRModeObj) (iX iY px py : Int) (i : Nat) :
    Display.copy { self with _iPosX := px, _iPosY := py } m iX iY i = Display.copy self m iX iY i :=
  rfl

/-- `Display` once the argument test is passed, in terms of the recorded position and of
the mapped coordinates. -/
theorem Display_eval (self : JPEG) (paXfb : List Nat) (m : GXRModeObj)
    (fOriginalWidth fOriginalHeight fX fY : F32) (px py iX iY : Int)
    (hcw : F32.leZero fOriginalWidth = false) (hch : F32.leZero fOriginalHeight = false)
    (hpx : F32.toI32 fX = px) (hpy : F32.toI32 fY = py)
    (hx : Display.iX m fOriginalWidth fX = iX) (hy : Display.iY m fOriginalHeight fY = iY) :
    Display self paXfb m fOriginalWidth fOriginalHeight fX fY =
      if iX < (m.fbWidth.toNat : Int) then
        { status := (Display.loop { self with _iPosX := px, _iPosY := py } m iX iY 65536
            (if iY ≥ 0 then 0 else ((-iY) % 65536).toNat) paXfb []).1,
          self := { self with _iPosX := px, _iPosY := py },
          xfb := (Display.loop { self with _iPosX := px, _iPosY := py } m iX iY 65536
            (if iY ≥ 0 then 0 else ((-iY) % 65536).toNat) paXfb []).2.1,
          copies := (Display.loop { self with _iPosX := px, _iPosY := py } m iX iY 65536
            (if iY ≥ 0 then 0 else ((-iY) % 65536).toNat) paXfb []).2.2 }
      else
        { status := Status.ok, self := { self with _iPosX := px, _iPosY := py },
          xfb := paXfb, copies := [] } := by
  subst hpx hpy hx hy
  unfold Display
  rw [if_neg (by simp [hcw, hch])]

/-- Run of `Display` when the row counter does not wrap and every row copy stays inside. -/
theorem Display_blit (self : JPEG) (paXfb : List Nat) (m : GXRModeObj)
    (fOriginalWidth fOriginalHeight fX fY : F32) (colD skipS : Int) (q : Nat)
    (hcw : F32.leZero fOriginalWidth = false) (hch : F32.leZero fOriginalHeight = false)
    (hguard : Display.iX m fOriginalWidth fX < (m.fbWidth.toNat : Int))
    (hcopy : ∀ i : Nat, Display.copy self m (Display.iX m fOriginalWidth fX)
        (Display.iY m fOriginalHeight fY) i =
      ⟨(Display.iY m fOriginalHeight fY + i) * ((m.fbWidth.toNat : Int) >>> (1 : Nat)) + colD,
        i * (self._iWidth >>> (1 : Nat)) + skipS, 4 * q⟩)
    (hY : -65536 < Display.iY m fOriginalHeight fY)
    (hwrap : min self._iHeight ((m.xfbHeight.toNat : Int) - Display.iY m fOriginalHeight fY)
      ≤ 65535)
    (hcol0 : 0 ≤ colD) (hcol1 : colD + q ≤ (m.fbWidth.toNat : Int) >>> (1 : Nat))
    (hs0 : 0 ≤ skipS) (hs1 : skipS + q ≤ self._iWidth >>> (1 : Nat))
    (hbuf : ((self._pauiImgBuf.getD []).length : Int)
      = self._iHeight * (self._iWidth >>> (1 : Nat)))
    (hlen : (paXfb.length : Int)
      = (m.xfbHeight.toNat : Int) * ((m.fbWidth.toNat : Int) >>> (1 : Nat))) :
    ∃ xfb1, Display self paXfb m fOriginalWidth fOriginalHeight fX fY
        = ⟨Status.ok, { self with _iPosX := F32.toI32 fX, _iPosY := F32.toI32 fY }, xfb1,
            (List.range' (max 0 (-(Display.iY m fOriginalHeight fY))).toNat
              (min self._iHeight ((m.xfbHeight.toNat : Int) - Display.iY m fOriginalHeight fY)
                - max 0 (-(Display.iY m fOriginalHeight fY))).toNat).map
              (Display.copy self m (Display.iX m fOriginalWidth fX)
                (Display.iY m fOriginalHeight fY))⟩
      ∧ BlitOf paXfb xfb1 (self._pauiImgBuf.getD []) ((m.fbWidth.toNat : Int) >>> (1 : Nat))
          (self._iWidth >>> (1 : Nat)) (Display.iY m fOriginalHeight fY) colD skipS q
          (max 0 (-(Display.iY m fOriginalHeight fY)))
          (min self._iHeight ((m.xfbHeight.toNat : Int) - Display.iY m fOriginalHeight fY)) := by
  have hev := Display_eval self paXfb m fOriginalWidth fOriginalHeight fX fY _ _ _ _ hcw hch
    rfl rfl rfl rfl
  generalize Display.iX m fOriginalWidth fX = iX at *
  generalize Display.iY m fOriginalHeight fY = iY at *
  have hi0 : (if iY ≥ 0 then 0 else ((-iY) % 65536).toNat) = (max 0 (-iY)).toNat := by
    split <;> omega
  rw [hi0, if_pos hguard] at hev
  obtain ⟨xfb1, hrun, hB⟩ := Display.loop_blit
    { self with _iPosX := F32.toI32 fX, _iPosY := F32.toI32 fY } m iX iY colD skipS q
    (min self._iHeight ((m.xfbHeight.toNat : Int) - iY)) hcopy rfl hwrap hcol0 hcol1 hs0 hs1 hbuf
    65536 (max 0 (-iY)).toNat paXfb [] (by omega) (by omega) hlen
  have hz : (((max 0 (-iY)).toNat : Nat) : Int) = max 0 (-iY) := by omega
  rw [hz] at hrun hB
  refine ⟨xfb1, ?_, hB⟩
  rw [hev, hrun]
  rfl

theorem Display.loop_no_fault (self : JPEG) (m : GXRModeObj) (iX iY : Int)
    (hin : ∀ (k : Nat) (xfb : List Nat),
      memcpy xfb (Display.copy self m iX iY k).dst (self._pauiImgBuf.getD [])
          (Display.copy self m iX iY k).src (Display.copy self m iX iY k).count ≠ none) :
    ∀ (fuel i : Nat) (xfb : List Nat) (log : List Copy),
      (Display.loop self m iX iY fuel i xfb log).1 ≠ Status.fault := by
  intro fuel
  induction fuel with
  | zero => intro i xfb log; simp [Display.loop]
  | succ n ih =>
    intro i xfb log
    unfold Display.loop
    by_cases hc : (i : Int) < self._iHeight ∧ iY + i < (m.xfbHeight.toNat : Int)
    · rw [if_pos hc]
      dsimp only
      cases hm : memcpy xfb (Display.copy self m iX iY i).dst (self._pauiImgBuf.getD [])
          (Display.copy self m iX iY i).src (Display.copy self m iX iY i).count with
      | none => exact absurd hm (hin i xfb)
      | some xfb1 => exact ih _ _ _
    · rw [if_neg hc]; simp

/-- The copies of `Display` are copies of its loop body. -/
theorem Display_copies (self : JPEG) (paXfb : List Nat) (m : GXRModeObj)
    (fOriginalWidth fOriginalHeight fX fY : F32) (c : Copy)
    (hc : c ∈ (Display self paXfb m fOriginalWidth fOriginalHeight fX fY).copies) :
    Display.iX m fOriginalWidth fX < (m.fbWidth.toNat : Int)
    ∧ ∃ k : Nat, (k : Int) < self._iHeight
      ∧ Display.iY m fOriginalHeight fY + k < (m.xfbHeight.toNat : Int)
      ∧ c = Display.copy self m (Display.iX m fOriginalWidth fX)
          (Display.iY m fOriginalHeight fY) k := by
  unfold Display at hc
  split at hc
  · simp at hc
  · dsimp only at hc
    split at hc
    · rename_i hg
      refine ⟨hg, ?_⟩
      rcases Display.loop_log _ _ _ _ _ _ _ _ c hc with h | h
      · simp at h
      · exact h
    · simp at hc

theorem Display_self (self : JPEG) (paXfb : List Nat) (m : GXRModeObj)
    (fOriginalWidth fOriginalHeight fX fY : F32) :
    (Display self paXfb m fOriginalWidth fOriginalHeight fX fY).self
      = if F32.leZero fOriginalWidth = true ∨ F32.leZero fOriginalHeight = true then self
        else { self with _iPosX := F32.toI32 fX, _iPosY := F32.toI32 fY } := by
  unfold Display
  split
  · rfl
  · dsimp only
    split <;> rfl

theorem Display_status_of_invalid (self : JPEG) (paXfb : List Nat) (m : GXRModeObj)
    (fOriginalWidth fOriginalHeight fX fY : F32)
    (h : F32.leZero fOriginalWidth = true ∨ F32.leZero fOriginalHeight = true) :
    (Display self paXfb m fOriginalWidth fOriginalHeight fX fY).status = Status.domainError := by
  unfold Display
  rw [if_pos h]

theorem memcpy_negative_dst (xfb src : List Nat) (dstOff srcOff : Int) (count : Nat)
    (hd : dstOff < 0) (hc : count ≠ 0) : memcpy xfb dstOff src srcOff count = none := by
  unfold memcpy
  rw [if_neg hc, if_neg (by omega)]

/-! ## The mapped coordinates on integers -/

theorem tdiv_floor (a b : Int) (ha : 0 ≤ a) (hb : 0 < b) :
    Int.tdiv a b = ⌊(a : ℚ) / (b : ℚ)⌋ := by
  rw [tdiv_floor_ceil a b hb, if_pos ha]

theorem tdiv_ceil (a b : Int) (ha : a ≤ 0) (hb : 0 < b) :
    Int.tdiv a b = ⌈(a : ℚ) / (b : ℚ)⌉ := by
  rcases eq_or_lt_of_le ha with h | h
  · rw [h]; simp
  · rw [tdiv_floor_ceil a b hb, if_neg (by omega)]

/-- The mapping of `Display` for integers that binary32 holds exactly, as a
truncated exact quotient. -/
theorem F32.map_trunc (x cw : Int) (h : Nat) (hx : |x| < 16777216)
    (hxh : |x * (h : Int)| < 16777216) (hh : h < 16777216)
    (hcw0 : 0 < cw) (hcw1 : cw ≤ 16777216) :
    F32.toI32 (F32.div (F32.mul (F32.ofInt x) (F32.ofInt (h : Int))) (F32.ofInt cw))
      = if 0 ≤ x then ⌊(x : ℚ) * (h : ℚ) / (cw : ℚ)⌋ else ⌈(x : ℚ) * (h : ℚ) / (cw : ℚ)⌉ := by
  rw [F32.map_ofInt x cw h hx hxh hh hcw0 hcw1]
  have hc : (x : ℚ) * (h : ℚ) = ((x * (h : Int) : Int) : ℚ) := by push_cast; rfl
  rw [hc]
  split
  · rename_i h0
    exact tdiv_floor _ _ (Int.mul_nonneg h0 (by omega)) hcw0
  · rename_i h0
    apply tdiv_ceil _ _ _ hcw0
    have : 0 ≤ (-x) * (h : Int) := Int.mul_nonneg (by omega) (by omega)
    have e1 : (-x) * (h : Int) = -(x * (h : Int)) := by ring
    omega

/-- The conversion to `int32_t` of a `float` that holds an integer of the
32-bit signed range is that integer. -/
theorem F32.toI32_of_int (neg : Bool) (m : Nat) (e : Int) (x : Int)
    (hv : F32.toRat (F32.finite neg m e) = (x : ℚ))
    (h0 : -2147483648 ≤ x) (h1 : x ≤ 2147483647) :
    F32.toI32 (F32.finite neg m e) = x := by
  have key : ((m * 2 ^ e.toNat / 2 ^ (-e).toNat : Nat) : Int) = if neg then -x else x := by
    have hmag : (m : ℚ) * 2 ^ e = ((if neg then -x else x : Int) : ℚ) := by
      simp only [F32.toRat] at hv
      cases neg
      · simpa using hv
      · simp only [if_true] at hv ⊢
        push_cast
        linarith
    generalize (if neg then -x else x : Int) = y at *
    have hy0 : (0 : ℚ) ≤ (y : ℚ) := by
      rw [← hmag]
      exact mul_nonneg (Nat.cast_nonneg _) (zpow_pos (by norm_num) e).le
    have hy : 0 ≤ y := by exact_mod_cast hy0
    obtain ⟨q, rfl⟩ : ∃ q : Nat, y = q := ⟨y.toNat, by omega⟩
    have hmag1 : (m : ℚ) * 2 ^ e = (q : ℚ) := by rw [hmag]; norm_cast
    rcases le_total 0 e with h | h
    · have ha : (-e).toNat = 0 := by omega
      obtain ⟨a, rfl⟩ : ∃ a : Nat, e = a := ⟨e.toNat, by omega⟩
      rw [ha]
      simp only [Int.toNat_ofNat, pow_zero, Nat.div_one]
      rw [zpow_natCast] at hmag1
      exact_mod_cast hmag1
    · have ha : e.toNat = 0 := by omega
      obtain ⟨a, rfl⟩ : ∃ a : Nat, e = -(a : Int) := ⟨(-e).toNat, by omega⟩
      rw [ha]
      simp only [neg_neg, Int.toNat_ofNat, pow_zero, mul_one]
      have hp : (0 : ℚ) < 2 ^ a := pow_pos (by norm_num) a
      rw [zpow_neg, zpow_natCast, ← div_eq_mul_inv, div_eq_iff hp.ne'] at hmag1
      have h3 : m = q * 2 ^ a := by exact_mod_cast hmag1
      rw [h3, Nat.mul_div_cancel _ (pow_pos (by norm_num) a)]
  simp only [F32.toI32, key]
  cases neg
  · simp only [Bool.false_eq_true, if_false]
    omega
  · simp only [if_true]
    omega

/-- The conversion of an integer of the 32-bit range to `float` is finite. -/
theorem F32.ofInt_finite (z : Int) (h0 : -2147483648 ≤ z) (h1 : z ≤ 2147483647) :
    ∃ (m : Nat) (e : Int), F32.ofInt z = F32.finite (decide (z < 0)) m e := by
  unfold F32.ofInt
  by_cases hn : z.natAbs = 0
  · refine ⟨0, 0, ?_⟩
    unfold F32.round
    rw [if_pos hn]
  · have hq : ((z.natAbs : Nat) : ℚ) ≤ 2147483648 := by
      have : z.natAbs ≤ 2147483648 := by omega
      exact_mod_cast this
    have hv : ((z.natAbs : Nat) : ℚ) / ((1 : Nat) : ℚ) * 2 ^ (0 : Int) < 2 ^ (128 : Int) := by
      have h128 : (2147483648 : ℚ) < 2 ^ (128 : Int) := by norm_num
      have h3 : ((z.natAbs : Nat) : ℚ) / ((1 : Nat) : ℚ) * 2 ^ (0 : Int) = ((z.natAbs : Nat) : ℚ) := by
        simp
      rw [h3]
      linarith
    obtain ⟨e, M, _, hnear, hres⟩ := F32.round_value (decide (z < 0)) z.natAbs 1 0 hn
      (by norm_num) hv
    rcases hres with ⟨hM, he, _⟩ | ⟨m1, e1, hr, _⟩
    · exfalso
      rw [hM, he] at hnear
      have h3 := (abs_le.mp hnear).2
      have h4 : ((z.natAbs : Nat) : ℚ) / ((1 : Nat) : ℚ) * 2 ^ (0 : Int) / 2 ^ (104 : Int)
          ≤ 2147483648 := by
        have h5 : (1 : ℚ) ≤ 2 ^ (104 : Int) := by norm_num
        have h6 : (0 : ℚ) ≤ ((z.natAbs : Nat) : ℚ) := Nat.cast_nonneg _
        rw [div_le_iff₀ (by norm_num)]
        norm_num
        nlinarith
      norm_num at h3 h4
      linarith
    · exact ⟨m1, e1, hr⟩

/-- An integer of magnitude at most `2^24` is a value of binary32. -/
theorem F32.ofInt_toRat (z : Int) (hz : |z| ≤ 16777216) :
    F32.toRat (F32.ofInt z) = (z : ℚ) := by
  obtain ⟨m, e, h1, v1⟩ := F32.ofInt_exact z hz
  rw [h1]
  simp only [F32.toRat]
  rw [v1]
  by_cases h : z < 0
  · rw [decide_eq_true h, if_pos rfl]
    have h2 : ((z.natAbs : Nat) : ℚ) = -(z : ℚ) := by
      rw [Nat.cast_natAbs, abs_of_neg h]; push_cast; rfl
    rw [h2]; ring
  · rw [decide_eq_false h, if_neg (by simp)]
    have h2 : ((z.natAbs : Nat) : ℚ) = (z : ℚ) := by
      rw [Nat.cast_natAbs, abs_of_nonneg (not_lt.mp h)]
    rw [h2]; ring

/-- An integer of the 32-bit signed range that binary32 holds exactly passes
through `float` unchanged. -/
theorem F32.toI32_ofInt_of_exact (z : Int) (h0 : -2147483648 ≤ z) (h1 : z ≤ 2147483647)
    (hz : F32.toRat (F32.ofInt z) = (z : ℚ)) : F32.toI32 (F32.ofInt z) = z := by
  obtain ⟨m, e, h⟩ := F32.ofInt_finite z h0 h1
  rw [h] at hz ⊢
  exact F32.toI32_of_int _ m e z hz h0 h1

theorem F32.ofInt_natCast (h : Nat) (hh : h < 16777216) :
    (F32.ofInt (h : Int)).isFinite = true ∧ (F32.ofInt (h : Int)).toRat = (h : ℚ) := by
  have habs : |(h : Int)| ≤ 16777216 := by rw [abs_of_nonneg (by omega)]; omega
  obtain ⟨m, e, h1, _⟩ := F32.ofInt_exact (h : Int) habs
  refine ⟨by rw [h1]; rfl, ?_⟩
  rw [F32.ofInt_toRat _ habs]
  norm_cast

/-- The mapping of `Display` against `specMap`, whenever the quotient is finite
and inside the range of `int32_t`. -/
theorem F32.map_spec (x w : F32) (h : Nat) (hh : h < 16777216)
    (hw : w.isFinite = true) (hw0 : F32.leZero w = false)
    (hfin : (F32.div (F32.mul x (F32.ofInt (h : Int))) w).isFinite = true)
    (h0 : -2147483648 ≤ (F32.div (F32.mul x (F32.ofInt (h : Int))) w).toRat)
    (h1 : (F32.div (F32.mul x (F32.ofInt (h : Int))) w).toRat < 2147483648) :
    specMap x h w (F32.toI32 (F32.div (F32.mul x (F32.ofInt (h : Int))) w)) := by
  obtain ⟨hf, hv⟩ := F32.ofInt_natCast h hh
  -- the divisor is finite and not zero
  have hwq : w.toRat ≠ 0 := by
    cases w with
    | nan => exact absurd hw (by decide)
    | inf _ => exact absurd hw (by simp [F32.isFinite])
    | finite neg m e =>
      simp only [F32.leZero, Bool.or_eq_false_iff, decide_eq_false_iff_not] at hw0
      obtain ⟨hneg, hm⟩ := hw0
      rw [hneg]
      simp only [F32.toRat, Bool.false_eq_true, if_false, one_mul]
      have h1 : (0 : ℚ) < (m : ℚ) := by exact_mod_cast Nat.pos_of_ne_zero hm
      exact (mul_pos h1 (zpow_pos (by norm_num) e)).ne'
  -- a finite quotient has a finite dividend
  have hP : (F32.mul x (F32.ofInt (h : Int))).isFinite = true := by
    cases hp : F32.mul x (F32.ofInt (h : Int)) with
    | finite _ _ _ => rfl
    | inf s =>
      rw [hp] at hfin
      cases w with
      | nan => exact absurd hw (by decide)
      | inf _ => exact absurd hw (by simp [F32.isFinite])
      | finite _ _ _ => exact absurd hfin (by simp [F32.div, F32.isFinite])
    | nan =>
      rw [hp] at hfin
      exact absurd hfin (by simp [F32.div, F32.isFinite])
  have hx : x.isFinite = true := by
    cases x with
    | finite _ _ _ => rfl
    | inf s =>
      cases hq : F32.ofInt (h : Int) with
      | nan => rw [hq] at hf; exact absurd hf (by decide)
      | inf _ => rw [hq] at hf; exact absurd hf (by simp [F32.isFinite])
      | finite t k f =>
        rw [hq] at hP
        simp only [F32.mul] at hP
        split at hP <;> exact absurd hP (by simp [F32.isFinite])
    | nan => exact absurd hP (by simp [F32.mul, F32.isFinite])
  refine ⟨F32.mul x (F32.ofInt (h : Int)), F32.div (F32.mul x (F32.ofInt (h : Int))) w, ?_,
    F32.div_Nearest _ w hP hw hwq hfin, F32.toI32_towardZero _ hfin h0 h1⟩
  have := F32.mul_Nearest x (F32.ofInt (h : Int)) hx hf hP
  rw [hv] at this
  exact this

/-- The truncated exact quotient of `F32.map_trunc` in terms of `towardZero`. -/
theorem F32.map_towardZero (x cw : Int) (h : Nat) (hx : |x| < 16777216)
    (hxh : |x * (h : Int)| < 16777216) (hh : h < 16777216)
    (hcw0 : 0 < cw) (hcw1 : cw ≤ 16777216) :
    F32.toI32 (F32.div (F32.mul (F32.ofInt x) (F32.ofInt (h : Int))) (F32.ofInt cw))
      = towardZero ((x : ℚ) * (h : ℚ) / (cw : ℚ)) := by
  rw [F32.map_trunc x cw h hx hxh hh hcw0 hcw1]
  unfold towardZero
  have hcwq : (0 : ℚ) < (cw : ℚ) := by exact_mod_cast hcw0
  have hhq : (0 : ℚ) ≤ (h : ℚ) := Nat.cast_nonneg _
  by_cases h0 : 0 ≤ x
  · have hxq : (0 : ℚ) ≤ (x : ℚ) := by exact_mod_cast h0
    rw [if_pos h0, if_pos (div_nonneg (mul_nonneg hxq hhq) hcwq.le)]
  · have hxq : (x : ℚ) ≤ 0 := by
      have : x ≤ 0 := by omega
      exact_mod_cast this
    have hq : (x : ℚ) * (h : ℚ) / (cw : ℚ) ≤ 0 :=
      div_nonpos_of_nonpos_of_nonneg (mul_nonpos_of_nonpos_of_nonneg hxq hhq) hcwq.le
    rw [if_neg h0]
    by_cases hz : (x : ℚ) * (h : ℚ) / (cw : ℚ) = 0
    · rw [hz]; simp
    · rw [if_neg (fun hge => hz (le_antisymm hq hge))]

/-! ## The claims on `Display` -/

theorem memcpy_beyond_640 :
    memcpy (List.replicate 153600 0) 350 [7] 0 4294967176 = none := by
  unfold memcpy
  rw [if_neg (by decide), if_neg (by rw [List.length_replicate]; decide)]

theorem Display.loop_beyond_640 (self : JPEG) (xfb : List Nat) (hW : self._iWidth = 2)
    (hH : self._iHeight = 1) (hB : self._pauiImgBuf = some [7])
    (h : memcpy xfb 350 [7] 0 4294967176 = none) :
    Display.loop self mode640 350 0 65536 0 xfb []
      = (Status.fault, xfb, [⟨350, 0, 4294967176⟩]) := by
  have hc : Display.copy self mode640 350 0 0 = ⟨350, 0, 4294967176⟩ := by
    unfold Display.copy
    rw [hW]
    decide
  rw [Display.loop, if_pos (by rw [hH]; decide)]
  dsimp only
  rw [hc]
  dsimp only
  rw [hB]
  dsimp only [Option.getD]
  rw [h]
  rfl

/-- C1, the code at the failing input: on the surface of 640 by 480 pixels (480
rows of 320 units, a buffer of 153600 units) with a canvas of the same size,
`x = 700` maps to `iX = 350`, which passes the test `iX < fbWidth`; the length
of the copy is `min(2*2, (320 - 350)*4) = -120`, that is 4294967176 bytes as a
`size_t`, written from unit 350 on: far beyond the end of the buffer. -/
theorem Display_writes_outside :
    Display tinyImage (List.replicate 153600 0) mode640 (F32.ofInt 640) (F32.ofInt 480)
        (F32.ofInt 700) (F32.ofInt 0)
      = ⟨Status.fault, { tinyImage with _iPosX := 700, _iPosY := 0 }, List.replicate 153600 0,
          [⟨350, 0, 4294967176⟩]⟩
    ∧ 4 * (480 * (640 / 2)) < 4 * 350 + 4294967176 := by
  refine ⟨?_, by decide⟩
  rw [Display_eval _ _ _ _ _ _ _ 700 0 350 0 (by decide) (by decide) (by decide) (by decide)
    (by decide) (by decide)]
  rw [if_pos (by decide)]
  simp only [ge_iff_le, le_refl, if_true]
  rw [Display.loop_beyond_640 _ _ rfl rfl rfl memcpy_beyond_640]

/-- C4: `Display` ends with the invalid-argument error exactly when the canvas
width or the canvas height is `<= 0` (as `float`s: a NaN is not), and then it
has issued no copy, the target buffer is the one it was given and the image
(its recorded position included) is unchanged. -/
theorem Display_invalid_argument (self : JPEG) (paXfb : List Nat) (m : GXRModeObj)
    (fOriginalWidth fOriginalHeight fX fY : F32) :
    ((Display self paXfb m fOriginalWidth fOriginalHeight fX fY).status = Status.domainError
        ↔ (F32.leZero fOriginalWidth = true ∨ F32.leZero fOriginalHeight = true))
    ∧ ((Display self paXfb m fOriginalWidth fOriginalHeight fX fY).status = Status.domainError →
        (Display self paXfb m fOriginalWidth fOriginalHeight fX fY).copies = []
        ∧ (Display self paXfb m fOriginalWidth fOriginalHeight fX fY).xfb = paXfb
        ∧ (Display self paXfb m fOriginalWidth fOriginalHeight fX fY).self = self) := by
  have key : (Display self paXfb m fOriginalWidth fOriginalHeight fX fY).status
      = Status.domainError
        ↔ (F32.leZero fOriginalWidth = true ∨ F32.leZero fOriginalHeight = true) := by
    unfold Display
    split
    · simp_all
    · rename_i hc
      simp only [hc, iff_false]
      split
      · exact Display.loop_status_ne _ _ _ _ _ _ _ _
      · simp
  refine ⟨key, fun h => ?_⟩
  have hc := key.mp h
  unfold Display
  rw [if_pos hc]
  exact ⟨rfl, rfl, rfl⟩

/-- Witness of C4: a canvas of width 0 is refused and nothing is touched. -/
theorem Display_invalid_argument_witness :
    (Display sampleImage sampleXfb sampleMode (F32.ofInt 0) (F32.ofInt 3) (F32.ofInt 1)
        (F32.ofInt 1)).status = Status.domainError
    ∧ (Display sampleImage sampleXfb sampleMode (F32.ofInt 0) (F32.ofInt 3) (F32.ofInt 1)
        (F32.ofInt 1)).copies = []
    ∧ (Display sampleImage sampleXfb sampleMode (F32.ofInt 0) (F32.ofInt 3) (F32.ofInt 1)
        (F32.ofInt 1)).xfb = sampleXfb
    ∧ (Display sampleImage sampleXfb sampleMode (F32.ofInt 0) (F32.ofInt 3) (F32.ofInt 1)
        (F32.ofInt 1)).self = sampleImage :=
  have h : (Display sampleImage sampleXfb sampleMode (F32.ofInt 0) (F32.ofInt 3) (F32.ofInt 1)
      (F32.ofInt 1)).status = Status.domainError :=
    (Display_invalid_argument sampleImage sampleXfb sampleMode (F32.ofInt 0) (F32.ofInt 3)
      (F32.ofInt 1) (F32.ofInt 1)).1.mpr (Or.inl (by decide))
  ⟨h, (Display_invalid_argument sampleImage sampleXfb sampleMode (F32.ofInt 0) (F32.ofInt 3)
      (F32.ofInt 1) (F32.ofInt 1)).2 h⟩

/-- C5: for an image of even width on a surface of even framebuffer width,
when the mapped position keeps the whole image inside the surface
(`0 ≤ surfaceX`, `surfaceX + width/2 ≤ surfaceWidth/2`, `0 ≤ surfaceY`,
`surfaceY + height ≤ surfaceHeight`), `Display` ends without error, the target
unit at `(surfaceY+i)*(surfaceWidth/2) + surfaceX + k` is packed unit
`i*(width/2) + k` for every `i < height` and `k < width/2`, and every other
unit of the target buffer is unchanged. -/
theorem Display_inside (self : JPEG) (paXfb : List Nat) (m : GXRModeObj)
    (fOriginalWidth fOriginalHeight fX fY : F32)
    (hcw : F32.leZero fOriginalWidth = false) (hch : F32.leZero fOriginalHeight = false)
    (hwf : self.WellFormed)
    (hWe : self._iWidth % 2 = 0) (hfe : m.fbWidth.toNat % 2 = 0)
    (hlen : (paXfb.length : Int) = (m.xfbHeight.toNat : Int) * ((m.fbWidth.toNat : Int) / 2))
    (hx0 : 0 ≤ Display.iX m fOriginalWidth fX)
    (hx1 : Display.iX m fOriginalWidth fX + self._iWidth / 2 ≤ (m.fbWidth.toNat : Int) / 2)
    (hy0 : 0 ≤ Display.iY m fOriginalHeight fY)
    (hy1 : Display.iY m fOriginalHeight fY + self._iHeight ≤ (m.xfbHeight.toNat : Int)) :
    (Display self paXfb m fOriginalWidth fOriginalHeight fX fY).status = Status.ok
    ∧ (Display self paXfb m fOriginalWidth fOriginalHeight fX fY).xfb.length = paXfb.length
    ∧ (∀ i k : Nat, (i : Int) < self._iHeight → (k : Int) < self._iWidth / 2 →
        (Display self paXfb m fOriginalWidth fOriginalHeight fX fY).xfb[
            ((Display.iY m fOriginalHeight fY + i) * ((m.fbWidth.toNat : Int) / 2)
              + Display.iX m fOriginalWidth fX + k).toNat]?
          = (self._pauiImgBuf.getD [])[((i : Int) * (self._iWidth / 2) + k).toNat]?)
    ∧ (∀ j : Nat,
        (∀ i k : Nat, (i : Int) < self._iHeight → (k : Int) < self._iWidth / 2 →
          (j : Int) ≠ (Display.iY m fOriginalHeight fY + i) * ((m.fbWidth.toNat : Int) / 2)
            + Display.iX m fOriginalWidth fX + k) →
        (Display self paXfb m fOriginalWidth fOriginalHeight fX fY).xfb[j]? = paXfb[j]?) := by
  have hfb := m.fbWidth.toNat_lt
  have hxh := m.xfbHeight.toNat_lt
  obtain ⟨hW0, hH0, hbuf⟩ := hwf
  by_cases hg : Display.iX m fOriginalWidth fX < (m.fbWidth.toNat : Int)
  · have hcopy : ∀ i : Nat, Display.copy self m (Display.iX m fOriginalWidth fX)
          (Display.iY m fOriginalHeight fY) i =
        ⟨(Display.iY m fOriginalHeight fY + i) * ((m.fbWidth.toNat : Int) >>> (1 : Nat))
            + Display.iX m fOriginalWidth fX,
          i * (self._iWidth >>> (1 : Nat)) + 0, 4 * (self._iWidth / 2).toNat⟩ := by
      intro i
      unfold Display.copy
      simp only [shiftRight_one]
      rw [if_neg (by omega)]
      simp only [Copy.mk.injEq, toSizeT]
      refine ⟨trivial, by omega, by omega⟩
    obtain ⟨xfb1, hD, hl, hA, hB⟩ := Display_blit self paXfb m fOriginalWidth
      fOriginalHeight fX fY (Display.iX m fOriginalWidth fX) 0 (self._iWidth / 2).toNat
      hcw hch hg hcopy (by omega) (by omega) hx0
      (by rw [shiftRight_one]; omega) (le_refl 0) (by rw [shiftRight_one]; omega) hbuf
      (by rw [shiftRight_one]; exact hlen)
    rw [hD]
    simp only [shiftRight_one] at hA hB
    refine ⟨rfl, hl, ?_, ?_⟩
    · intro i k hi hk
      have := hA i k (by omega) (by omega) (by omega)
      simp only [add_zero] at this
      exact this
    · intro j hj
      apply hB
      intro i k h1 h2 hk
      have := hj i.toNat k (by omega) (by omega)
      rw [Int.toNat_of_nonneg (by omega)] at this
      exact this
  · rw [Display_eval self paXfb m fOriginalWidth fOriginalHeight fX fY _ _ _ _ hcw hch
      rfl rfl rfl rfl, if_neg hg]
    refine ⟨rfl, rfl, ?_, fun _ _ => rfl⟩
    intro i k hi hk
    omega

/-- Witness of C5: `sampleImage` at canvas position (2, 1) of `sampleMode`, that
is at `surfaceX = 1`, `surfaceY = 1`. -/
theorem Display_inside_witness :
    (Display sampleImage sampleXfb sampleMode (F32.ofInt 8) (F32.ofInt 3)
        (F32.ofInt 2) (F32.ofInt 1)).status = Status.ok
    ∧ (Display sampleImage sampleXfb sampleMode (F32.ofInt 8) (F32.ofInt 3)
        (F32.ofInt 2) (F32.ofInt 1)).xfb = [0, 0, 0, 0, 0, 1, 2, 0, 0, 3, 4, 0] := by
  have hx : Display.iX sampleMode (F32.ofInt 8) (F32.ofInt 2) = 1 := by decide
  have hy : Display.iY sampleMode (F32.ofInt 3) (F32.ofInt 1) = 1 := by decide
  have h := Display_inside sampleImage sampleXfb sampleMode (F32.ofInt 8) (F32.ofInt 3)
    (F32.ofInt 2) (F32.ofInt 1) (by decide) (by decide) (by decide) (by decide)
    (by decide) (by decide) (by rw [hx]; decide) (by rw [hx]; decide) (by rw [hy]; decide)
    (by rw [hy]; decide)
  refine ⟨h.1, ?_⟩
  rw [Display_eval _ _ _ _ _ _ _ 2 1 1 1 (by decide) (by decide) (by decide) (by decide) hx hy]
  decide

/-- C8: for a canvas size that passes the argument test (every strictly
positive one), when the mapped `surfaceX` is at least the framebuffer width,
`Display` ends without error, issues no copy and leaves the target buffer as
it was. -/
theorem Display_off_right (self : JPEG) (paXfb : List Nat) (m : GXRModeObj)
    (fOriginalWidth fOriginalHeight fX fY : F32)
    (hcw : F32.leZero fOriginalWidth = false) (hch : F32.leZero fOriginalHeight = false)
    (hx : (m.fbWidth.toNat : Int) ≤ Display.iX m fOriginalWidth fX) :
    (Display self paXfb m fOriginalWidth fOriginalHeight fX fY).status = Status.ok
    ∧ (Display self paXfb m fOriginalWidth fOriginalHeight fX fY).xfb = paXfb
    ∧ (Display self paXfb m fOriginalWidth fOriginalHeight fX fY).copies = [] := by
  rw [Display_eval self paXfb m fOriginalWidth fOriginalHeight fX fY _ _ _ _ hcw hch
    rfl rfl rfl rfl, if_neg (not_lt.mpr hx)]
  exact ⟨rfl, rfl, rfl⟩

/-- Witness of C8: `x = 16` on a canvas 8 wide maps to `iX = 8`, the width of
the framebuffer of `sampleMode`. -/
theorem Display_off_right_witness :
    F32.leZero (F32.ofInt 8) = false ∧ F32.leZero (F32.ofInt 3) = false
    ∧ (sampleMode.fbWidth.toNat : Int) ≤ Display.iX sampleMode (F32.ofInt 8) (F32.ofInt 16)
    ∧ (Display sampleImage sampleXfb sampleMode (F32.ofInt 8) (F32.ofInt 3)
        (F32.ofInt 16) (F32.ofInt 1)).status = Status.ok
    ∧ (Display sampleImage sampleXfb sampleMode (F32.ofInt 8) (F32.ofInt 3)
        (F32.ofInt 16) (F32.ofInt 1)).xfb = sampleXfb
    ∧ (Display sampleImage sampleXfb sampleMode (F32.ofInt 8) (F32.ofInt 3)
        (F32.ofInt 16) (F32.ofInt 1)).copies = [] :=
  have h : (sampleMode.fbWidth.toNat : Int)
      ≤ Display.iX sampleMode (F32.ofInt 8) (F32.ofInt 16) := by decide
  ⟨by decide, by decide, h,
    Display_off_right sampleImage sampleXfb sampleMode _ _ _ _ (by decide) (by decide) h⟩

/-- Counterexamples to C6.  On a surface 640 wide with a canvas 640 wide the
position `x = -1` is mapped to `iX = 0`, whereas
`floor(-1 * (640 / 2) / 640) = floor(-1/2) = -1`: the conversion truncates.  For
the `float` `0.7f = 11744051 * 2^(-24)` on a surface 20 wide with a canvas of
width 1 the product `0.7f * 10` is rounded to `7.0f`, so that `iX = 7`, whereas
`floor(0.7f * 10 / 1) = 6` in exact arithmetic.  And for the integer
`x = 2^25`, which binary32 holds exactly, on a surface 2 wide with a canvas of
width 3 the quotient is rounded to `11184811.0f`, whereas
`floor(2^25 / 3) = 11184810`. -/
theorem Display_iX_not_floor :
    Display.iX ⟨640, 480⟩ (F32.ofInt 640) (F32.ofInt (-1)) = 0
    ∧ ⌊((-1 : Int) : ℚ) * ((640 / 2 : Nat) : ℚ) / ((640 : Int) : ℚ)⌋ = -1
    ∧ Display.iX ⟨20, 1⟩ (F32.ofInt 1) (F32.finite false 11744051 (-24)) = 7
    ∧ (F32.finite false 11744051 (-24)).Valid
    ∧ F32.toRat (F32.finite false 11744051 (-24)) = 11744051 / 16777216
    ∧ ⌊(11744051 / 16777216 : ℚ) * ((20 / 2 : Nat) : ℚ) / ((1 : Int) : ℚ)⌋ = 6
    ∧ Display.iX ⟨2, 1⟩ (F32.ofInt 3) (F32.ofInt 33554432) = 11184811
    ∧ ⌊((33554432 : Int) : ℚ) * ((2 / 2 : Nat) : ℚ) / ((3 : Int) : ℚ)⌋ = 11184810 := by
  refine ⟨by decide, ?_, by decide, by decide, ?_, ?_, by decide, ?_⟩
  · rw [Int.floor_eq_iff]
    norm_num
  · simp only [F32.toRat]
    norm_num
  · rw [Int.floor_eq_iff]
    norm_num
  · rw [Int.floor_eq_iff]
    norm_num

/-- C6, amended: for every position `(x, y)`, negative or not, and every finite
canvas size that is strictly positive, the surface coordinates of `Display`
are computed in binary32 and truncated toward zero: `surfaceX` is
`x * (surfaceWidth/2)` rounded to a nearest value of binary32, divided by
`canvasWidth` and rounded again, with the fraction discarded (the floor of a
value that is not negative, the ceiling of a negative one), and `surfaceY`
likewise from `y * surfaceHeight` and `canvasHeight`, whenever the rounded
quotient is finite and inside the 32-bit signed range.  For integers `x`, `y`
and integer canvas sizes with `0 < canvasWidth, canvasHeight ≤ 2^24` and `|x|`,
`|y|`, `|x * (surfaceWidth/2)|`, `|y * surfaceHeight|` below `2^24` nothing is
rounded: the coordinates are the exact quotients
`x * (surfaceWidth / 2) / canvasWidth` and `y * surfaceHeight / canvasHeight`
truncated toward zero. -/
theorem Display_coordinates_truncate (m : GXRModeObj) :
    (∀ fOriginalWidth fX : F32, fOriginalWidth.isFinite = true →
      F32.leZero fOriginalWidth = false →
      (Display.quotX m fOriginalWidth fX).isFinite = true →
      -2147483648 ≤ (Display.quotX m fOriginalWidth fX).toRat →
      (Display.quotX m fOriginalWidth fX).toRat < 2147483648 →
      specMap fX (m.fbWidth.toNat / 2) fOriginalWidth (Display.iX m fOriginalWidth fX))
    ∧ (∀ fOriginalHeight fY : F32, fOriginalHeight.isFinite = true →
      F32.leZero fOriginalHeight = false →
      (Display.quotY m fOriginalHeight fY).isFinite = true →
      -2147483648 ≤ (Display.quotY m fOriginalHeight fY).toRat →
      (Display.quotY m fOriginalHeight fY).toRat < 2147483648 →
      specMap fY m.xfbHeight.toNat fOriginalHeight (Display.iY m fOriginalHeight fY))
    ∧ (∀ cw ch x y : Int, 0 < cw → cw ≤ 16777216 → 0 < ch → ch ≤ 16777216 →
      |x| < 16777216 → |x * ((m.fbWidth.toNat / 2 : Nat) : Int)| < 16777216 →
      |y| < 16777216 → |y * (m.xfbHeight.toNat : Int)| < 16777216 →
      Display.iX m (F32.ofInt cw) (F32.ofInt x)
          = towardZero ((x : ℚ) * ((m.fbWidth.toNat / 2 : Nat) : ℚ) / (cw : ℚ))
      ∧ Display.iY m (F32.ofInt ch) (F32.ofInt y)
          = towardZero ((y : ℚ) * (m.xfbHeight.toNat : ℚ) / (ch : ℚ))) := by
  have hfb := m.fbWidth.toNat_lt
  have hxh := m.xfbHeight.toNat_lt
  have hh : m.fbWidth.toNat >>> 1 = m.fbWidth.toNat / 2 := by
    rw [Nat.shiftRight_eq_div_pow]
  refine ⟨?_, ?_, ?_⟩
  · intro w x hw hw0 hfin h0 h1
    unfold Display.iX
    unfold Display.quotX at hfin h0 h1 ⊢
    rw [hh] at hfin h0 h1 ⊢
    exact F32.map_spec x w _ (by omega) hw hw0 hfin h0 h1
  · intro w y hw hw0 hfin h0 h1
    unfold Display.iY
    unfold Display.quotY at hfin h0 h1 ⊢
    exact F32.map_spec y w _ (by omega) hw hw0 hfin h0 h1
  · intro cw ch x y hcw0 hcw1 hch0 hch1 hx hxw hy hyh
    constructor
    · unfold Display.iX Display.quotX
      rw [hh]
      exact F32.map_towardZero x cw _ hx hxw (by omega) hcw0 hcw1
    · unfold Display.iY Display.quotY
      exact F32.map_towardZero y ch _ hy hyh (by omega) hch0 hch1

/-- Witness of the amended C6: at the `float` `0.7f` of the counterexample the
coordinate 7 is the one of the binary32 computation, and at the integer
position (-1, -1) the coordinates are the truncated exact quotients. -/
theorem Display_coordinates_truncate_witness :
    specMap (F32.finite false 11744051 (-24)) ((⟨20, 1⟩ : GXRModeObj).fbWidth.toNat / 2)
      (F32.ofInt 1) (Display.iX ⟨20, 1⟩ (F32.ofInt 1) (F32.finite false 11744051 (-24)))
    ∧ Display.iX ⟨640, 480⟩ (F32.ofInt 640) (F32.ofInt (-1))
        = towardZero (((-1 : Int) : ℚ)
            * (((⟨640, 480⟩ : GXRModeObj).fbWidth.toNat / 2 : Nat) : ℚ) / ((640 : Int) : ℚ))
    ∧ Display.iY ⟨640, 480⟩ (F32.ofInt 480) (F32.ofInt (-1))
        = towardZero (((-1 : Int) : ℚ)
            * ((⟨640, 480⟩ : GXRModeObj).xfbHeight.toNat : ℚ) / ((480 : Int) : ℚ)) := by
  have hq : Display.quotX ⟨20, 1⟩ (F32.ofInt 1) (F32.finite false 11744051 (-24))
      = F32.finite false 14680064 (-21) := by decide
  have hv : (F32.finite false 14680064 (-21)).toRat = 7 := by
    simp only [F32.toRat]
    norm_num
  exact ⟨(Display_coordinates_truncate ⟨20, 1⟩).1 (F32.ofInt 1)
      (F32.finite false 11744051 (-24)) (by decide) (by decide) (by rw [hq]; rfl)
      (by rw [hq, hv]; norm_num) (by rw [hq, hv]; norm_num),
    (Display_coordinates_truncate ⟨640, 480⟩).2.2 640 480 (-1) (-1) (by decide) (by decide)
      (by decide) (by decide) (by decide) (by decide) (by decide) (by decide)⟩

/-- A row whose `memcpy` leaves an array ends the loop with a fault. -/
theorem Display.loop_fault (self : JPEG) (m : GXRModeObj) (iX iY : Int) (fuel i : Nat)
    (xfb : List Nat) (log : List Copy)
    (hc : (i : Int) < self._iHeight ∧ iY + i < (m.xfbHeight.toNat : Int))
    (hm : memcpy xfb (Display.copy self m iX iY i).dst (self._pauiImgBuf.getD [])
      (Display.copy self m iX iY i).src (Display.copy self m iX iY i).count = none) :
    Display.loop self m iX iY (fuel + 1) i xfb log
      = (Status.fault, xfb, log ++ [Display.copy self m iX iY i]) := by
  rw [Display.loop, if_pos hc]
  dsimp only
  rw [hm]

/-- An image 10 pixels wide (5 units per row) at `surfaceX = -4 = -2 * surfaceWidth` on a
surface of framebuffer width 2 still has its last unit inside the surface, and
`Display` writes it. -/
theorem Display_far_left_writes :
    Display.iX narrowMode (F32.ofInt 1) (F32.ofInt (-4))
        ≤ -2 * (narrowMode.fbWidth.toNat : Int)
    ∧ Display widerImage [0] narrowMode (F32.ofInt 1) (F32.ofInt 1) (F32.ofInt (-4))
        (F32.ofInt 0)
      = ⟨Status.ok, { widerImage with _iPosX := -4, _iPosY := 0 }, [5], [⟨0, 4, 4⟩]⟩ := by
  refine ⟨by decide, ?_⟩
  rw [Display_eval _ _ _ _ _ _ _ (-4) 0 (-4) 0 (by decide) (by decide) (by decide) (by decide)
    (by decide) (by decide)]
  decide

/-- C7, the code at the failing input: on the surface of 640 by 480 pixels (a
buffer of 153600 units) with a canvas of the same size, `x = -2560` maps to
`surfaceX = -1280 = -2 * surfaceWidth`, where the claim has nothing written and
no copy length outside the buffer.  For the image of 2 by 1 pixels `Display`
enters the loop and calls `memcpy` for row 0 with the length
`min((1 - 1280) * 4, 640 * 2) = -5116`, that is 4294962180 bytes as a `size_t`,
read from unit 1280 of a packed buffer of one unit. -/
theorem Display_far_left_negative_length :
    Display.iX mode640 (F32.ofInt 640) (F32.ofInt (-2560))
        ≤ -2 * (mode640.fbWidth.toNat : Int)
    ∧ Display tinyImage (List.replicate 153600 0) mode640 (F32.ofInt 640) (F32.ofInt 480)
        (F32.ofInt (-2560)) (F32.ofInt 0)
      = ⟨Status.fault, { tinyImage with _iPosX := -2560, _iPosY := 0 },
          List.replicate 153600 0, [⟨0, 1280, 4294962180⟩]⟩
    ∧ 4 * (480 * (640 / 2)) < 4 * 0 + 4294962180 := by
  refine ⟨by decide, ?_, by decide⟩
  rw [Display_eval _ _ _ _ _ _ _ (-2560) 0 (-1280) 0 (by decide) (by decide) (by decide)
    (by decide) (by decide) (by decide)]
  rw [if_pos (by decide)]
  simp only [ge_iff_le, le_refl, if_true]
  have hc : Display.copy { tinyImage with _iPosX := -2560, _iPosY := 0 } mode640 (-1280) 0 0
      = ⟨0, 1280, 4294962180⟩ := by decide
  have hm : memcpy (List.replicate 153600 0) 0 [7] 1280 4294962180 = none := by
    unfold memcpy
    rw [if_neg (by decide), if_neg (by rw [List.length_replicate]; decide)]
  rw [Display.loop_fault _ _ _ _ 65535 0 _ _ (by decide) (by rw [hc]; exact hm), hc]
  rfl

/-- Counterexample to C9: an image 8 pixels wide at `surfaceX = 0` of a surface
whose framebuffer width is 4 gets 8 bytes copied for its row, whereas
`min(2*8, 4*(4 - 0)) = 16`. -/
theorem Display_right_length_not_fbWidth :
    (Display wideImage [0, 0] ⟨4, 1⟩ (F32.ofInt 4) (F32.ofInt 1) (F32.ofInt 0)
        (F32.ofInt 0)).copies = [⟨0, 0, 8⟩]
    ∧ Display.iX ⟨4, 1⟩ (F32.ofInt 4) (F32.ofInt 0) = 0
    ∧ min (2 * wideImage._iWidth)
        (4 * (((⟨4, 1⟩ : GXRModeObj).fbWidth.toNat : Int)
          - Display.iX ⟨4, 1⟩ (F32.ofInt 4) (F32.ofInt 0))) = 16 := by
  have hx : Display.iX ⟨4, 1⟩ (F32.ofInt 4) (F32.ofInt 0) = 0 := by decide
  refine ⟨?_, hx, by rw [hx]; decide⟩
  rw [Display_eval _ _ _ _ _ _ _ 0 0 0 0 (by decide) (by decide) (by decide) (by decide)
    hx (by decide)]
  decide

/-- C9, amended: for an image of even width and of height at most 65535 that
satisfies the invariant of the data model, a canvas size that passes the
argument test, a target buffer of `surfaceHeight * (surfaceWidth/2)` units and
a mapped `0 ≤ surfaceX < surfaceWidth` with `surfaceX ≤ surfaceWidth/2` (the
integer half of the framebuffer width), `Display` issues for every visible
row `i` (that is `i < height` and `0 ≤ surfaceY + i < surfaceHeight`) a copy
that reads from offset 0 of packed row `i`, writes at column `surfaceX` of
surface row `surfaceY + i` and has the byte length
`min(2*imageWidth, 4*((surfaceWidth/2) - surfaceX))`; and every copy it issues
is the copy of a row it visits, with that source, that target and that
length. -/
theorem Display_right_length (self : JPEG) (paXfb : List Nat) (m : GXRModeObj)
    (fOriginalWidth fOriginalHeight fX fY : F32)
    (hcw : F32.leZero fOriginalWidth = false) (hch : F32.leZero fOriginalHeight = false)
    (hwf : self.WellFormed) (hH : self._iHeight ≤ 65535) (hWe : self._iWidth % 2 = 0)
    (hlen : (paXfb.length : Int) = (m.xfbHeight.toNat : Int) * ((m.fbWidth.toNat : Int) / 2))
    (hx0 : 0 ≤ Display.iX m fOriginalWidth fX)
    (hg : Display.iX m fOriginalWidth fX < (m.fbWidth.toNat : Int))
    (hx1 : Display.iX m fOriginalWidth fX ≤ (m.fbWidth.toNat : Int) / 2) :
    (∀ i : Nat, (i : Int) < self._iHeight → 0 ≤ Display.iY m fOriginalHeight fY + i →
      Display.iY m fOriginalHeight fY + i < (m.xfbHeight.toNat : Int) →
      ∃ c ∈ (Display self paXfb m fOriginalWidth fOriginalHeight fX fY).copies,
        c.src = i * (self._iWidth / 2)
        ∧ c.dst = (Display.iY m fOriginalHeight fY + i) * ((m.fbWidth.toNat : Int) / 2)
            + Display.iX m fOriginalWidth fX
        ∧ (c.count : Int) = min (2 * self._iWidth)
            (4 * ((m.fbWidth.toNat : Int) / 2 - Display.iX m fOriginalWidth fX)))
    ∧ (∀ c ∈ (Display self paXfb m fOriginalWidth fOriginalHeight fX fY).copies,
      ∃ i : Nat, (i : Int) < self._iHeight
        ∧ Display.iY m fOriginalHeight fY + i < (m.xfbHeight.toNat : Int)
        ∧ c.src = i * (self._iWidth / 2)
        ∧ c.dst = (Display.iY m fOriginalHeight fY + i) * ((m.fbWidth.toNat : Int) / 2)
            + Display.iX m fOriginalWidth fX
        ∧ (c.count : Int) = min (2 * self._iWidth)
            (4 * ((m.fbWidth.toNat : Int) / 2 - Display.iX m fOriginalWidth fX))) := by
  have hfb := m.fbWidth.toNat_lt
  have hxh := m.xfbHeight.toNat_lt
  obtain ⟨hW0, hH0, hbuf⟩ := hwf
  have hfields : ∀ i : Nat,
      (Display.copy self m (Display.iX m fOriginalWidth fX)
          (Display.iY m fOriginalHeight fY) i).src = i * (self._iWidth / 2)
      ∧ (Display.copy self m (Display.iX m fOriginalWidth fX)
          (Display.iY m fOriginalHeight fY) i).dst
        = (Display.iY m fOriginalHeight fY + i) * ((m.fbWidth.toNat : Int) / 2)
            + Display.iX m fOriginalWidth fX
      ∧ ((Display.copy self m (Display.iX m fOriginalWidth fX)
          (Display.iY m fOriginalHeight fY) i).count : Int)
        = min (2 * self._iWidth)
            (4 * ((m.fbWidth.toNat : Int) / 2 - Display.iX m fOriginalWidth fX)) := by
    intro i
    generalize Display.iX m fOriginalWidth fX = iX at *
    generalize Display.iY m fOriginalHeight fY = iY at *
    unfold Display.copy
    simp only [shiftRight_one]
    rw [if_neg (by omega)]
    refine ⟨rfl, rfl, ?_⟩
    simp only [toSizeT]
    omega
  constructor
  · intro i hi h0 h1
    have hcopy : ∀ i : Nat, Display.copy self m (Display.iX m fOriginalWidth fX)
          (Display.iY m fOriginalHeight fY) i =
        ⟨(Display.iY m fOriginalHeight fY + i) * ((m.fbWidth.toNat : Int) >>> (1 : Nat))
            + Display.iX m fOriginalWidth fX,
          i * (self._iWidth >>> (1 : Nat)) + 0,
          4 * (min (self._iWidth / 2)
            ((m.fbWidth.toNat : Int) / 2 - Display.iX m fOriginalWidth fX)).toNat⟩ := by
      intro i
      unfold Display.copy
      simp only [shiftRight_one]
      rw [if_neg (by omega)]
      simp only [Copy.mk.injEq, toSizeT]
      refine ⟨trivial, by omega, by omega⟩
    obtain ⟨xfb1, hD, _⟩ := Display_blit self paXfb m fOriginalWidth
      fOriginalHeight fX fY (Display.iX m fOriginalWidth fX) 0
      (min (self._iWidth / 2)
        ((m.fbWidth.toNat : Int) / 2 - Display.iX m fOriginalWidth fX)).toNat
      hcw hch hg hcopy (by omega) (by omega) hx0
      (by rw [shiftRight_one]; omega) (le_refl 0) (by rw [shiftRight_one]; omega) hbuf
      (by rw [shiftRight_one]; exact hlen)
    refine ⟨Display.copy self m (Display.iX m fOriginalWidth fX)
      (Display.iY m fOriginalHeight fY) i, ?_, hfields i⟩
    rw [hD]
    dsimp only
    rw [List.mem_map]
    refine ⟨i, ?_, rfl⟩
    rw [List.mem_range'_1]
    omega
  · intro c hc
    obtain ⟨_, k, hk1, hk2, rfl⟩ := Display_copies _ _ _ _ _ _ _ c hc
    exact ⟨k, hk1, hk2, hfields k⟩

/-- Witness of the amended C9: `sampleImage` at canvas position (2, 1) of
`sampleMode`, that is at `surfaceX = 1`, `surfaceY = 1`: row 1 of the image is
visible and its copy of `min(2*4, 4*(4 - 1)) = 8` bytes is among the copies. -/
theorem Display_right_length_witness :
    ∃ c ∈ (Display sampleImage sampleXfb sampleMode (F32.ofInt 8) (F32.ofInt 3)
          (F32.ofInt 2) (F32.ofInt 1)).copies,
        c.src = ((1 : Nat) : Int) * (sampleImage._iWidth / 2)
        ∧ c.dst = (Display.iY sampleMode (F32.ofInt 3) (F32.ofInt 1) + ((1 : Nat) : Int))
              * ((sampleMode.fbWidth.toNat : Int) / 2)
            + Display.iX sampleMode (F32.ofInt 8) (F32.ofInt 2)
        ∧ (c.count : Int) = min (2 * sampleImage._iWidth)
            (4 * ((sampleMode.fbWidth.toNat : Int) / 2
              - Display.iX sampleMode (F32.ofInt 8) (F32.ofInt 2))) :=
  (Display_right_length sampleImage sampleXfb sampleMode (F32.ofInt 8) (F32.ofInt 3)
    (F32.ofInt 2) (F32.ofInt 1) (by decide) (by decide) (by decide) (by decide) (by decide)
    (by decide) (by decide) (by decide) (by decide)).1 1 (by decide) (by decide) (by decide)

/-- The left clip away from the wrap of the row counter.  For an image of
height at most 65535 that satisfies the invariant of the data model, a target
buffer of `surfaceHeight * (surfaceWidth/2)` units, a mapped `surfaceX` with
`-(width/2) ≤ surfaceX < 0` and a mapped `surfaceY > -65536`: `Display` ends
without error; every copy it issues is the copy of a row `i` it visits, from
offset `-surfaceX` of that packed row to column 0 of surface row
`surfaceY + i`, of `min(4*((width/2)+surfaceX), 2*surfaceWidth)` bytes; every
visible row of the resulting buffer holds exactly that right-hand portion and
every other unit is unchanged. -/
theorem Display_left_clip (self : JPEG) (paXfb : List Nat) (m : GXRModeObj)
    (fOriginalWidth fOriginalHeight fX fY : F32)
    (hcw : F32.leZero fOriginalWidth = false) (hch : F32.leZero fOriginalHeight = false)
    (hwf : self.WellFormed) (hH : self._iHeight ≤ 65535)
    (hfe : m.fbWidth.toNat % 2 = 0)
    (hlen : (paXfb.length : Int) = (m.xfbHeight.toNat : Int) * ((m.fbWidth.toNat : Int) / 2))
    (hx0 : -(self._iWidth / 2) ≤ Display.iX m fOriginalWidth fX)
    (hx1 : Display.iX m fOriginalWidth fX < 0)
    (hY : -65536 < Display.iY m fOriginalHeight fY) :
    (Display self paXfb m fOriginalWidth fOriginalHeight fX fY).status = Status.ok
    ∧ (∀ c ∈ (Display self paXfb m fOriginalWidth fOriginalHeight fX fY).copies,
      ∃ i : Nat, (i : Int) < self._iHeight
        ∧ Display.iY m fOriginalHeight fY + i < (m.xfbHeight.toNat : Int)
        ∧ c.dst = (Display.iY m fOriginalHeight fY + i) * ((m.fbWidth.toNat : Int) / 2)
        ∧ c.src = i * (self._iWidth / 2) - Display.iX m fOriginalWidth fX
        ∧ (c.count : Int) = min (4 * (self._iWidth / 2 + Display.iX m fOriginalWidth fX))
            (2 * (m.fbWidth.toNat : Int)))
    ∧ (Display self paXfb m fOriginalWidth fOriginalHeight fX fY).xfb.length = paXfb.length
    ∧ (∀ i k : Nat, 0 ≤ Display.iY m fOriginalHeight fY + i →
        Display.iY m fOriginalHeight fY + i < (m.xfbHeight.toNat : Int) →
        (i : Int) < self._iHeight →
        (k : Int) < min (self._iWidth / 2 + Display.iX m fOriginalWidth fX)
          ((m.fbWidth.toNat : Int) / 2) →
        (Display self paXfb m fOriginalWidth fOriginalHeight fX fY).xfb[
            ((Display.iY m fOriginalHeight fY + i) * ((m.fbWidth.toNat : Int) / 2) + k).toNat]?
          = (self._pauiImgBuf.getD [])[((i : Int) * (self._iWidth / 2)
              - Display.iX m fOriginalWidth fX + k).toNat]?)
    ∧ (∀ j : Nat,
        (∀ i k : Nat, 0 ≤ Display.iY m fOriginalHeight fY + i →
          Display.iY m fOriginalHeight fY + i < (m.xfbHeight.toNat : Int) →
          (i : Int) < self._iHeight →
          (k : Int) < min (self._iWidth / 2 + Display.iX m fOriginalWidth fX)
            ((m.fbWidth.toNat : Int) / 2) →
          (j : Int) ≠ (Display.iY m fOriginalHeight fY + i) * ((m.fbWidth.toNat : Int) / 2) + k) →
        (Display self paXfb m fOriginalWidth fOriginalHeight fX fY).xfb[j]? = paXfb[j]?) := by
  have hfb := m.fbWidth.toNat_lt
  have hxh := m.xfbHeight.toNat_lt
  obtain ⟨hW0, hH0, hbuf⟩ := hwf
  have hg : Display.iX m fOriginalWidth fX < (m.fbWidth.toNat : Int) := by omega
  have hcopy : ∀ i : Nat, Display.copy self m (Display.iX m fOriginalWidth fX)
        (Display.iY m fOriginalHeight fY) i =
      ⟨(Display.iY m fOriginalHeight fY + i) * ((m.fbWidth.toNat : Int) >>> (1 : Nat)) + 0,
        i * (self._iWidth >>> (1 : Nat)) + -(Display.iX m fOriginalWidth fX),
        4 * (min (self._iWidth / 2 + Display.iX m fOriginalWidth fX)
          ((m.fbWidth.toNat : Int) / 2)).toNat⟩ := by
    intro i
    unfold Display.copy
    simp only [shiftRight_one]
    rw [if_pos hx1]
    simp only [Copy.mk.injEq, toSizeT]
    refine ⟨by omega, by omega, by omega⟩
  have hcs : ∀ c ∈ (Display self paXfb m fOriginalWidth fOriginalHeight fX fY).copies,
      ∃ i : Nat, (i : Int) < self._iHeight
        ∧ Display.iY m fOriginalHeight fY + i < (m.xfbHeight.toNat : Int)
        ∧ c.dst = (Display.iY m fOriginalHeight fY + i) * ((m.fbWidth.toNat : Int) / 2)
        ∧ c.src = i * (self._iWidth / 2) - Display.iX m fOriginalWidth fX
        ∧ (c.count : Int) = min (4 * (self._iWidth / 2 + Display.iX m fOriginalWidth fX))
            (2 * (m.fbWidth.toNat : Int)) := by
    intro c hc
    obtain ⟨_, k, hk1, hk2, rfl⟩ := Display_copies _ _ _ _ _ _ _ c hc
    refine ⟨k, hk1, hk2, ?_⟩
    rw [hcopy k]
    simp only [shiftRight_one]
    refine ⟨by omega, by omega, by omega⟩
  refine ⟨?_, hcs, ?_⟩
  · obtain ⟨xfb1, hD, _⟩ := Display_blit self paXfb m fOriginalWidth
      fOriginalHeight fX fY 0 (-(Display.iX m fOriginalWidth fX))
      (min (self._iWidth / 2 + Display.iX m fOriginalWidth fX)
        ((m.fbWidth.toNat : Int) / 2)).toNat
      hcw hch hg hcopy hY (by omega) (le_refl 0)
      (by rw [shiftRight_one]; omega) (by omega) (by rw [shiftRight_one]; omega) hbuf
      (by rw [shiftRight_one]; exact hlen)
    rw [hD]
  · obtain ⟨xfb1, hD, hl, hA, hB⟩ := Display_blit self paXfb m fOriginalWidth
      fOriginalHeight fX fY 0 (-(Display.iX m fOriginalWidth fX))
      (min (self._iWidth / 2 + Display.iX m fOriginalWidth fX)
        ((m.fbWidth.toNat : Int) / 2)).toNat
      hcw hch hg hcopy hY (by omega) (le_refl 0)
      (by rw [shiftRight_one]; omega) (by omega) (by rw [shiftRight_one]; omega) hbuf
      (by rw [shiftRight_one]; exact hlen)
    rw [hD]
    simp only [shiftRight_one] at hA hB
    refine ⟨hl, ?_, ?_⟩
    · intro i k h0 h1 hi hk
      have := hA i k (by omega) (by omega) (by omega)
      simp only [add_zero] at this
      rw [this]
      congr 1
    · intro j hj
      apply hB
      intro i k h1 h2 hk
      have := hj i.toNat k (by omega) (by omega) (by omega) (by omega)
      rw [Int.toNat_of_nonneg (by omega)] at this
      simpa using this

/-- The left clip at work: `sampleImage` at canvas position (-2, 1) of `sampleMode`,
that is at `surfaceX = -1`, `surfaceY = 1`. -/
theorem Display_left_clip_sample :
    (Display sampleImage sampleXfb sampleMode (F32.ofInt 8) (F32.ofInt 3)
        (F32.ofInt (-2)) (F32.ofInt 1)).status = Status.ok
    ∧ (Display sampleImage sampleXfb sampleMode (F32.ofInt 8) (F32.ofInt 3)
        (F32.ofInt (-2)) (F32.ofInt 1)).xfb = [0, 0, 0, 0, 2, 0, 0, 0, 4, 0, 0, 0] := by
  rw [Display_eval _ _ _ _ _ _ _ (-2) 1 (-1) 1 (by decide) (by decide) (by decide) (by decide)
    (by decide) (by decide)]
  decide

/-- C10, the code at the failing input: `sampleImage` (4 by 2 pixels) on
`sampleMode` (8 by 3 pixels, a buffer of 12 units) with a canvas of the same
size at the position `(-2, -65536)`, which maps to `surfaceX = -1`, inside
`-(width/2) ≤ surfaceX < 0`, and to `surfaceY = -65536`: no row of the image
is visible, and the claim has nothing but the visible portion written.  The
`uint16_t` row counter starts at `-surfaceY = 65536` truncated to 0 and
`Display` calls `memcpy` for row 0 with the target at surface row -65536, that
is at unit -262144 of the target buffer. -/
theorem Display_left_clip_row_wraps :
    -(sampleImage._iWidth / 2) ≤ Display.iX sampleMode (F32.ofInt 8) (F32.ofInt (-2))
    ∧ Display.iX sampleMode (F32.ofInt 8) (F32.ofInt (-2)) < 0
    ∧ Display.iY sampleMode (F32.ofInt 3) (F32.ofInt (-65536)) = -65536
    ∧ Display sampleImage sampleXfb sampleMode (F32.ofInt 8) (F32.ofInt 3)
        (F32.ofInt (-2)) (F32.ofInt (-65536))
      = ⟨Status.fault, { sampleImage with _iPosX := -2, _iPosY := -65536 }, sampleXfb,
          [⟨-262144, 1, 4⟩]⟩ := by
  refine ⟨by decide, by decide, by decide, ?_⟩
  rw [Display_eval _ _ _ _ _ _ _ (-2) (-65536) (-1) (-65536) (by decide) (by decide)
    (by decide) (by decide) (by decide) (by decide)]
  decide

/-! ## The byte fields of `Rgb2Yuv` -/

theorem Rgb2Yuv_eq_locals (uyR1 uyG1 uyB1 uyR2 uyG2 uyB2 : UInt8) :
    Rgb2Yuv uyR1 uyG1 uyB1 uyR2 uyG2 uyB2
      = ((u32 (Rgb2Yuv.iY uyR1 uyG1 uyB1) <<< 24) % 4294967296
        ||| (u32 ((Rgb2Yuv.iCb uyR1 uyG1 uyB1 + Rgb2Yuv.iCb uyR2 uyG2 uyB2) >>> (1 : Nat)) <<< 16)
            % 4294967296
        ||| (u32 (Rgb2Yuv.iY uyR2 uyG2 uyB2) <<< 8) % 4294967296
        ||| u32 ((Rgb2Yuv.iCr uyR1 uyG1 uyB1 + Rgb2Yuv.iCr uyR2 uyG2 uyB2) >>> (1 : Nat))) :=
  rfl

theorem unpack_fields (a b c d : Nat) (ha : a < 256) (hb : b < 256) (hc : c < 256)
    (hd : d < 256) :
    (a * 2 ^ 24 + b * 2 ^ 16 + c * 2 ^ 8 + d) / 2 ^ 24 % 256 = a
    ∧ (a * 2 ^ 24 + b * 2 ^ 16 + c * 2 ^ 8 + d) / 2 ^ 16 % 256 = b
    ∧ (a * 2 ^ 24 + b * 2 ^ 16 + c * 2 ^ 8 + d) / 2 ^ 8 % 256 = c
    ∧ (a * 2 ^ 24 + b * 2 ^ 16 + c * 2 ^ 8 + d) % 256 = d
    ∧ a * 2 ^ 24 + b * 2 ^ 16 + c * 2 ^ 8 + d < 2 ^ 32 := by
  refine ⟨?_, ?_, ?_, ?_, ?_⟩ <;> omega

/-- C15: `Rgb2Yuv` packs the pair of pure white pixels to the unit
`0xFF80FF80`, whose bytes are `Y1 = 255`, `Cb = 128`, `Y2 = 255`, `Cr = 128`,
and the pair of black pixels to `0x00800080`, whose two luma bytes are 0. -/
theorem Rgb2Yuv_white_black :
    Rgb2Yuv 255 255 255 255 255 255 = 0xFF80FF80
    ∧ Rgb2Yuv 255 255 255 255 255 255 / 2 ^ 24 % 256 = 255
    ∧ Rgb2Yuv 255 255 255 255 255 255 / 2 ^ 16 % 256 = 128
    ∧ Rgb2Yuv 255 255 255 255 255 255 / 2 ^ 8 % 256 = 255
    ∧ Rgb2Yuv 255 255 255 255 255 255 % 256 = 128
    ∧ Rgb2Yuv 0 0 0 0 0 0 = 0x00800080
    ∧ Rgb2Yuv 0 0 0 0 0 0 / 2 ^ 24 % 256 = 0
    ∧ Rgb2Yuv 0 0 0 0 0 0 / 2 ^ 8 % 256 = 0 := by
  decide

/-- C18: for all six 8-bit inputs every fixed-point numerator of `Rgb2Yuv` is
non-negative, each of `Y1`, `Y2`, `Cb1`, `Cb2`, `Cr1`, `Cr2` and the averaged
`Cb`, `Cr` lies in `[0, 255]`, and the four bytes of the returned unit, from
the most to the least significant, are exactly `Y1`, `Cb`, `Y2`, `Cr`. -/
theorem Rgb2Yuv_fields (uyR1 uyG1 uyB1 uyR2 uyG2 uyB2 : UInt8) :
    (0 ≤ Rgb2Yuv.numY uyR1 uyG1 uyB1 ∧ 0 ≤ Rgb2Yuv.numCb uyR1 uyG1 uyB1
      ∧ 0 ≤ Rgb2Yuv.numCr uyR1 uyG1 uyB1 ∧ 0 ≤ Rgb2Yuv.numY uyR2 uyG2 uyB2
      ∧ 0 ≤ Rgb2Yuv.numCb uyR2 uyG2 uyB2 ∧ 0 ≤ Rgb2Yuv.numCr uyR2 uyG2 uyB2)
    ∧ (0 ≤ Rgb2Yuv.iY uyR1 uyG1 uyB1 ∧ Rgb2Yuv.iY uyR1 uyG1 uyB1 ≤ 255
      ∧ 0 ≤ Rgb2Yuv.iY uyR2 uyG2 uyB2 ∧ Rgb2Yuv.iY uyR2 uyG2 uyB2 ≤ 255
      ∧ 0 ≤ Rgb2Yuv.iCb uyR1 uyG1 uyB1 ∧ Rgb2Yuv.iCb uyR1 uyG1 uyB1 ≤ 255
      ∧ 0 ≤ Rgb2Yuv.iCb uyR2 uyG2 uyB2 ∧ Rgb2Yuv.iCb uyR2 uyG2 uyB2 ≤ 255
      ∧ 0 ≤ Rgb2Yuv.iCr uyR1 uyG1 uyB1 ∧ Rgb2Yuv.iCr uyR1 uyG1 uyB1 ≤ 255
      ∧ 0 ≤ Rgb2Yuv.iCr uyR2 uyG2 uyB2 ∧ Rgb2Yuv.iCr uyR2 uyG2 uyB2 ≤ 255
      ∧ 0 ≤ (Rgb2Yuv.iCb uyR1 uyG1 uyB1 + Rgb2Yuv.iCb uyR2 uyG2 uyB2) >>> (1 : Nat)
      ∧ (Rgb2Yuv.iCb uyR1 uyG1 uyB1 + Rgb2Yuv.iCb uyR2 uyG2 uyB2) >>> (1 : Nat) ≤ 255
      ∧ 0 ≤ (Rgb2Yuv.iCr uyR1 uyG1 uyB1 + Rgb2Yuv.iCr uyR2 uyG2 uyB2) >>> (1 : Nat)
      ∧ (Rgb2Yuv.iCr uyR1 uyG1 uyB1 + Rgb2Yuv.iCr uyR2 uyG2 uyB2) >>> (1 : Nat) ≤ 255)
    ∧ ((Rgb2Yuv uyR1 uyG1 uyB1 uyR2 uyG2 uyB2 / 2 ^ 24 % 256 : Nat)
        = Rgb2Yuv.iY uyR1 uyG1 uyB1
      ∧ (Rgb2Yuv uyR1 uyG1 uyB1 uyR2 uyG2 uyB2 / 2 ^ 16 % 256 : Nat)
        = (Rgb2Yuv.iCb uyR1 uyG1 uyB1 + Rgb2Yuv.iCb uyR2 uyG2 uyB2) >>> (1 : Nat)
      ∧ (Rgb2Yuv uyR1 uyG1 uyB1 uyR2 uyG2 uyB2 / 2 ^ 8 % 256 : Nat)
        = Rgb2Yuv.iY uyR2 uyG2 uyB2
      ∧ (Rgb2Yuv uyR1 uyG1 uyB1 uyR2 uyG2 uyB2 % 256 : Nat)
        = (Rgb2Yuv.iCr uyR1 uyG1 uyB1 + Rgb2Yuv.iCr uyR2 uyG2 uyB2) >>> (1 : Nat)
      ∧ Rgb2Yuv uyR1 uyG1 uyB1 uyR2 uyG2 uyB2 < 2 ^ 32) := by
  have hr1 := uyR1.toNat_lt
  have hg1 := uyG1.toNat_lt
  have hb1 := uyB1.toNat_lt
  have hr2 := uyR2.toNat_lt
  have hg2 := uyG2.toNat_lt
  have hb2 := uyB2.toNat_lt
  rw [Rgb2Yuv_eq_locals]
  simp only [Rgb2Yuv.iY, Rgb2Yuv.iCb, Rgb2Yuv.iCr, Rgb2Yuv.numY, Rgb2Yuv.numCb, Rgb2Yuv.numCr,
    shiftRight_one]
  generalize uyR1.toNat = r1 at *
  generalize uyG1.toNat = g1 at *
  generalize uyB1.toNat = b1 at *
  generalize uyR2.toNat = r2 at *
  generalize uyG2.toNat = g2 at *
  generalize uyB2.toNat = b2 at *
  rw [Int.tdiv_eq_ediv (by omega) (by omega), Int.tdiv_eq_ediv (by omega) (by omega),
    Int.tdiv_eq_ediv (by omega) (by omega), Int.tdiv_eq_ediv (by omega) (by omega),
    Int.tdiv_eq_ediv (by omega) (by omega), Int.tdiv_eq_ediv (by omega) (by omega)]
  have hy1 : 0 ≤ (299 * (r1 : Int) + 587 * g1 + 114 * b1) / 1000
      ∧ (299 * (r1 : Int) + 587 * g1 + 114 * b1) / 1000 ≤ 255 := by omega
  have hy2 : 0 ≤ (299 * (r2 : Int) + 587 * g2 + 114 * b2) / 1000
      ∧ (299 * (r2 : Int) + 587 * g2 + 114 * b2) / 1000 ≤ 255 := by omega
  have hcb1 : 0 ≤ (-16874 * (r1 : Int) - 33126 * g1 + 50000 * b1 + 12800000) / 100000
      ∧ (-16874 * (r1 : Int) - 33126 * g1 + 50000 * b1 + 12800000) / 100000 ≤ 255 := by omega
  have hcb2 : 0 ≤ (-16874 * (r2 : Int) - 33126 * g2 + 50000 * b2 + 12800000) / 100000
      ∧ (-16874 * (r2 : Int) - 33126 * g2 + 50000 * b2 + 12800000) / 100000 ≤ 255 := by omega
  have hcr1 : 0 ≤ (50000 * (r1 : Int) - 41869 * g1 - 8131 * b1 + 12800000) / 100000
      ∧ (50000 * (r1 : Int) - 41869 * g1 - 8131 * b1 + 12800000) / 100000 ≤ 255 := by omega
  have hcr2 : 0 ≤ (50000 * (r2 : Int) - 41869 * g2 - 8131 * b2 + 12800000) / 100000
      ∧ (50000 * (r2 : Int) - 41869 * g2 - 8131 * b2 + 12800000) / 100000 ≤ 255 := by omega
  have hn : (0 ≤ 299 * (r1 : Int) + 587 * g1 + 114 * b1
      ∧ 0 ≤ -16874 * (r1 : Int) - 33126 * g1 + 50000 * b1 + 12800000
      ∧ 0 ≤ 50000 * (r1 : Int) - 41869 * g1 - 8131 * b1 + 12800000
      ∧ 0 ≤ 299 * (r2 : Int) + 587 * g2 + 114 * b2
      ∧ 0 ≤ -16874 * (r2 : Int) - 33126 * g2 + 50000 * b2 + 12800000
      ∧ 0 ≤ 50000 * (r2 : Int) - 41869 * g2 - 8131 * b2 + 12800000) :=
    ⟨by omega, by omega, by omega, by omega, by omega, by omega⟩
  refine ⟨hn, ?_⟩
  generalize (299 * (r1 : Int) + 587 * g1 + 114 * b1) / 1000 = Y1 at *
  generalize (299 * (r2 : Int) + 587 * g2 + 114 * b2) / 1000 = Y2 at *
  generalize (-16874 * (r1 : Int) - 33126 * g1 + 50000 * b1 + 12800000) / 100000 = Cb1 at *
  generalize (-16874 * (r2 : Int) - 33126 * g2 + 50000 * b2 + 12800000) / 100000 = Cb2 at *
  generalize (50000 * (r1 : Int) - 41869 * g1 - 8131 * b1 + 12800000) / 100000 = Cr1 at *
  generalize (50000 * (r2 : Int) - 41869 * g2 - 8131 * b2 + 12800000) / 100000 = Cr2 at *
  rw [u32_of_byte _ (by omega) (by omega), u32_of_byte _ (by omega) (by omega),
    u32_of_byte _ (by omega) (by omega), u32_of_byte _ (by omega) (by omega)]
  rw [pack_fields _ _ _ _ (by omega) (by omega) (by omega) (by omega)]
  obtain ⟨u1, u2, u3, u4, u5⟩ := unpack_fields Y1.toNat ((Cb1 + Cb2) / 2).toNat Y2.toNat
    ((Cr1 + Cr2) / 2).toNat (by omega) (by omega) (by omega) (by omega)
  rw [u1, u2, u3, u4]
  refine ⟨?_, by omega, by omega, by omega, by omega, u5⟩
  split_ands <;> omega

/-! ## The rows and the recorded position of `Display` -/

/-- Counterexample to C12: the integer 16777217 lies in the 32-bit signed range,
but the `float` parameter cannot hold it: the call at the integer position
(16777217, 1) ends without error and records the position (16777216, 1). -/
theorem Display_position_rounded :
    (-2147483648 : Int) ≤ 16777217 ∧ (16777217 : Int) ≤ 2147483647
    ∧ F32.ofInt 16777217 = F32.ofInt 16777216
    ∧ (Display sampleImage sampleXfb sampleMode (F32.ofInt 8) (F32.ofInt 3)
        (F32.ofInt 16777217) (F32.ofInt 1)).status = Status.ok
    ∧ (Display sampleImage sampleXfb sampleMode (F32.ofInt 8) (F32.ofInt 3)
        (F32.ofInt 16777217) (F32.ofInt 1)).self._iPosX = 16777216
    ∧ (Display sampleImage sampleXfb sampleMode (F32.ofInt 8) (F32.ofInt 3)
        (F32.ofInt 16777217) (F32.ofInt 1)).self._iPosY = 1 := by
  refine ⟨by decide, by decide, by decide, ?_⟩
  rw [Display_eval _ _ _ _ _ _ _ 16777216 1 8388608 1 (by decide) (by decide) (by decide)
    (by decide) (by decide) (by decide)]
  decide

/-- C12, amended: after a call of `Display` that ends without error at an
integer position `(x, y)` of the 32-bit signed range that the `float`
parameters hold exactly (the conversion of `x` and of `y` to `float` is exact,
as it is for every integer of magnitude up to `2^24`), the recorded position
of the image is exactly `(x, y)`, the canvas-space request, whether or not
anything was drawn; and the width, the height and the packed buffer of the
image are the ones it had before. -/
theorem Display_records_position (self : JPEG) (paXfb : List Nat) (m : GXRModeObj)
    (fOriginalWidth fOriginalHeight : F32) (x y : Int)
    (hx0 : -2147483648 ≤ x) (hx1 : x ≤ 2147483647)
    (hy0 : -2147483648 ≤ y) (hy1 : y ≤ 2147483647)
    (hx : F32.toRat (F32.ofInt x) = (x : ℚ)) (hy : F32.toRat (F32.ofInt y) = (y : ℚ))
    (hok : (Display self paXfb m fOriginalWidth fOriginalHeight (F32.ofInt x)
      (F32.ofInt y)).status = Status.ok) :
    (Display self paXfb m fOriginalWidth fOriginalHeight (F32.ofInt x)
        (F32.ofInt y)).self._iPosX = x
    ∧ (Display self paXfb m fOriginalWidth fOriginalHeight (F32.ofInt x)
        (F32.ofInt y)).self._iPosY = y
    ∧ (Display self paXfb m fOriginalWidth fOriginalHeight (F32.ofInt x)
        (F32.ofInt y)).self._iWidth = self._iWidth
    ∧ (Display self paXfb m fOriginalWidth fOriginalHeight (F32.ofInt x)
        (F32.ofInt y)).self._iHeight = self._iHeight
    ∧ (Display self paXfb m fOriginalWidth fOriginalHeight (F32.ofInt x)
        (F32.ofInt y)).self._pauiImgBuf = self._pauiImgBuf := by
  have hc : ¬ (F32.leZero fOriginalWidth = true ∨ F32.leZero fOriginalHeight = true) := by
    intro h
    have := Display_status_of_invalid self paXfb m fOriginalWidth fOriginalHeight
      (F32.ofInt x) (F32.ofInt y) h
    rw [hok] at this
    exact absurd this (by decide)
  rw [Display_self, if_neg hc]
  exact ⟨F32.toI32_ofInt_of_exact x hx0 hx1 hx, F32.toI32_ofInt_of_exact y hy0 hy1 hy,
    rfl, rfl, rfl⟩

/-- Witness of the amended C12: `sampleImage` shown off-surface at canvas
position (33554432, 1): nothing is drawn and the recorded position is
(33554432, 1). -/
theorem Display_records_position_witness :
    (Display sampleImage sampleXfb sampleMode (F32.ofInt 8) (F32.ofInt 3)
        (F32.ofInt 33554432) (F32.ofInt 1)).status = Status.ok
    ∧ (Display sampleImage sampleXfb sampleMode (F32.ofInt 8) (F32.ofInt 3)
        (F32.ofInt 33554432) (F32.ofInt 1)).copies = []
    ∧ (Display sampleImage sampleXfb sampleMode (F32.ofInt 8) (F32.ofInt 3)
        (F32.ofInt 33554432) (F32.ofInt 1)).self._iPosX = 33554432
    ∧ (Display sampleImage sampleXfb sampleMode (F32.ofInt 8) (F32.ofInt 3)
        (F32.ofInt 33554432) (F32.ofInt 1)).self._iPosY = 1 := by
  have hs : (Display sampleImage sampleXfb sampleMode (F32.ofInt 8) (F32.ofInt 3)
      (F32.ofInt 33554432) (F32.ofInt 1)).status = Status.ok := by
    rw [Display_eval _ _ _ _ _ _ _ 33554432 1 16777216 1 (by decide) (by decide) (by decide)
      (by decide) (by decide) (by decide)]
    decide
  have hc : (Display sampleImage sampleXfb sampleMode (F32.ofInt 8) (F32.ofInt 3)
      (F32.ofInt 33554432) (F32.ofInt 1)).copies = [] := by
    rw [Display_eval _ _ _ _ _ _ _ 33554432 1 16777216 1 (by decide) (by decide) (by decide)
      (by decide) (by decide) (by decide)]
    decide
  have hx : F32.toRat (F32.ofInt 33554432) = ((33554432 : Int) : ℚ) := by
    have h : F32.ofInt 33554432 = F32.finite false 8388608 2 := by decide
    rw [h]
    simp only [F32.toRat]
    norm_num
  have h := Display_records_position sampleImage sampleXfb sampleMode (F32.ofInt 8)
    (F32.ofInt 3) 33554432 1 (by decide) (by decide) (by decide) (by decide) hx
    (F32.ofInt_toRat 1 (by decide)) hs
  exact ⟨hs, hc, h.1, h.2.1⟩

theorem Display.loop_above_640 (self : JPEG) (xfb : List Nat) (hW : self._iWidth = 2)
    (hH : self._iHeight = 1) :
    Display.loop self mode640 0 (-65536) 65536 0 xfb []
      = (Status.fault, xfb, [⟨-20971520, 0, 4⟩]) := by
  have hc : Display.copy self mode640 0 (-65536) 0 = ⟨-20971520, 0, 4⟩ := by
    unfold Display.copy
    rw [hW]
    decide
  rw [Display.loop, if_pos (by rw [hH]; decide)]
  dsimp only
  rw [hc]
  dsimp only
  rw [memcpy_negative_dst _ _ _ _ _ (by decide) (by decide)]
  rfl

/-- C11, the code at the failing input: on the surface of 640 by 480 pixels
with a canvas of the same size, `y = -65536` maps to `surfaceY = -65536`, far
above the surface for an image one row high, where the claim has nothing
written.  The `uint16_t` row counter starts at `-surfaceY = 65536` truncated
to 0, row 0 passes the test `iY + i < xfbHeight`, and its 4 bytes are copied to
surface row -65536, that is to unit -20971520 of the target buffer. -/
theorem Display_row_counter_wraps :
    Display.iY mode640 (F32.ofInt 480) (F32.ofInt (-65536)) ≤ -tinyImage._iHeight
    ∧ Display tinyImage (List.replicate 153600 0) mode640 (F32.ofInt 640) (F32.ofInt 480)
        (F32.ofInt 0) (F32.ofInt (-65536))
      = ⟨Status.fault, { tinyImage with _iPosX := 0, _iPosY := -65536 },
          List.replicate 153600 0, [⟨-20971520, 0, 4⟩]⟩ := by
  refine ⟨by decide, ?_⟩
  rw [Display_eval _ _ _ _ _ _ _ 0 (-65536) 0 (-65536) (by decide) (by decide) (by decide)
    (by decide) (by decide) (by decide)]
  rw [if_pos (by decide)]
  have hi : (if (-65536 : Int) ≥ 0 then 0 else ((-(-65536 : Int)) % 65536).toNat) = 0 := by
    decide
  rw [hi, Display.loop_above_640 _ _ rfl rfl]

/-! ## The indices of the packer -/

/-- C20, the code at a failing input: for the width 2 and the height 32768 the
row counter of type `s16` follows 32767 by -32768, which is still below the
height; the RGB index of that round, the `uint32_t` sum
`uiRow + uiColumn = 4294770688`, is not below `2 * 32768 * 3 = 196608`, and
the round reads outside the RGB buffer. -/
theorem packLoop_reads_outside :
    s16 (32767 + 1) = -32768
    ∧ s16 (32767 + 1) < 32768
    ∧ (u32 (s16 (32767 + 1) * 2 * tjPixelSizeRGB) + u32 (0 * (tjPixelSizeRGB * 2)))
        % 4294967296 = 4294770688
    ∧ ¬ ((4294770688 : Int) < 2 * 32768 * 3)
    ∧ (packLoop (List.replicate 196608 0) 2 32768 1 (s16 (32767 + 1))
        (List.replicate 32768 0)).1 = Status.fault := by
  refine ⟨by decide, by decide, by decide, by decide, ?_⟩
  have h : s16 (32767 + 1) = -32768 := by decide
  rw [h]
  exact packLoop_overflow _ (List.length_replicate _ _) 1 (-32768) _
    (Or.inr ⟨rfl, by decide⟩) (by rw [List.length_replicate]; decide)

/-! ## Copy and move -/

theorem JPEG.copyCount_even (iWidth iHeight : Int) (hW : 0 ≤ iWidth) (hH : 0 ≤ iHeight)
    (he : iWidth % 2 = 0) (h32 : iWidth * 2 * iHeight < 4294967296) :
    (JPEG.copyCount iWidth iHeight : Int) = 4 * JPEG.allocUnits iWidth iHeight := by
  unfold JPEG.copyCount JPEG.allocUnits toSizeT
  rw [shiftRight_one]
  have h0 : 0 ≤ iWidth * 2 * iHeight := Int.mul_nonneg (by omega) hH
  rw [Int.emod_eq_of_lt h0 h32, Int.toNat_of_nonneg h0]
  have : iWidth * 2 = 4 * (iWidth / 2) := by omega
  rw [this, Int.mul_assoc]

theorem memcpy_whole (src : List Nat) :
    memcpy (List.replicate src.length 0) 0 src 0 (4 * src.length) = some src := by
  obtain ⟨r, hm, hl, hA, _⟩ := memcpy_units (List.replicate src.length 0) src 0 0 src.length
    (le_refl 0) (by rw [List.length_replicate]; omega) (le_refl 0) (by omega)
  rw [hm]
  congr 1
  apply List.ext_getElem?
  intro k
  by_cases hk : k < src.length
  · have := hA k hk
    simpa using this
  · rw [List.getElem?_eq_none (by rw [hl, List.length_replicate]; omega),
      List.getElem?_eq_none (by omega)]

/-- The copy of an image of even width: the object at `this` gets the members
of `o` and a fresh block with the contents of the block of `o`; no other
object and no other block changes. -/
theorem JPEG.copyInto_even (heap : Heap) (obj : Nat → JPEGObj) (this : Nat) (o : JPEGObj)
    (p : Nat) (src : List Nat)
    (hW : 0 ≤ o._iWidth) (hH : 0 ≤ o._iHeight) (he : o._iWidth % 2 = 0)
    (h32 : o._iWidth * 2 * o._iHeight < 4294967296)
    (hp : o._pauiImgBuf = some p) (hsrc : heap.cell p = some src)
    (hlen : (src.length : Int) = JPEG.allocUnits o._iWidth o._iHeight)
    (hfresh : heap.cell heap.next = none) :
    ∃ m1, JPEG.copyInto heap obj this o = Outcome.done m1
      ∧ m1.obj this = { o with _pauiImgBuf := some heap.next }
      ∧ (∀ a, a ≠ this → m1.obj a = obj a)
      ∧ m1.heap.cell heap.next = some src
      ∧ (∀ a, a ≠ heap.next → m1.heap.cell a = heap.cell a)
      ∧ heap.next ≠ p := by
  have hne : p ≠ heap.next := by
    intro h
    rw [h, hfresh] at hsrc
    exact absurd hsrc (by simp)
  have hcount : JPEG.copyCount o._iWidth o._iHeight = 4 * src.length := by
    have := JPEG.copyCount_even o._iWidth o._iHeight hW hH he h32
    omega
  have hn : (JPEG.allocUnits o._iWidth o._iHeight).toNat = src.length := by omega
  unfold JPEG.copyInto
  rw [if_neg (by omega)]
  simp only [hn, hp, hcount, Heap.new, Option.bind, if_neg hne, hsrc, Option.getD,
    memcpy_whole]
  refine ⟨_, rfl, ?_, ?_, ?_, ?_, fun h => hne h.symm⟩
  · simp
  · intro a ha
    simp [ha]
  · simp [Heap.store]
  · intro a ha
    simp [Heap.store, ha]

/-- C13, the code at a failing input: the copy constructor on an image of 3 by
1 pixels, whose packed buffer is one unit (4 bytes), allocates one unit and
copies `(3 << 1) * 1 = 6` bytes: the `memcpy` reads 2 bytes beyond the buffer
of the source and writes 2 bytes beyond the new buffer. -/
theorem JPEG.copyCtor_odd_width :
    JPEG.copyCtor oddMemory 1 0 = Outcome.fault
    ∧ JPEG.allocUnits (oddMemory.obj 0)._iWidth (oddMemory.obj 0)._iHeight = 1
    ∧ JPEG.copyCount (oddMemory.obj 0)._iWidth (oddMemory.obj 0)._iHeight = 6 := by
  refine ⟨rfl, by decide, by decide⟩

/-- C19, the code at a failing input: for the width 3 and the height 1 the copy
assignment transfers `(3 << 1) * 1 = 6` bytes into the buffer of
`(3 >> 1) * 1 = 1` unit, that is of 4 bytes, which it has just allocated. -/
theorem JPEG.copyAssign_odd_width :
    JPEG.copyCount 3 1 = 6 ∧ 4 * JPEG.allocUnits 3 1 = 4
    ∧ JPEG.copyAssign oddMemory 1 0 = Outcome.fault := by
  refine ⟨by decide, by decide, rfl⟩

/-- Copy construction and copy assignment of an image of even width. -/
theorem JPEG.copy_even (m : Memory) (this CjpegOther p : Nat) (src : List Nat)
    (hne : this ≠ CjpegOther)
    (hW : 0 ≤ (m.obj CjpegOther)._iWidth) (hH : 0 ≤ (m.obj CjpegOther)._iHeight)
    (he : (m.obj CjpegOther)._iWidth % 2 = 0)
    (h32 : (m.obj CjpegOther)._iWidth * 2 * (m.obj CjpegOther)._iHeight < 4294967296)
    (hp : (m.obj CjpegOther)._pauiImgBuf = some p) (hsrc : m.heap.cell p = some src)
    (hlen : (src.length : Int)
      = JPEG.allocUnits (m.obj CjpegOther)._iWidth (m.obj CjpegOther)._iHeight)
    (hfresh : m.heap.cell m.heap.next = none)
    (hown : (m.obj this)._pauiImgBuf = none
      ∨ ∃ a buf, (m.obj this)._pauiImgBuf = some a ∧ a ≠ p ∧ m.heap.cell a = some buf) :
    (∃ m1, JPEG.copyCtor m this CjpegOther = Outcome.done m1
      ∧ m1.obj this = { m.obj CjpegOther with _pauiImgBuf := some m.heap.next }
      ∧ m1.obj CjpegOther = m.obj CjpegOther
      ∧ m1.heap.cell m.heap.next = some src ∧ m1.heap.cell p = some src
      ∧ m.heap.next ≠ p)
    ∧ (∃ m1, JPEG.copyAssign m this CjpegOther = Outcome.done m1
      ∧ m1.obj this = { m.obj CjpegOther with _pauiImgBuf := some m.heap.next }
      ∧ m1.obj CjpegOther = m.obj CjpegOther
      ∧ m1.heap.cell m.heap.next = some src ∧ m1.heap.cell p = some src
      ∧ m.heap.next ≠ p)
    ∧ JPEG.copyAssign m this this = Outcome.done m := by
  refine ⟨?_, ?_, ?_⟩
  · obtain ⟨m1, h1, h2, h3, h4, h5, h6⟩ := JPEG.copyInto_even m.heap m.obj this
      (m.obj CjpegOther) p src hW hH he h32 hp hsrc hlen hfresh
    exact ⟨m1, h1, h2, h3 _ (Ne.symm hne), h4, by rw [h5 p (Ne.symm h6)]; exact hsrc, h6⟩
  · unfold JPEG.copyAssign
    rw [if_pos hne]
    rcases hown with h0 | ⟨a, buf, ha, hap, hcell⟩
    · rw [h0]
      simp only [Heap.delete]
      obtain ⟨m1, h1, h2, h3, h4, h5, h6⟩ := JPEG.copyInto_even m.heap m.obj this
        (m.obj CjpegOther) p src hW hH he h32 hp hsrc hlen hfresh
      exact ⟨m1, h1, h2, h3 _ (Ne.symm hne), h4, by rw [h5 p (Ne.symm h6)]; exact hsrc, h6⟩
    · rw [ha]
      simp only [Heap.delete, hcell]
      have hnp : m.heap.next ≠ p := by
        intro h
        rw [h, hsrc] at hfresh
        exact absurd hfresh (by simp)
      obtain ⟨m1, h1, h2, h3, h4, h5, h6⟩ := JPEG.copyInto_even
        { m.heap with cell := fun b => if b = a then none else m.heap.cell b } m.obj this
        (m.obj CjpegOther) p src hW hH he h32 hp (by simp [Ne.symm hap, hsrc]) hlen
        (by simp [hfresh])
      exact ⟨m1, h1, h2, h3 _ (Ne.symm hne), h4,
        by rw [h5 p (Ne.symm h6)]; simp [Ne.symm hap, hsrc], h6⟩
  · unfold JPEG.copyAssign
    rw [if_neg (by simp)]


theorem Memory.image_eq (m m1 : Memory) (this other : Nat)
    (hobj : m1.obj this = m.obj other)
    (hcell : ∀ p, (m.obj other)._pauiImgBuf = some p → m1.heap.cell p = m.heap.cell p) :
    m1.image this = m.image other := by
  unfold Memory.image
  rw [hobj]
  cases hp : (m.obj other)._pauiImgBuf with
  | none => rfl
  | some p => simp [Option.bind, hcell p hp]

/-- C14: move construction and move assignment from a distinct source give the
destination the former width, height, position and buffer address of the
source, leave the block at that address as it was (the destination is the
image the source was), and leave the source with width 0, height 0 and the
null pointer, so that the destination alone holds the buffer and destroying
both objects afterwards releases it once; a move assignment also releases the
former buffer of the destination.  Move-assigning an object to itself changes
nothing. -/
theorem JPEG.move_transfers (m : Memory) (this jpegOther : Nat) (hne : this ≠ jpegOther)
    (hown : (m.obj this)._pauiImgBuf = none
      ∨ ∃ a buf, (m.obj this)._pauiImgBuf = some a ∧ m.heap.cell a = some buf
          ∧ (m.obj jpegOther)._pauiImgBuf ≠ some a)
    (hsrc : (m.obj jpegOther)._pauiImgBuf = none
      ∨ ∃ p buf, (m.obj jpegOther)._pauiImgBuf = some p ∧ m.heap.cell p = some buf) :
    (∃ m1, JPEG.moveCtor m this jpegOther = Outcome.done m1
      ∧ m1.obj this = m.obj jpegOther
      ∧ m1.image this = m.image jpegOther
      ∧ (m1.obj jpegOther)._iWidth = 0 ∧ (m1.obj jpegOther)._iHeight = 0
      ∧ (m1.obj jpegOther)._iPosX = 0 ∧ (m1.obj jpegOther)._iPosY = 0
      ∧ (m1.obj jpegOther)._pauiImgBuf = none
      ∧ m1.heap = m.heap
      ∧ ∃ m2 m3, JPEG.dtor m1 jpegOther = Outcome.done m2
          ∧ JPEG.dtor m2 this = Outcome.done m3)
    ∧ (∃ m1, JPEG.moveAssign m this jpegOther = Outcome.done m1
      ∧ m1.obj this = m.obj jpegOther
      ∧ m1.image this = m.image jpegOther
      ∧ (m1.obj jpegOther)._iWidth = 0 ∧ (m1.obj jpegOther)._iHeight = 0
      ∧ (m1.obj jpegOther)._iPosX = 0 ∧ (m1.obj jpegOther)._iPosY = 0
      ∧ (m1.obj jpegOther)._pauiImgBuf = none
      ∧ (∀ a, (m.obj this)._pauiImgBuf = some a → m1.heap.cell a = none)
      ∧ ∃ m2 m3, JPEG.dtor m1 jpegOther = Outcome.done m2
          ∧ JPEG.dtor m2 this = Outcome.done m3)
    ∧ JPEG.moveAssign m this this = Outcome.done m := by
  have hne2 : jpegOther ≠ this := Ne.symm hne
  have hemp : ∀ M : Memory, (M.setObj jpegOther JPEGObj.emptied).obj jpegOther
      = JPEGObj.emptied := by
    intro M
    simp [Memory.setObj]
  refine ⟨?_, ?_, ?_⟩
  · have hobj : ((m.setObj this (m.obj jpegOther)).setObj jpegOther JPEGObj.emptied).obj this
        = m.obj jpegOther := by
      simp [Memory.setObj, hne]
    refine ⟨_, rfl, hobj, Memory.image_eq m _ this jpegOther hobj (fun _ _ => rfl),
      by rw [hemp]; rfl, by rw [hemp]; rfl, by rw [hemp]; rfl, by rw [hemp]; rfl,
      by rw [hemp]; rfl, rfl, ?_⟩
    rcases hsrc with h0 | ⟨p, buf, hp, hcell⟩
    · simp [JPEG.dtor, Memory.setObj, Heap.delete, hne, h0, JPEGObj.emptied]
    · simp [JPEG.dtor, Memory.setObj, Heap.delete, hne, hp, hcell, JPEGObj.emptied]
  · unfold JPEG.moveAssign
    rw [if_pos hne]
    rcases hown with h0 | ⟨a, abuf, ha, hacell, hdiff⟩
    · rw [h0]
      simp only [Heap.delete]
      have hobj : (({ m with heap := m.heap }.setObj this (m.obj jpegOther)).setObj jpegOther
          JPEGObj.emptied).obj this = m.obj jpegOther := by
        simp [Memory.setObj, hne]
      refine ⟨_, rfl, hobj, Memory.image_eq m _ this jpegOther hobj (fun _ _ => rfl),
        by rw [hemp]; rfl, by rw [hemp]; rfl, by rw [hemp]; rfl, by rw [hemp]; rfl,
        by rw [hemp]; rfl, ?_, ?_⟩
      · intro a ha
        simp at ha
      · rcases hsrc with h1 | ⟨p, buf, hp, hcell⟩
        · simp [JPEG.dtor, Memory.setObj, Heap.delete, hne, h1, JPEGObj.emptied]
        · simp [JPEG.dtor, Memory.setObj, Heap.delete, hne, hp, hcell, JPEGObj.emptied]
    · rw [ha]
      simp only [Heap.delete, hacell]
      have hobj : (({ m with heap := { m.heap with
            cell := fun b => if b = a then none else m.heap.cell b } }.setObj this
          (m.obj jpegOther)).setObj jpegOther JPEGObj.emptied).obj this = m.obj jpegOther := by
        simp [Memory.setObj, hne]
      have hkeep : ∀ p, (m.obj jpegOther)._pauiImgBuf = some p →
          (({ m with heap := { m.heap with
              cell := fun b => if b = a then none else m.heap.cell b } }.setObj this
            (m.obj jpegOther)).setObj jpegOther JPEGObj.emptied).heap.cell p
            = m.heap.cell p := by
        intro p hp
        have hpa : p ≠ a := by
          intro h
          rw [h] at hp
          exact hdiff hp
        simp [Memory.setObj, hpa]
      refine ⟨_, rfl, hobj, Memory.image_eq m _ this jpegOther hobj hkeep,
        by rw [hemp]; rfl, by rw [hemp]; rfl, by rw [hemp]; rfl, by rw [hemp]; rfl,
        by rw [hemp]; rfl, ?_, ?_⟩
      · intro a1 ha1
        have : a1 = a := by simpa using ha1.symm
        simp [Memory.setObj, this]
      · rcases hsrc with h1 | ⟨p, buf, hp, hcell⟩
        · simp [JPEG.dtor, Memory.setObj, Heap.delete, hne, h1, JPEGObj.emptied]
        · have hpa : p ≠ a := by
            intro h
            rw [h] at hp
            exact hdiff hp
          simp [JPEG.dtor, Memory.setObj, Heap.delete, hne, hp, hcell, hpa, JPEGObj.emptied]
  · unfold JPEG.moveAssign
    rw [if_neg (by simp)]

/-- Witness of C14: the image of `sampleMemory` moved from address 0 to the
empty object at address 1. -/
theorem JPEG.move_transfers_witness :
    ∃ m1, JPEG.moveAssign sampleMemory 1 0 = Outcome.done m1
      ∧ m1.obj 1 = sampleMemory.obj 0
      ∧ m1.image 1 = sampleMemory.image 0
      ∧ (m1.obj 0)._iWidth = 0 ∧ (m1.obj 0)._iHeight = 0
      ∧ (m1.obj 0)._iPosX = 0 ∧ (m1.obj 0)._iPosY = 0 ∧ (m1.obj 0)._pauiImgBuf = none
      ∧ (∀ a, (sampleMemory.obj 1)._pauiImgBuf = some a → m1.heap.cell a = none)
      ∧ ∃ m2 m3, JPEG.dtor m1 0 = Outcome.done m2 ∧ JPEG.dtor m2 1 = Outcome.done m3 :=
  (JPEG.move_transfers sampleMemory 1 0 (by decide) (Or.inl rfl)
    (Or.inr ⟨0, [1, 2, 3, 4], rfl, rfl⟩)).2.1

/-! ## The errors and the buffers of the constructors -/

/-- Counterexample to C16: a header-parse failure, a decompression failure and
a zero-length input reach the caller as the same error, a `std::runtime_error`
with the error string of the codec. -/
theorem JPEG.ctorBuffer_same_error :
    (JPEG.ctorBuffer envHeaderFails [1]).outcome
        = Outcome.thrown (Exn.runtime_error "Bogus marker length")
    ∧ (JPEG.ctorBuffer envDecodeFails [1]).outcome
        = Outcome.thrown (Exn.runtime_error "Bogus marker length")
    ∧ (JPEG.ctorBuffer envHeaderFails []).outcome
        = Outcome.thrown (Exn.runtime_error "Bogus marker length") := by
  refine ⟨rfl, rfl, rfl⟩

/-- C16, amended: the constructor from a compressed buffer reports a null
decoder handle, a header-parse failure and a decompression failure each as a
`std::runtime_error` with the error string of the codec, and the failure to
allocate the intermediate buffer as `std::bad_alloc`, for every input, the
empty one included, and every outcome of the codec; only the constructor
from a file reports an empty input, as `std::ios_base::failure`. -/
theorem JPEG.ctorBuffer_errors (env : Env) (CpauyJpegBuf : List UInt8) :
    (∀ what, env.tjInitDecompress = some what →
      (JPEG.ctorBuffer env CpauyJpegBuf).outcome = Outcome.thrown (Exn.runtime_error what))
    ∧ (∀ what, env.tjInitDecompress = none →
        env.tjDecompressHeader3 CpauyJpegBuf = Except.error what →
        (JPEG.ctorBuffer env CpauyJpegBuf).outcome = Outcome.thrown (Exn.runtime_error what))
    ∧ (∀ iWidth iHeight, env.tjInitDecompress = none →
        env.tjDecompressHeader3 CpauyJpegBuf = Except.ok (iWidth, iHeight) →
        env.tjAlloc (iWidth * iHeight * 3) = false →
        (JPEG.ctorBuffer env CpauyJpegBuf).outcome = Outcome.thrown Exn.bad_alloc)
    ∧ (∀ iWidth iHeight what, env.tjInitDecompress = none →
        env.tjDecompressHeader3 CpauyJpegBuf = Except.ok (iWidth, iHeight) →
        env.tjAlloc (iWidth * iHeight * 3) = true →
        env.tjDecompress2 CpauyJpegBuf = Except.error what →
        (JPEG.ctorBuffer env CpauyJpegBuf).outcome = Outcome.thrown (Exn.runtime_error what))
    ∧ (∀ what, Exn.bad_alloc ≠ Exn.runtime_error what)
    ∧ (JPEG.ctorFile env []).outcome
        = Outcome.thrown (Exn.ios_failure "Input file contains no data") := by
  refine ⟨?_, ?_, ?_, ?_, ?_, rfl⟩
  · intro what h
    unfold JPEG.ctorBuffer
    rw [h]
  · intro what h1 h2
    unfold JPEG.ctorBuffer
    rw [h1, h2]
  · intro w h h1 h2 h3
    unfold JPEG.ctorBuffer
    rw [h1, h2]
    simp only [show tjPixelSizeRGB = 3 from rfl, h3, if_true]
  · intro w h what h1 h2 h3 h4
    unfold JPEG.ctorBuffer
    rw [h1, h2]
    simp only [show tjPixelSizeRGB = 3 from rfl, h3, h4]
    simp
  · intro what h
    exact Exn.noConfusion h

/-- Witness of the amended C16: a decompression failure after a good header. -/
theorem JPEG.ctorBuffer_errors_witness :
    envDecodeFails.tjInitDecompress = none
    ∧ envDecodeFails.tjDecompressHeader3 [1] = Except.ok (2, 1)
    ∧ envDecodeFails.tjAlloc (2 * 1 * 3) = true
    ∧ envDecodeFails.tjDecompress2 [1] = Except.error "Bogus marker length"
    ∧ (JPEG.ctorBuffer envDecodeFails [1]).outcome
        = Outcome.thrown (Exn.runtime_error "Bogus marker length") :=
  ⟨rfl, rfl, rfl, rfl,
    (JPEG.ctorBuffer_errors envDecodeFails [1]).2.2.2.1 2 1 "Bogus marker length"
      rfl rfl rfl rfl⟩

/-- C17, the code at a failing input: when the codec has decoded the image and
`new uint32_t[...]` throws `std::bad_alloc`, the constructor ends with the
decoded RGB buffer (and the decoder handle) still allocated, whereas on the
sibling path of a decompression failure it frees the RGB buffer first. -/
theorem JPEG.ctorBuffer_leaks :
    JPEG.ctorBuffer envNewFails [1]
      = ⟨Outcome.thrown Exn.bad_alloc, [Resource.tjHandle, Resource.pauyRgbBuf]⟩
    ∧ JPEG.ctorFile envNewFails [1]
      = ⟨Outcome.thrown Exn.bad_alloc, [Resource.tjHandle, Resource.pauyRgbBuf]⟩
    ∧ (JPEG.ctorBuffer envDecodeFails [1]).live = [Resource.tjHandle] := by
  refine ⟨rfl, rfl, rfl⟩
